import Mathlib

/-!
# kgate: a verification development

A shallow embedding of the parts of `gitlayzer/kgate` that its specification
makes claims about, followed by the theorems that settle those claims.

* `cmd/discover.go`: `ipListFromCIDR` (with the pieces of Go's `net` and
  `net/netip` packages it calls) and the control flow of `runDiscover`;
* `internal/config/config.go`: `Config`, `FindNode`, `FindCluster`, `AddNode`;
* `cmd/exec.go`, `cmd/connect.go`: the composed `ssh` argument lists, and the POSIX
  shell's token rules, by which the bastion reads the inner invocation;
* `cmd/scp.go`: the process orchestration of `upload` and `download`.

Loops that need not end take a `fuel` argument and return `none` when the fuel is
used up before the loop has ended; flows are lists of events with an ending.

Bytes are natural numbers; every operation that writes a byte keeps it below
256 (`% 256`), as Go's `byte` arithmetic does.
-/

namespace Kgate

/-! ## Go `net`: addresses, masks and networks -/

/-- Go `net.IP`: a byte slice. The nil slice is the empty list. -/
abbrev IP := List Nat

/-- Go `net.IPMask`: a byte slice. -/
abbrev IPMask := List Nat

/-- Go `net.IPNet`: a network number and its mask. -/
structure IPNet where
  IP : IP
  Mask : IPMask
deriving DecidableEq

/-- Go `net.IPv4len`. -/
def IPv4len : Nat := 4

/-- Go `net.IPv6len`. -/
def IPv6len : Nat := 16

/-- Go `net.v4InV6Prefix`: the twelve leading bytes of an IPv4-mapped address. -/
def v4InV6Prefix : List Nat := [0, 0, 0, 0, 0, 0, 0, 0, 0, 0, 0xff, 0xff]

/-- Go `net.isZeros`. -/
def isZeros (p : List Nat) : Bool := p.all (fun b => b == 0)

/-- Go `net.allFF`. -/
def allFF (p : List Nat) : Bool := p.all (fun b => b == 0xff)

/-- Go `IP.To4`: the 4-byte form of an IPv4 address, nil for anything else. -/
def To4 (ip : IP) : IP :=
  if ip.length = IPv4len then ip
  else if ip.length = IPv6len ∧ isZeros (ip.take 10) = true ∧ ip.getD 10 0 = 0xff
      ∧ ip.getD 11 0 = 0xff then
    (ip.drop 12).take 4
  else []

/-- Go `net.CIDRMask`, the loop that fills the mask: `l` bytes left, `n` one-bits left. -/
def cidrMaskBytes : Nat → Nat → List Nat
  | 0, _ => []
  | l + 1, n =>
    if n ≥ 8 then 0xff :: cidrMaskBytes l (n - 8)
    else (255 - (0xff >>> n)) :: cidrMaskBytes l 0

/-- Go `net.CIDRMask`: nil unless `bits` is 32 or 128 and `ones ≤ bits`. -/
def CIDRMask (ones bits : Nat) : IPMask :=
  if bits ≠ 8 * IPv4len ∧ bits ≠ 8 * IPv6len then []
  else if ones > bits then []
  else cidrMaskBytes (bits / 8) ones

/-- Go `IP.Mask`: the byte-wise AND of an address with a mask, after bringing a
4-in-16 address or mask to the other operand's length; nil on a length mismatch. -/
def Mask (ip : IP) (mask : IPMask) : IP :=
  let mask := if mask.length = IPv6len ∧ ip.length = IPv4len ∧ allFF (mask.take 12) = true
    then mask.drop 12 else mask
  let ip := if mask.length = IPv4len ∧ ip.length = IPv6len ∧ ip.take 12 = v4InV6Prefix
    then ip.drop 12 else ip
  if ip.length ≠ mask.length then []
  else List.zipWith (fun a m => a &&& m) ip mask

/-- Go `net.networkNumberAndMask`: `([], [])` stands for `(nil, nil)`. -/
def networkNumberAndMask (n : IPNet) : IP × IPMask :=
  let ip4 := To4 n.IP
  if ip4 = [] ∧ n.IP.length ≠ IPv6len then ([], [])
  else
    let ip := if ip4 = [] then n.IP else ip4
    let m := n.Mask
    if m.length = IPv4len then
      if ip.length ≠ IPv4len then ([], []) else (ip, m)
    else if m.length = IPv6len then
      if ip.length = IPv4len then (ip, m.drop 12) else (ip, m)
    else ([], [])

/-- The comparison loop of Go `IPNet.Contains`: all bytes agree under the mask. -/
def sameNetwork : List Nat → List Nat → List Nat → Bool
  | n :: nn, m :: ms, b :: ip => if n &&& m ≠ b &&& m then false else sameNetwork nn ms ip
  | _, _, _ => true

/-- Go `IPNet.Contains`. -/
def Contains (n : IPNet) (ip : IP) : Bool :=
  let (nn, m) := networkNumberAndMask n
  let x := To4 ip
  let ip := if x ≠ [] then x else ip
  if ip.length ≠ nn.length then false
  else sameNetwork nn m ip

/-! ## Go `net/netip`: rendering an address -/

/-- The ASCII digit of `d < 10`. -/
def decDigit (d : Nat) : Char := Char.ofNat (48 + d)

/-- The lower-case hexadecimal digit of `d < 16`. -/
def hexDigit (d : Nat) : Char := if d < 10 then Char.ofNat (48 + d) else Char.ofNat (87 + d)

/-- One octet in decimal, without leading zeros. -/
def appendDecimal (b : Nat) : List Char :=
  if b ≥ 100 then [decDigit (b / 100), decDigit (b / 10 % 10), decDigit (b % 10)]
  else if b ≥ 10 then [decDigit (b / 10), decDigit (b % 10)]
  else [decDigit b]

/-- Go `netip.appendHex`: a 16-bit field in hexadecimal, without leading zeros. -/
def appendHex (x : Nat) : List Char :=
  (if x ≥ 0x1000 then [hexDigit (x >>> 12)] else [])
  ++ (if x ≥ 0x100 then [hexDigit (x >>> 8 &&& 0xf)] else [])
  ++ (if x ≥ 0x10 then [hexDigit (x >>> 4 &&& 0xf)] else [])
  ++ [hexDigit (x &&& 0xf)]

/-- Dotted-decimal text of a 4-byte address (`netip.Addr.string4`). -/
def string4 (ip : List Nat) : List Char :=
  appendDecimal (ip.getD 0 0) ++ ['.'] ++ appendDecimal (ip.getD 1 0) ++ ['.']
  ++ appendDecimal (ip.getD 2 0) ++ ['.'] ++ appendDecimal (ip.getD 3 0)

/-- Go `Addr.v6u16`: the `i`-th 16-bit field of a 16-byte address. -/
def v6u16 (ip : List Nat) (i : Nat) : Nat := ip.getD (2 * i) 0 * 256 + ip.getD (2 * i + 1) 0

/-- The number of consecutive zero fields from field `j` on (at most `k`). -/
def zeroRun (ip : List Nat) : Nat → Nat → Nat
  | 0, _ => 0
  | k + 1, j => if j < 8 ∧ v6u16 ip j = 0 then 1 + zeroRun ip k (j + 1) else 0

/-- First loop of `appendTo6`: the longest run of at least two zero fields,
as `(zeroStart, zeroEnd)`; `(255, 255)` when there is none. -/
def longestZeroRun (ip : List Nat) : Nat × Nat :=
  (List.range 8).foldl
    (fun (z : Nat × Nat) i =>
      let j := i + zeroRun ip 8 i
      let l := j - i
      if l ≥ 2 ∧ l > z.2 - z.1 then (i, j) else z)
    (255, 255)

/-- Second loop of `appendTo6`. -/
def appendFields6 (ip : List Nat) (zeroStart zeroEnd : Nat) : Nat → Nat → List Char → List Char
  | 0, _, ret => ret
  | fuel + 1, i, ret =>
    if i < 8 then
      if i = zeroStart then
        let ret := ret ++ [':', ':']
        let i := zeroEnd
        if i ≥ 8 then ret
        else appendFields6 ip zeroStart zeroEnd fuel (i + 1) (ret ++ appendHex (v6u16 ip i))
      else
        let ret := if i > 0 then ret ++ [':'] else ret
        appendFields6 ip zeroStart zeroEnd fuel (i + 1) (ret ++ appendHex (v6u16 ip i))
    else ret

/-- Text of a 16-byte address that is not IPv4-mapped (`netip.Addr.string6`). -/
def string6 (ip : List Nat) : List Char :=
  let z := longestZeroRun ip
  appendFields6 ip z.1 z.2 8 0 []

/-- Go `IP.String`. -/
def IPString (ip : IP) : String :=
  if ip.length = 0 then "<nil>"
  else if ip.length ≠ IPv4len ∧ ip.length ≠ IPv6len then
    String.mk ('?' :: ip.flatMap (fun b => [hexDigit (b / 16), hexDigit (b % 16)]))
  else
    let p4 := To4 ip
    if p4.length = IPv4len then String.mk (string4 p4)
    else String.mk (string6 ip)

/-! ## Go `net/netip` and `net`: parsing a CIDR string -/

/-- Go `netip.Addr` as far as `ParseCIDR` uses it: the 16 bytes of `As16`, whether
the address is an IPv4 address (`BitLen` 32), and the IPv6 zone. -/
structure Addr where
  bytes : List Nat
  is4 : Bool
  zone : List Char
deriving DecidableEq

/-- Go `Addr.BitLen`. -/
def Addr.BitLen (a : Addr) : Nat := if a.is4 then 32 else 128

/-- Go `netip.AddrFrom4`: stored as an IPv4-mapped 16-byte value. -/
def AddrFrom4 (fields : List Nat) : Addr :=
  { bytes := v4InV6Prefix ++ fields, is4 := true, zone := [] }

/-- An ASCII decimal digit. -/
def isDigit (c : Char) : Bool := 48 ≤ c.toNat && c.toNat ≤ 57

/-- Go `netip.parseIPv4Fields` on the text that is left: `first` says the current
byte is the first one, `prevDot` that the byte before it was a dot. -/
def parseIPv4Fields : List Char → Bool → Bool → Nat → Nat → Nat → List Nat → Option (List Nat)
  | [], _, _, val, pos, _, fields => if pos < 3 then none else some (fields.set 3 val)
  | c :: cs, first, prevDot, val, pos, digLen, fields =>
    if isDigit c then
      if digLen = 1 ∧ val = 0 then none
      else
        let val := val * 10 + (c.toNat - 48)
        if val > 255 then none
        else parseIPv4Fields cs false false val pos (digLen + 1) fields
    else if c = '.' then
      if first ∨ cs = [] ∨ prevDot then none
      else if pos = 3 then none
      else parseIPv4Fields cs false true 0 (pos + 1) 0 (fields.set pos val)
    else none

/-- Go `netip.parseIPv4`. -/
def parseIPv4 (s : List Char) : Option Addr :=
  match parseIPv4Fields s true false 0 0 0 [0, 0, 0, 0] with
  | none => none
  | some fields => some (AddrFrom4 fields)

/-- The value of a hexadecimal digit, `none` for any other byte. -/
def hexVal (c : Char) : Option Nat :=
  if 48 ≤ c.toNat ∧ c.toNat ≤ 57 then some (c.toNat - 48)
  else if 97 ≤ c.toNat ∧ c.toNat ≤ 102 then some (c.toNat - 97 + 10)
  else if 65 ≤ c.toNat ∧ c.toNat ≤ 70 then some (c.toNat - 65 + 10)
  else none

/-- The hex-number loop of `parseIPv6`: `none` on an error, else the value, the
number of digits read and the text left. -/
def scanHex : List Char → Nat → Nat → Option (Nat × Nat × List Char)
  | [], off, acc => some (acc, off, [])
  | c :: cs, off, acc =>
    match hexVal c with
    | none => some (acc, off, c :: cs)
    | some d =>
      let acc := (acc * 16 + d) % 2 ^ 32
      if off > 3 then none
      else if acc > 0xffff then none
      else scanHex cs (off + 1) acc

/-- The main loop of `parseIPv6` (`for i < 16`): text left, write position,
address bytes, position of the ellipsis. Every round that continues adds 2 to
`i`, so eight rounds reach `i = 16`. -/
def parseIPv6Loop : Nat → List Char → Nat → List Nat → Option Nat →
    Option (List Char × Nat × List Nat × Option Nat)
  | 0, s, i, ip, ellipsis => some (s, i, ip, ellipsis)
  | fuel + 1, s, i, ip, ellipsis =>
    if ¬ i < 16 then some (s, i, ip, ellipsis)
    else
      match scanHex s 0 0 with
      | none => none
      | some (acc, off, rest) =>
        if off = 0 then none
        else if rest.head? = some '.' then
          if ellipsis = none ∧ i ≠ 12 then none
          else if i + 4 > 16 then none
          else
            match parseIPv4Fields s true false 0 0 0 [0, 0, 0, 0] with
            | none => none
            | some f =>
              some ([], i + 4,
                (((ip.set i (f.getD 0 0)).set (i + 1) (f.getD 1 0)).set (i + 2) (f.getD 2 0)).set
                  (i + 3) (f.getD 3 0),
                ellipsis)
        else
          let ip := (ip.set i (acc / 256 % 256)).set (i + 1) (acc % 256)
          let i := i + 2
          match rest with
          | [] => some ([], i, ip, ellipsis)
          | c :: s1 =>
            if c ≠ ':' then none
            else
              match s1 with
              | [] => none
              | c1 :: s2 =>
                if c1 = ':' then
                  if ellipsis ≠ none then none
                  else if s2 = [] then some ([], i, ip, some i)
                  else parseIPv6Loop fuel s2 i ip (some i)
                else parseIPv6Loop fuel (c1 :: s2) i ip ellipsis

/-- The ellipsis expansion of `parseIPv6`: move the bytes `[ellipsis, i)` up by
`n = 16 - i` (highest first), then clear `[ellipsis, ellipsis + n)`. -/
def expandEllipsis (ip : List Nat) (i ellipsis : Nat) : List Nat :=
  let n := 16 - i
  let moved := (List.range (i - ellipsis)).foldl
    (fun (ip : List Nat) t => let j := i - 1 - t; ip.set (j + n) (ip.getD j 0)) ip
  (List.range n).foldl (fun (ip : List Nat) k => ip.set (ellipsis + k) 0) moved

/-- Go `netip.parseIPv6`. -/
def parseIPv6 (s0 : List Char) : Option Addr :=
  let hasZone := s0.contains '%'
  let s := s0.takeWhile (fun c => c ≠ '%')
  let zone := (s0.dropWhile (fun c => c ≠ '%')).drop 1
  if hasZone ∧ zone = [] then none
  else
    let ip0 := List.replicate 16 0
    let lead : Bool := match s with
      | ':' :: ':' :: _ => true
      | _ => false
    let s := if lead then s.drop 2 else s
    let ellipsis : Option Nat := if lead then some 0 else none
    if lead = true ∧ s = [] then some { bytes := ip0, is4 := false, zone := zone }
    else
      match parseIPv6Loop 8 s 0 ip0 ellipsis with
      | none => none
      | some (s, i, ip, ellipsis) =>
        if s ≠ [] then none
        else if i < 16 then
          match ellipsis with
          | none => none
          | some e => some { bytes := expandEllipsis ip i e, is4 := false, zone := zone }
        else if ellipsis ≠ none then none
        else some { bytes := ip, is4 := false, zone := zone }

/-- Go `netip.ParseAddr`: the first `.`, `:` or `%` decides which parser runs. -/
def ParseAddrFrom (s : List Char) : List Char → Option Addr
  | [] => none
  | c :: cs =>
    if c = '.' then parseIPv4 s
    else if c = ':' then parseIPv6 s
    else if c = '%' then none
    else ParseAddrFrom s cs

/-- Go `netip.ParseAddr`. -/
def ParseAddr (s : List Char) : Option Addr := ParseAddrFrom s s

/-- Go `net.big`. -/
def big : Nat := 0xFFFFFF

/-- Go `net.dtoi` on the text that is left: value so far and digits read so far in,
`(n, i, ok)` out. -/
def dtoiFrom : List Char → Nat → Nat → Nat × Nat × Bool
  | [], n, i => if i = 0 then (0, 0, false) else (n, i, true)
  | c :: cs, n, i =>
    if isDigit c then
      let n := n * 10 + (c.toNat - 48)
      if n ≥ big then (big, i, false) else dtoiFrom cs n (i + 1)
    else if i = 0 then (0, 0, false) else (n, i, true)

/-- Go `net.dtoi`. -/
def dtoi (s : List Char) : Nat × Nat × Bool := dtoiFrom s 0 0

/-- Go `net.ParseError`. -/
structure ParseError where
  kind : String
  text : String
deriving DecidableEq

deriving instance DecidableEq for Except

/-- Go `net.ParseCIDR`. -/
def ParseCIDR (s : String) : Except ParseError (IP × IPNet) :=
  let cs := s.toList
  if ¬ cs.contains '/' then .error ⟨"CIDR address", s⟩
  else
    let addr := cs.takeWhile (fun c => c ≠ '/')
    let mask := (cs.dropWhile (fun c => c ≠ '/')).drop 1
    match ParseAddr addr with
    | none => .error ⟨"CIDR address", s⟩
    | some ipAddr =>
      if ipAddr.zone ≠ [] then .error ⟨"CIDR address", s⟩
      else
        let (n, i, ok) := dtoi mask
        if ¬ ok ∨ i ≠ mask.length ∨ n > ipAddr.BitLen then .error ⟨"CIDR address", s⟩
        else
          let m := CIDRMask n ipAddr.BitLen
          .ok (ipAddr.bytes, { IP := Mask ipAddr.bytes m, Mask := m })

/-! ## `cmd/discover.go`: `ipListFromCIDR` -/

/-- The carry loop of the increment, on the bytes from the last one upwards:
`ip[j]++` wraps at 256, and the loop stops at the first byte that did not wrap. -/
def incFromLast : List Nat → List Nat
  | [] => []
  | b :: bs =>
    let b1 := (b + 1) % 256
    if b1 > 0 then b1 :: bs else b1 :: incFromLast bs

/-- The post statement of the loop in `ipListFromCIDR`: a byte-wise increment with
carry, `for j := len(ip) - 1; j >= 0; j--`. -/
def incIP (ip : IP) : IP := (incFromLast ip.reverse).reverse

/-- The loop of `ipListFromCIDR`: while the network contains `ip`, append its text
and increment it. `none` when `fuel` rounds did not reach the end of the loop. -/
def enumerate (ipnet : IPNet) : Nat → IP → List String → Option (List String)
  | 0, _, _ => none
  | fuel + 1, ip, ips =>
    if Contains ipnet ip then enumerate ipnet fuel (incIP ip) (ips ++ [IPString ip])
    else some ips

/-- The function `ipListFromCIDR` of `cmd/discover.go`. `none` when the loop is
still running after `fuel` rounds; otherwise the parse error or the list, without
its first and last entry when it has more than two. -/
def ipListFromCIDR (fuel : Nat) (cidr : String) : Option (Except ParseError (List String)) :=
  match ParseCIDR cidr with
  | .error err => some (.error err)
  | .ok (ip, ipnet) =>
    match enumerate ipnet fuel (Mask ip ipnet.Mask) [] with
    | none => none
    | some ips =>
      if ips.length > 2 then some (.ok ((ips.take (ips.length - 1)).drop 1))
      else some (.ok ips)

/-! ## `internal/config/config.go` -/

/-- A node of `config.go`. -/
structure Node where
  Alias : String
  IP : String
  User : String
deriving DecidableEq

/-- A bastion of `config.go`. -/
structure Bastion where
  Host : String
  User : String
  Port : Int
  IdentityFile : String
deriving DecidableEq

/-- A cluster of `config.go`. -/
structure Cluster where
  Name : String
  Bastion : Bastion
  Nodes : List Node
deriving DecidableEq

/-- The configuration of `config.go`. -/
structure Config where
  Clusters : List Cluster
deriving DecidableEq

/-- The inner loop of `FindNode`, `for j, node := range cluster.Nodes`, from index
`j` on: the index of the first node whose alias is `nodeAlias`. -/
def findNodeIn (nodeAlias : String) : List Node → Nat → Option Nat
  | [], _ => none
  | node :: rest, j => if node.Alias = nodeAlias then some j else findNodeIn nodeAlias rest (j + 1)

/-- The outer loop of `FindNode`, `for i, cluster := range c.Clusters`, from index
`i` on: the indices `(i, j)` at which the function returns. -/
def findNodeFrom (nodeAlias : String) : List Cluster → Nat → Option (Nat × Nat)
  | [], _ => none
  | cluster :: rest, i =>
    match findNodeIn nodeAlias cluster.Nodes 0 with
    | some j => some (i, j)
    | none => findNodeFrom nodeAlias rest (i + 1)

/-- The method `Config.FindNode`. The two pointers it returns, `&c.Clusters[i].Nodes[j]`
and `&c.Clusters[i]`, are the pair of indices `(i, j)`. -/
def Config.FindNode (c : Config) (nodeAlias : String) : Except String (Nat × Nat) :=
  match findNodeFrom nodeAlias c.Clusters 0 with
  | some r => .ok r
  | none => .error ("node with alias '" ++ nodeAlias ++ "' not found")

/-- The loop of `FindCluster` from index `i` on. -/
def findClusterFrom (name : String) : List Cluster → Nat → Option Nat
  | [], _ => none
  | cluster :: rest, i => if cluster.Name = name then some i else findClusterFrom name rest (i + 1)

/-- The method `Config.FindCluster`; the pointer `&c.Clusters[i]` is the index `i`. -/
def Config.FindCluster (c : Config) (name : String) : Except String Nat :=
  match findClusterFrom name c.Clusters 0 with
  | some i => .ok i
  | none => .error ("cluster with name '" ++ name ++ "' not found")

/-- The method `Cluster.AddNode`. -/
def Cluster.AddNode (c : Cluster) (nodeAlias ip user : String) : Cluster :=
  let newNode : Node := { Alias := nodeAlias, IP := ip, User := user }
  { c with Nodes := c.Nodes ++ [newNode] }

/-- What a pointer `&c.Clusters[i]` points to. -/
def Config.clusterAt (c : Config) (i : Nat) : Option Cluster := c.Clusters[i]?

/-- What a pointer `&c.Clusters[i].Nodes[j]` points to. -/
def Config.nodeAt (c : Config) (i j : Nat) : Option Node :=
  match c.Clusters[i]? with
  | some cluster => cluster.Nodes[j]?
  | none => none

/-! ## `cmd/exec.go` and `cmd/connect.go`: the composed invocations -/

/-- The external command handed to `exec.Command`: program name and argument list. -/
structure Command where
  Name : String
  Args : List String
deriving DecidableEq

/-- The inner invocation of `runExec`: `fmt.Sprintf("ssh %s \"%s\"", nodeAddr, commandToRun)`. -/
def execRemoteCommand (node : Node) (commandToRun : String) : String :=
  let nodeAddr := node.User ++ "@" ++ node.IP
  "ssh " ++ nodeAddr ++ " \"" ++ commandToRun ++ "\""

/-- The outer argument list of `runExec`. -/
def execSshArgs (bastion : Bastion) (node : Node) (commandToRun : String) : List String :=
  let bastionAddr := bastion.User ++ "@" ++ bastion.Host
  let sshArgs : List String := []
  let sshArgs := if bastion.IdentityFile ≠ "" then sshArgs ++ ["-i", bastion.IdentityFile]
    else sshArgs
  sshArgs ++ [bastionAddr, execRemoteCommand node commandToRun]

/-- The function `runExec` up to the command it runs: the error of `FindNode` (the
function prints it and exits with status 1) or the `ssh` command. `args` has at
least two entries (`cobra.MinimumNArgs(2)`). -/
def runExec (cfg : Config) (args : List String) : Except String Command :=
  let nodeAlias := args.headD ""
  let commandToRun := " ".intercalate (args.drop 1)
  match cfg.FindNode nodeAlias with
  | .error err => .error err
  | .ok (i, j) =>
    match cfg.clusterAt i, cfg.nodeAt i j with
    | some cluster, some node =>
      .ok { Name := "ssh", Args := execSshArgs cluster.Bastion node commandToRun }
    | _, _ => .error "nil pointer"

/-- The inner argument list of `runConnect`; `isTerminal` is the result of
`term.IsTerminal(int(os.Stdin.Fd()))`. -/
def innerSshArgs (isTerminal : Bool) (node : Node) : List String :=
  let nodeAddr := node.User ++ "@" ++ node.IP
  let innerSshArgs : List String := []
  let innerSshArgs := if isTerminal then innerSshArgs ++ ["-t"] else innerSshArgs
  innerSshArgs ++ [nodeAddr, "/bin/bash", "-l"]

/-- The inner invocation of `runConnect`: `"ssh " + strings.Join(innerSshArgs, " ")`. -/
def connectRemoteCommand (isTerminal : Bool) (node : Node) : String :=
  "ssh " ++ " ".intercalate (innerSshArgs isTerminal node)

/-- The outer argument list of `runConnect`. -/
def outerSshArgs (isTerminal : Bool) (bastion : Bastion) (node : Node) : List String :=
  let bastionAddr := bastion.User ++ "@" ++ bastion.Host
  let outerSshArgs : List String := []
  let outerSshArgs := outerSshArgs ++ ["-t"]
  let outerSshArgs := if bastion.IdentityFile ≠ "" then outerSshArgs ++ ["-i", bastion.IdentityFile]
    else outerSshArgs
  outerSshArgs ++ [bastionAddr, connectRemoteCommand isTerminal node]

/-- The function `runConnect` up to the command it runs. -/
def runConnect (cfg : Config) (isTerminal : Bool) (args : List String) : Except String Command :=
  let nodeAlias := args.headD ""
  match cfg.FindNode nodeAlias with
  | .error err => .error err
  | .ok (i, j) =>
    match cfg.clusterAt i, cfg.nodeAt i j with
    | some cluster, some node =>
      .ok { Name := "ssh", Args := outerSshArgs isTerminal cluster.Bastion node }
    | _, _ => .error "nil pointer"

/-! ## POSIX shell: how the remote side reads an invocation string

The bastion's `sshd` hands the inner invocation to the login shell. These are the
token rules of the POSIX shell (XCU 2.2 Quoting, 2.3 Token Recognition) for text
that consists of plain words and quoted parts; text that would start an expansion
or contains an operator has no reading as a plain word list. -/

/-- The double quote, single quote, backslash and backquote characters. -/
def dquote : Char := Char.ofNat 34

/-- The single quote. -/
def squote : Char := Char.ofNat 39

/-- The backslash. -/
def backslash : Char := Char.ofNat 92

/-- The backquote. -/
def backquote : Char := Char.ofNat 96

/-- Where the shell's scanner is: outside quotes, right after an unquoted
backslash, inside double quotes, after a backslash inside double quotes, inside
single quotes. -/
inductive Quoting
  | unquoted
  | escaped
  | double
  | doubleEscaped
  | single
deriving DecidableEq

/-- Blank characters, which delimit words when unquoted. -/
def isBlank (c : Char) : Bool := c = ' ' || c = '\t' || c = '\n'

/-- Characters that the shell does not take literally when unquoted: operators,
the starts of expansions, pattern characters, and the comment, tilde, assignment
and job-control characters (XCU 2.2). -/
def isShellMeta (c : Char) : Bool :=
  c = '|' || c = '&' || c = ';' || c = '<' || c = '>' || c = '(' || c = ')' || c = '$'
  || c = backquote || c = '*' || c = '?' || c = '[' || c = '#' || c = '~' || c = '='
  || c = '%' || c = '!' || c = Char.ofNat 123 || c = Char.ofNat 125

/-- The word in progress with one more literal character. -/
def pushChar (cur : Option (List Char)) (c : Char) : Option (List Char) :=
  some (cur.getD [] ++ [c])

/-- The finished words with the word in progress, if there is one. -/
def flushWord (ws : List String) (cur : Option (List Char)) : List String :=
  match cur with
  | some w => ws ++ [String.mk w]
  | none => ws

/-- The shell's scanner: the words of a command line, `none` when the line is not
a plain list of words (an unterminated quote, an expansion, an operator). -/
def shellWordsFrom : List Char → Quoting → Option (List Char) → List String → Option (List String)
  | [], .unquoted, cur, ws => some (flushWord ws cur)
  | [], _, _, _ => none
  | c :: cs, .unquoted, cur, ws =>
    if isBlank c then shellWordsFrom cs .unquoted none (flushWord ws cur)
    else if c = dquote then shellWordsFrom cs .double (some (cur.getD [])) ws
    else if c = squote then shellWordsFrom cs .single (some (cur.getD [])) ws
    else if c = backslash then shellWordsFrom cs .escaped cur ws
    else if isShellMeta c then none
    else shellWordsFrom cs .unquoted (pushChar cur c) ws
  | c :: cs, .escaped, cur, ws =>
    if c = '\n' then shellWordsFrom cs .unquoted cur ws
    else shellWordsFrom cs .unquoted (pushChar cur c) ws
  | c :: cs, .double, cur, ws =>
    if c = dquote then shellWordsFrom cs .unquoted cur ws
    else if c = backslash then shellWordsFrom cs .doubleEscaped cur ws
    else if c = '$' ∨ c = backquote then none
    else shellWordsFrom cs .double (pushChar cur c) ws
  | c :: cs, .doubleEscaped, cur, ws =>
    if c = '$' ∨ c = backquote ∨ c = dquote ∨ c = backslash then
      shellWordsFrom cs .double (pushChar cur c) ws
    else if c = '\n' then shellWordsFrom cs .double cur ws
    else shellWordsFrom cs .double (pushChar (pushChar cur backslash) c) ws
  | c :: cs, .single, cur, ws =>
    if c = squote then shellWordsFrom cs .unquoted cur ws
    else shellWordsFrom cs .single (pushChar cur c) ws

/-- The words the POSIX shell reads from a command line. -/
def shellWords (line : String) : Option (List String) :=
  shellWordsFrom line.toList .unquoted none []

/-- Characters the shell takes literally outside quotes. -/
def isPlainChar (c : Char) : Bool :=
  !isBlank c && !isShellMeta c && c != dquote && c != squote && c != backslash

/-- Characters the shell takes literally inside double quotes. -/
def isDoubleQuotedLiteral (c : Char) : Bool :=
  c != dquote && c != backslash && c != '$' && c != backquote

/-! ## Process-level behaviour: events and the way a flow ends -/

/-- What a command flow does to the outside world, in the order it does it. -/
inductive Event
  | stdout (msg : String)
  | stderr (msg : String)
  | start (cmd : Command)
  | startFailed (cmd : Command)
  | wait (cmd : Command)
  | sleep (seconds : Nat)
  | dial (target : String)
  | workersDone
  | killGroup (pid : Nat)
  | prompt (label : String)
  | save
deriving DecidableEq

/-- How a flow ends: the function returns (deferred calls have run), `os.Exit`
(deferred calls do not run), a panic (deferred calls run, then the program
crashes), a send that blocks forever, or a loop that has not finished yet. -/
inductive Ending
  | returned
  | exited (status : Int)
  | panicked
  | deadlocked
  | running
deriving DecidableEq

/-- One run of a flow: its events, its ending, and the configuration it leaves. -/
structure Run where
  trace : List Event
  ending : Ending
  cfg : Config
deriving DecidableEq

/-! ## `cmd/discover.go`: `runDiscover` -/

/-- A flag of a command (`pflag.Flag`): its name, the type its value reports
(`Value.Type()`) and the text of its value (`Value.String()`). -/
structure Flag where
  Name : String
  ValueType : String
  Value : String
deriving DecidableEq

/-- The call `cmd.Flags().GetString(name)` of pflag: the value of the string flag
`name` and no error; the empty text and an error when the command defines no flag
of that name, or the flag is not a string flag. -/
def GetString (flags : List Flag) (name : String) : String × Option String :=
  match flags.find? (fun flag => flag.Name = name) with
  | none => ("", some ("flag accessed but not defined: " ++ name))
  | some flag =>
    if flag.ValueType ≠ "string" then
      ("", some ("trying to get string value of flag of type " ++ flag.ValueType))
    else (flag.Value, none)

/-- Everything `runDiscover` reads from outside apart from the flag set of its
command: the package variables bound to the flags of `discoverCmd`, the results of
the calls into the operating system and the libraries, the scheduling of the
workers, and the operator's answers. `reportTime k` is the moment at which the dial
of the `k`-th queued address reports to the channel `openHosts`. -/
structure DiscoverEnv where
  discoverRange : String
  discoverPort : String
  discoverWorkers : Int
  discoverDefaultUser : String
  fuel : Nat
  startErr : Option String
  pid : Nat
  socksErr : Option String
  hasContext : Bool
  accepts : String → Bool
  reportTime : Nat → Nat
  killErr : Option String
  confirmed : Bool
  userAnswer : String
  aliasAnswer : String → String
  saveErr : Option String

/-- The flags `discoverCmd` has when cobra calls its `Run`: the four that `init`
of `discover.go` registers, and the `help` flag cobra adds. No parent command has
persistent flags. A command line that carries `--cluster` is refused by cobra
(`unknown flag`) and `Run` is not called. -/
def discoverCmdFlags (env : DiscoverEnv) : List Flag :=
  [⟨"range", "string", env.discoverRange⟩,
    ⟨"port", "string", env.discoverPort⟩,
    ⟨"workers", "int", toString env.discoverWorkers⟩,
    ⟨"default-user", "string", env.discoverDefaultUser⟩,
    ⟨"help", "bool", "false"⟩]

/-- The flags of `nodesListCmd`, `nodesAddCmd` and `nodesRemoveCmd`, on which `init`
of `nodes.go` defines the string flag `cluster`. -/
def nodesCmdFlags (clusterName : String) : List Flag :=
  [⟨"cluster", "string", clusterName⟩, ⟨"help", "bool", "false"⟩]

/-- The argument list of the tunnel process (`ssh -N -D 127.0.0.1:1080 ...`). -/
def proxySshArgs (bastion : Bastion) : List String :=
  let proxyAddr := "127.0.0.1:" ++ "1080"
  let sshArgs := ["-N", "-D", proxyAddr]
  let sshArgs := if bastion.IdentityFile ≠ "" then sshArgs ++ ["-i", bastion.IdentityFile]
    else sshArgs
  sshArgs ++ [bastion.User ++ "@" ++ bastion.Host]

/-- The deferred function of `runDiscover`: kill the process group of the tunnel. -/
def deferredKill (env : DiscoverEnv) : List Event :=
  [.stdout "\n--> 正在关闭 SSH SOCKS 代理...\n", .killGroup env.pid]
  ++ (match env.killErr with
    | some err => [.stderr ("关闭代理进程组时出错: " ++ err ++ "\n")]
    | none => [.stdout "--> 代理已关闭。\n"])

/-- Step 5 of `runDiscover`: every queued address is dialled by some worker; the
dials are listed in queue order (their real interleaving is up to the scheduler).
`wg.Wait()` returns after the last of them. -/
def scanEvents (ipsToScan : List String) (port : String) : List Event :=
  ipsToScan.map (fun ip => Event.dial (ip ++ ":" ++ port)) ++ [.workersDone]

/-- What `for host := range openHosts` reads: the queued addresses whose dial
succeeded, in the order in which the workers sent them to the channel, that is by
`reportTime` of their place in the queue (queue order among equal times). The
channel has room for every address, so no send blocks. Every order of the
accepting addresses is the reading for some `reportTime`. -/
def openHostsOf (accepts : String → Bool) (reportTime : Nat → Nat) (ipsToScan : List String)
    (port : String) : List String :=
  let dialled := ipsToScan.enum.filter (fun p => accepts (p.2 ++ ":" ++ port))
  (dialled.insertionSort (fun p q => reportTime p.1 ≤ reportTime q.1)).map (fun p => p.2)

/-- Step 6 of `runDiscover`: the open hosts that are not the IP of a node of the cluster. -/
def newHostsOf (cluster : Cluster) (openHosts : List String) : List String :=
  openHosts.filter (fun host => !(cluster.Nodes.map (fun node => node.IP)).contains host)

/-- `cluster.AddNode(...)` through the pointer `&cfg.Clusters[i]`. -/
def Config.addNodeAt (c : Config) (i : Nat) (nodeAlias ip user : String) : Config :=
  { c with Clusters := c.Clusters.modify (fun cl => cl.AddNode nodeAlias ip user) i }

/-- Step 7 of `runDiscover`, the loop over the new hosts. -/
def addHosts (env : DiscoverEnv) (i : Nat) (userForAll : String) :
    List String → Config → List Event → Config × List Event
  | [], cfg, tr => (cfg, tr)
  | host :: rest, cfg, tr =>
    let nodeAlias := env.aliasAnswer host
    addHosts env i userForAll rest (cfg.addNodeAt i nodeAlias host userForAll)
      (tr ++ [.stdout ("\n--- 正在添加主机 " ++ host ++ " ---\n"),
        .prompt ("为此主机 '" ++ host ++ "' 输入别名"),
        .stdout ("已添加节点: " ++ nodeAlias ++ " (" ++ host ++ ")，用户名为 " ++ userForAll ++ "\n")])

/-- The events of step 2 of `runDiscover` when the tunnel process starts. -/
def tunnelStarted (env : DiscoverEnv) (cluster : Cluster) : List Event :=
  [.stdout "--> 正在通过跳板机启动 SSH SOCKS 代理...\n",
    .start ⟨"ssh", proxySshArgs cluster.Bastion⟩,
    .stdout ("--> SSH SOCKS 代理已在端口 1080 上成功启动 (PID: " ++ toString env.pid ++ ")\n"),
    .sleep 2]

/-- The events of `runDiscover` up to the return of `wg.Wait()`. -/
def scanDone (env : DiscoverEnv) (cluster : Cluster) (ipsToScan : List String) : List Event :=
  tunnelStarted env cluster
    ++ [.stdout ("--> 正在扫描 " ++ env.discoverRange ++ " 中的 "
      ++ toString ipsToScan.length ++ " 个主机，查找开放的端口 " ++ env.discoverPort
      ++ "...\n")]
    ++ scanEvents ipsToScan env.discoverPort

/-- The report of the new hosts in step 6 of `runDiscover`, and the question that
follows it. -/
def newHostsReport (newHosts : List String) : List Event :=
  [.stdout ("\n✅ 扫描完成。发现 " ++ toString newHosts.length ++ " 个新的潜在主机:\n")]
    ++ newHosts.map (fun host => Event.stdout ("  - " ++ host ++ "\n"))
    ++ [.prompt "您想将这些主机添加到配置中吗?"]

/-- The function `runDiscover` from step 2 on, for the cluster `&cfg.Clusters[i]`. -/
def discoverCluster (cfg : Config) (env : DiscoverEnv) (i : Nat) (cluster : Cluster) : Run :=
  let t1 : List Event := [.stdout "--> 正在通过跳板机启动 SSH SOCKS 代理...\n"]
  let proxyCmd : Command := ⟨"ssh", proxySshArgs cluster.Bastion⟩
  match env.startErr with
  | some err =>
    ⟨t1 ++ [.startFailed proxyCmd, .stderr ("启动 SSH 代理时出错: " ++ err ++ "\n")],
      .exited 1, cfg⟩
  | none =>
    let t2 := tunnelStarted env cluster
    match ipListFromCIDR env.fuel env.discoverRange with
    | none => ⟨t2, .running, cfg⟩
    | some (.error err) =>
      ⟨t2 ++ [.stderr ("解析 IP 范围时出错: invalid " ++ err.kind ++ ": " ++ err.text ++ "\n")],
        .exited 1, cfg⟩
    | some (.ok ipsToScan) =>
      match env.socksErr with
      | some err => ⟨t2 ++ [.stderr ("创建 SOCKS5 拨号器时出错: " ++ err ++ "\n")], .exited 1, cfg⟩
      | none =>
        if ¬ env.hasContext then
          ⟨t2 ++ [.stderr "错误: 拨号器不支持 context。\n"], .exited 1, cfg⟩
        else if env.discoverWorkers < 0 then
          ⟨t2 ++ deferredKill env, .panicked, cfg⟩
        else
          let t3 := t2 ++ [.stdout ("--> 正在扫描 " ++ env.discoverRange ++ " 中的 "
            ++ toString ipsToScan.length ++ " 个主机，查找开放的端口 " ++ env.discoverPort
            ++ "...\n")]
          if env.discoverWorkers = 0 ∧ ipsToScan ≠ [] then ⟨t3, .deadlocked, cfg⟩
          else
            let t4 := scanDone env cluster ipsToScan
            let openHosts := openHostsOf env.accepts env.reportTime ipsToScan env.discoverPort
            let newHosts := openHosts.filter
              (fun host => !(cluster.Nodes.map (fun node => node.IP)).contains host)
            if newHosts.length = 0 then
              ⟨t4 ++ [.stdout "\n--> 未发现新主机。\n"] ++ deferredKill env, .returned, cfg⟩
            else
              let t5 := t4 ++ newHostsReport newHosts
              if ¬ env.confirmed then
                ⟨t5 ++ [.stdout "操作已中止。\n"] ++ deferredKill env, .returned, cfg⟩
              else
                let askUser := env.discoverDefaultUser = ""
                let userForAll := if askUser then env.userAnswer else env.discoverDefaultUser
                let t6 := if askUser then
                  t5 ++ [.prompt "为所有新主机输入一个通用的用户名 (可稍后逐个修改)"] else t5
                let (cfg1, t7) := addHosts env i userForAll newHosts cfg t6
                let t8 := t7 ++ [.save] ++ (match env.saveErr with
                  | some err => [.stderr ("\n保存配置时出错: " ++ err ++ "\n")]
                  | none => [.stdout "\n✅ 配置已成功保存！\n"])
                ⟨t8 ++ deferredKill env, .returned, cfg1⟩

/-- The function `runDiscover`, called on a command whose flag set is `flags`. -/
def runDiscover (cfg : Config) (flags : List Flag) (env : DiscoverEnv) : Run :=
  let clusterName := (GetString flags "cluster").1
  if clusterName = "" then
    ⟨[.stderr "错误: discover 命令需要 --cluster 标志。\n"], .exited 1, cfg⟩
  else
    match cfg.FindCluster clusterName with
    | .error err => ⟨[.stderr ("错误: " ++ err ++ "\n")], .exited 1, cfg⟩
    | .ok i =>
      match cfg.clusterAt i with
      | none => ⟨[], .panicked, cfg⟩
      | some cluster => discoverCluster cfg env i cluster

/-- The subcommand `kgate nodes discover` as cobra runs it: `runDiscover` on
`discoverCmd`. -/
def discoverCmdRun (cfg : Config) (env : DiscoverEnv) : Run :=
  runDiscover cfg (discoverCmdFlags env) env

/-! ## `cmd/scp.go`: `upload` and `download` -/

/-- Everything `upload` and `download` read from outside: the operating system
name, `filepath.Dir`, `filepath.Base`, whether the local path is an existing
directory, and the results of creating the pipe and of starting and waiting for
the two processes. The producer writes the archive, the consumer reads it. -/
structure ScpEnv where
  goos : String
  dir : String → String
  base : String → String
  isDir : String → Bool
  pipeErr : Option String
  producerStartErr : Option String
  producerWaitErr : Option String
  consumerStartErr : Option String
  consumerWaitErr : Option String

/-- The `ssh` command to the bastion that carries `remoteNodeCmd`. -/
def bastionCommand (bastion : Bastion) (remoteNodeCmd : String) : Command :=
  let bastionAddr := bastion.User ++ "@" ++ bastion.Host
  let sshArgs : List String := []
  let sshArgs := if bastion.IdentityFile ≠ "" then sshArgs ++ ["-i", bastion.IdentityFile]
    else sshArgs
  ⟨"ssh", sshArgs ++ [bastionAddr, remoteNodeCmd]⟩

/-- The consumer of `upload`: the nested `ssh` that unpacks on the node. -/
def uploadBastionCmd (bastion : Bastion) (node : Node) (remotePath : String) : Command :=
  bastionCommand bastion ("ssh " ++ node.User ++ "@" ++ node.IP ++ " \"mkdir -p " ++ remotePath
    ++ " && tar xf - -C " ++ remotePath ++ "\"")

/-- The producer of `upload`: the local `tar` that packs. -/
def uploadLocalCmd (env : ScpEnv) (localPath : String) : Command :=
  let tarArgs := ["cf", "-", "-C", env.dir localPath, env.base localPath]
  let tarArgs := if env.goos = "darwin" then ["--no-xattr"] ++ tarArgs else tarArgs
  ⟨"tar", tarArgs⟩

/-- The function `upload`. -/
def upload (cfg : Config) (env : ScpEnv) (bastion : Bastion) (node : Node)
    (localPath remotePath : String) : Run :=
  let bastionCmd := uploadBastionCmd bastion node remotePath
  let localCmd := uploadLocalCmd env localPath
  match env.pipeErr with
  | some err =>
    ⟨[.stderr ("Error creating stdout pipe for local tar: " ++ err ++ "\n")], .exited 1, cfg⟩
  | none =>
    match env.producerStartErr with
    | some err =>
      ⟨[.startFailed localCmd, .stderr ("Error starting local tar command: " ++ err ++ "\n")],
        .exited 1, cfg⟩
    | none =>
      match env.consumerStartErr with
      | some _ => ⟨[.start localCmd, .startFailed bastionCmd], .exited 1, cfg⟩
      | none =>
        match env.consumerWaitErr with
        | some _ => ⟨[.start localCmd, .start bastionCmd, .wait bastionCmd], .exited 1, cfg⟩
        | none =>
          match env.producerWaitErr with
          | some err =>
            ⟨[.start localCmd, .start bastionCmd, .wait bastionCmd, .wait localCmd,
              .stderr ("Error waiting for local tar command: " ++ err ++ "\n")], .exited 1, cfg⟩
          | none =>
            ⟨[.start localCmd, .start bastionCmd, .wait bastionCmd, .wait localCmd],
              .returned, cfg⟩

/-- The producer of `download`: the nested `ssh` that packs on the node. -/
def downloadBastionCmd (env : ScpEnv) (bastion : Bastion) (node : Node) (remotePath : String) :
    Command :=
  bastionCommand bastion ("ssh " ++ node.User ++ "@" ++ node.IP ++ " \"tar cf - -C "
    ++ env.dir remotePath ++ " " ++ env.base remotePath ++ "\"")

/-- The consumer of `download`: the local `tar` that unpacks. -/
def downloadLocalCmd (env : ScpEnv) (localPath : String) : Command :=
  let destDir := if env.isDir localPath then localPath else "."
  ⟨"tar", ["xf", "-", "-C", destDir]⟩

/-- The function `download`. -/
def download (cfg : Config) (env : ScpEnv) (bastion : Bastion) (node : Node)
    (remotePath localPath : String) : Run :=
  let bastionCmd := downloadBastionCmd env bastion node remotePath
  let localCmd := downloadLocalCmd env localPath
  match env.pipeErr with
  | some err =>
    ⟨[.stderr ("Error creating stdout pipe for bastion ssh: " ++ err ++ "\n")], .exited 1, cfg⟩
  | none =>
    match env.producerStartErr with
    | some err =>
      ⟨[.startFailed bastionCmd, .stderr ("Error starting bastion ssh command: " ++ err ++ "\n")],
        .exited 1, cfg⟩
    | none =>
      match env.consumerStartErr with
      | some err =>
        ⟨[.start bastionCmd, .startFailed localCmd,
          .stderr ("Error during local tar execution: " ++ err ++ "\n")], .exited 1, cfg⟩
      | none =>
        match env.consumerWaitErr with
        | some err =>
          ⟨[.start bastionCmd, .start localCmd, .wait localCmd,
            .stderr ("Error during local tar execution: " ++ err ++ "\n")], .exited 1, cfg⟩
        | none =>
          match env.producerWaitErr with
          | some err =>
            ⟨[.start bastionCmd, .start localCmd, .wait localCmd, .wait bastionCmd,
              .stderr ("Error waiting for bastion ssh command: " ++ err ++ "\n")], .exited 1, cfg⟩
          | none =>
            ⟨[.start bastionCmd, .start localCmd, .wait localCmd, .wait bastionCmd],
              .returned, cfg⟩

/-! ## CIDR blocks: the reading of addresses as numbers -/

/-- The inner loop of Go `net.simpleMaskLength`, `for v&0x80 != 0 { n++; v <<= 1 }`:
the number of leading one-bits of a byte and what is left of the byte. -/
def leadingOnes : Nat → Nat → Nat × Nat
  | 0, v => (0, v)
  | k + 1, v =>
    if v &&& 0x80 ≠ 0 then
      let r := leadingOnes k ((v <<< 1) % 256)
      (r.1 + 1, r.2)
    else (0, v)

/-- Go `net.simpleMaskLength`: the number of leading one-bits of a mask that is
ones followed by zeros, `none` (Go: -1) for any other mask. -/
def simpleMaskLength : List Nat → Nat → Option Nat
  | [], n => some n
  | v :: rest, n =>
    if v = 0xff then simpleMaskLength rest (n + 8)
    else
      let r := leadingOnes 8 v
      if r.2 ≠ 0 then none
      else if rest.all (fun b => b == 0) then some (n + r.1)
      else none

/-- Go `IPMask.Size`: `(ones, bits)`, and `(0, 0)` for a mask that is not canonical. -/
def maskSize (m : IPMask) : Nat × Nat :=
  match simpleMaskLength m 0 with
  | none => (0, 0)
  | some ones => (ones, m.length * 8)

/-- The number of addresses of the block of a network: two to the number of host bits. -/
def blockSize (ipnet : IPNet) : Nat := 2 ^ ((maskSize ipnet.Mask).2 - (maskSize ipnet.Mask).1)

/-- An address of the block of `ipnet`: as long as the mask, every byte below 256,
and equal to the network number under the mask. -/
def inBlock (ipnet : IPNet) (a : IP) : Bool :=
  a.length == ipnet.Mask.length && a.all (fun b => b < 256)
    && List.zipWith (fun b m => b &&& m) a ipnet.Mask == ipnet.IP

/-- The number an address stands for: its bytes read as one big-endian numeral. -/
def ipVal (ip : List Nat) : Nat := ip.foldl (fun acc b => acc * 256 + b) 0

/-- The address of `len` bytes that stands for the number `v` (modulo `256 ^ len`). -/
def ipOfVal : Nat → Nat → List Nat
  | 0, _ => []
  | len + 1, v => (v / 256 ^ len % 256) :: ipOfVal len v

/-- The `count` addresses that follow each other from `start` on, in ascending order. -/
def addrRun (start : IP) (first count : Nat) : List IP :=
  (List.range count).map (fun k => ipOfVal start.length (ipVal start + first + k))

/-- The block of a network written out: its `blockSize` addresses in ascending
numeric order, from the network number on. -/
def blockAddrs (ipnet : IPNet) : List IP := addrRun ipnet.IP 0 (blockSize ipnet)

/-! ## `cmd/config.go` and `cmd/nodes.go`: the commands that change the configuration

The answers of the operator are arguments; `none` is a prompt that failed, after
which the command returns without a change. What the commands return here is the
configuration in memory (a failing `Save` does not undo the change). -/

/-- The command `config add`: append a cluster built from the four answers. -/
def configAdd (cfg : Config) (name host user identityFile : Option String) : Config :=
  match name, host, user, identityFile with
  | some name, some host, some user, some identityFile =>
    let newCluster : Cluster :=
      { Name := name,
        Bastion := { Host := host, User := user, Port := 0, IdentityFile := identityFile },
        Nodes := [] }
    { cfg with Clusters := cfg.Clusters ++ [newCluster] }
  | _, _, _, _ => cfg

/-- The command `config remove`: keep the clusters whose name is not the selected one. -/
def configRemove (cfg : Config) (result : Option String) : Config :=
  if cfg.Clusters.length = 0 then cfg
  else
    match result with
    | none => cfg
    | some result => { cfg with Clusters := cfg.Clusters.filter (fun c => c.Name != result) }

/-- The command `nodes add`: append a node to the first cluster named `clusterName`. -/
def nodesAdd (cfg : Config) (clusterName : String) (nodeAlias ip user : Option String) :
    Config :=
  if clusterName = "" then cfg
  else
    match findClusterFrom clusterName cfg.Clusters 0 with
    | none => cfg
    | some clusterIndex =>
      match nodeAlias, ip, user with
      | some nodeAlias, some ip, some user =>
        let newNode : Node := { Alias := nodeAlias, IP := ip, User := user }
        { cfg with Clusters :=
            (cfg.Clusters.modify (fun cl => { cl with Nodes := cl.Nodes ++ [newNode] })
              clusterIndex) }
      | _, _, _ => cfg

/-- The command `nodes remove`: in the first cluster named `clusterName`, keep the
nodes whose alias is not the selected one. -/
def nodesRemove (cfg : Config) (clusterName : String) (result : Option String) : Config :=
  if clusterName = "" then cfg
  else
    match findClusterFrom clusterName cfg.Clusters 0 with
    | none => cfg
    | some clusterIndex =>
      match cfg.Clusters[clusterIndex]? with
      | none => cfg
      | some targetCluster =>
        if targetCluster.Nodes.length = 0 then cfg
        else
          match result with
          | none => cfg
          | some result =>
            let newNodes := targetCluster.Nodes.filter (fun n => n.Alias != result)
            { cfg with Clusters :=
                (cfg.Clusters.modify (fun cl => { cl with Nodes := newNodes }) clusterIndex) }

/-- The invariant of the topology: cluster names pairwise distinct, and node aliases
pairwise distinct within each cluster. -/
def Config.wellFormed (c : Config) : Prop :=
  (c.Clusters.map (fun cl => cl.Name)).Nodup
    ∧ ∀ cl ∈ c.Clusters, (cl.Nodes.map (fun n => n.Alias)).Nodup

instance (c : Config) : Decidable c.wellFormed := by
  unfold Config.wellFormed
  infer_instance

/-! ## `cmd/scp.go`: `parseScpArg` -/

/-- Go `strings.SplitN(s, ":", 2)`: the text before the first colon and the text
after it, or the text alone when it has no colon. -/
def splitColon2 (s : String) : List String :=
  let cs := s.toList
  if cs.contains ':' then
    [String.mk (cs.takeWhile (fun c => c != ':')),
      String.mk ((cs.dropWhile (fun c => c != ':')).drop 1)]
  else [s]

/-- The function `parseScpArg`: alias, path, and whether the argument is remote. -/
def parseScpArg (arg : String) : String × String × Bool :=
  match splitColon2 arg with
  | [p0, p1] => if p0 ≠ "" ∧ p1 ≠ "" then (p0, p1, true) else (arg, "", false)
  | _ => (arg, "", false)

/-! ## Sample inputs -/

/-- A configuration with two clusters; the alias `db` is in both. -/
def sampleConfig : Config :=
  ⟨[⟨"east", ⟨"b1", "ops", 0, ""⟩, [⟨"web", "10.0.0.1", "root"⟩, ⟨"db", "10.0.0.2", "root"⟩]⟩,
    ⟨"west", ⟨"b2", "ops", 0, "/k"⟩, [⟨"db", "10.1.0.2", "admin"⟩]⟩]⟩

/-- A discovery run on cluster `east` in which everything outside succeeds; the
range is left to the caller. -/
def sampleDiscoverEnv (range : String) : DiscoverEnv :=
  { discoverRange := range, discoverPort := "22", discoverWorkers := 100,
    discoverDefaultUser := "", fuel := 16, startErr := none, pid := 4242, socksErr := none,
    hasContext := true,
    accepts := fun t => t == "10.0.0.1:22" || t == "10.0.0.5:22" || t == "10.0.0.3:22",
    reportTime := fun k => 100 - k,
    killErr := none, confirmed := false, userAnswer := "root",
    aliasAnswer := fun h => "node-" ++ h, saveErr := none }

/-- A transfer in which the pipe and both starts succeed; the two exit results are
left to the caller. -/
def sampleScpEnv (producerWaitErr consumerWaitErr : Option String) : ScpEnv :=
  { goos := "linux", dir := fun _ => "/srv", base := fun _ => "data", isDir := fun _ => true,
    pipeErr := none, producerStartErr := none, producerWaitErr := producerWaitErr,
    consumerStartErr := none, consumerWaitErr := consumerWaitErr }

/-- The event is the termination of a process group. -/
def Event.isKill : Event → Bool
  | .killGroup _ => true
  | _ => false

/-- The event starts an external process. -/
def Event.isStart : Event → Bool
  | .start _ => true
  | _ => false

/-- The event is a probe. -/
def Event.isDial : Event → Bool
  | .dial _ => true
  | _ => false

/-- The event is a question to the operator. -/
def Event.isPrompt : Event → Bool
  | .prompt _ => true
  | _ => false

/-- The flags of a command on which the string flag `cluster` is defined, as on the
other `nodes` subcommands, next to the flags of `discoverCmd`. -/
def clusterAndDiscoverFlags (clusterName : String) (env : DiscoverEnv) : List Flag :=
  ⟨"cluster", "string", clusterName⟩ :: discoverCmdFlags env

/-- The event waits for the given process. -/
def Event.isWaitFor (cmd : Command) : Event → Bool
  | .wait c => c = cmd
  | _ => false

/-! # Theorems -/

/-! ## Addresses as numbers -/

theorem ipOfVal_length (L v : Nat) : (ipOfVal L v).length = L := by
  induction L with
  | zero => rfl
  | succ L ih => simp [ipOfVal, ih]

theorem ipOfVal_lt (L v : Nat) : ∀ b ∈ ipOfVal L v, b < 256 := by
  induction L with
  | zero => simp [ipOfVal]
  | succ L ih =>
    intro b hb
    simp only [ipOfVal, List.mem_cons] at hb
    rcases hb with rfl | hb
    · exact Nat.mod_lt _ (by norm_num)
    · exact ih b hb

theorem ipOfVal_mod (L v : Nat) : ipOfVal L (v % 256 ^ L) = ipOfVal L v := by
  induction L generalizing v with
  | zero => rfl
  | succ L ih =>
    simp only [ipOfVal]
    congr 1
    · rw [pow_succ, Nat.mod_mul_right_div_self, Nat.mod_mod]
    · rw [← ih (v % 256 ^ (L + 1)), Nat.mod_mod_of_dvd _ (pow_dvd_pow 256 (Nat.le_succ L)), ih]

theorem ipVal_foldl (bs : List Nat) (a : Nat) :
    bs.foldl (fun acc b => acc * 256 + b) a = a * 256 ^ bs.length + ipVal bs := by
  induction bs generalizing a with
  | nil => simp [ipVal]
  | cons b bs ih =>
    simp only [List.foldl_cons, List.length_cons, ipVal]
    rw [ih, ih (0 * 256 + b)]
    ring

theorem ipVal_cons (b : Nat) (bs : List Nat) :
    ipVal (b :: bs) = b * 256 ^ bs.length + ipVal bs := by
  simp only [ipVal, List.foldl_cons]
  rw [ipVal_foldl]
  simp [ipVal]

theorem ipVal_lt (bs : List Nat) (h : ∀ b ∈ bs, b < 256) : ipVal bs < 256 ^ bs.length := by
  induction bs with
  | nil => simp [ipVal]
  | cons b bs ih =>
    rw [ipVal_cons, List.length_cons, pow_succ]
    have hb := h b (by simp)
    have := ih (fun c hc => h c (by simp [hc]))
    nlinarith

theorem ipVal_ipOfVal (L v : Nat) : ipVal (ipOfVal L v) = v % 256 ^ L := by
  induction L with
  | zero => simp [ipOfVal, ipVal, Nat.mod_one]
  | succ L ih =>
    simp only [ipOfVal]
    rw [ipVal_cons, ih, ipOfVal_length, Nat.mod_pow_succ]
    ring

theorem ipOfVal_ipVal (ip : List Nat) (h : ∀ b ∈ ip, b < 256) :
    ipOfVal ip.length (ipVal ip) = ip := by
  induction ip with
  | nil => rfl
  | cons b bs ih =>
    have hb := h b (by simp)
    have hbs : ∀ c ∈ bs, c < 256 := fun c hc => h c (by simp [hc])
    have hlt := ipVal_lt bs hbs
    simp only [List.length_cons, ipOfVal, ipVal_cons]
    congr 1
    · have hpos : 0 < 256 ^ bs.length := by positivity
      rw [Nat.add_comm, Nat.add_mul_div_right _ _ hpos, Nat.div_eq_of_lt hlt, Nat.zero_add,
        Nat.mod_eq_of_lt hb]
    · rw [← ipOfVal_mod, Nat.add_comm, Nat.add_mul_mod_self_right, Nat.mod_eq_of_lt hlt, ih hbs]

theorem ipOfVal_inj (L v w : Nat) (hv : v < 256 ^ L) (hw : w < 256 ^ L)
    (h : ipOfVal L v = ipOfVal L w) : v = w := by
  have := congrArg ipVal h
  rwa [ipVal_ipOfVal, ipVal_ipOfVal, Nat.mod_eq_of_lt hv, Nat.mod_eq_of_lt hw] at this

theorem ipOfVal_succ_snoc (L v : Nat) : ipOfVal (L + 1) v = ipOfVal L (v / 256) ++ [v % 256] := by
  induction L with
  | zero => simp [ipOfVal]
  | succ L ih =>
    rw [ipOfVal, ih]
    conv_rhs => rw [ipOfVal]
    simp only [List.cons_append, List.cons.injEq, and_true]
    rw [pow_succ, Nat.div_div_eq_div_mul, Nat.mul_comm]

theorem incFromLast_reverse_ipOfVal (L v : Nat) :
    incFromLast (ipOfVal L v).reverse = (ipOfVal L (v + 1)).reverse := by
  induction L generalizing v with
  | zero => rfl
  | succ L ih =>
    rw [ipOfVal_succ_snoc, ipOfVal_succ_snoc]
    simp only [List.reverse_append, List.reverse_cons, List.reverse_nil, List.nil_append,
      List.singleton_append, incFromLast]
    by_cases hc : v % 256 = 255
    · have h1 : (v % 256 + 1) % 256 = 0 := by omega
      have h2 : (v + 1) % 256 = 0 := by omega
      have h3 : (v + 1) / 256 = v / 256 + 1 := by omega
      simp only [h1, lt_self_iff_false, if_false, h2, h3, ih]
    · have h1 : (v % 256 + 1) % 256 = v % 256 + 1 := by omega
      have h2 : (v + 1) % 256 = v % 256 + 1 := by omega
      have h3 : (v + 1) / 256 = v / 256 := by omega
      simp [h1, h2, h3]

theorem incIP_ipOfVal (L v : Nat) : incIP (ipOfVal L v) = ipOfVal L (v + 1) := by
  simp [incIP, incFromLast_reverse_ipOfVal]

theorem incIP_iterate_ipOfVal (L v k : Nat) : incIP^[k] (ipOfVal L v) = ipOfVal L (v + k) := by
  induction k generalizing v with
  | zero => rfl
  | succ k ih => rw [Function.iterate_succ_apply, incIP_ipOfVal, ih]; congr 1; omega

theorem byte_and_ff (x : Nat) (hx : x < 256) : x &&& 0xff = x := by
  have h := Nat.and_pow_two_sub_one_eq_mod x 8
  norm_num at h
  rw [h, Nat.mod_eq_of_lt hx]

set_option maxRecDepth 100000 in
theorem byte_and_mask : ∀ n, n < 8 → ∀ x, x < 256 →
    x &&& (255 - (0xff >>> n)) = x / 2 ^ (8 - n) * 2 ^ (8 - n) := by decide

theorem cidrMaskBytes_length (L n : Nat) : (cidrMaskBytes L n).length = L := by
  induction L generalizing n with
  | zero => rfl
  | succ L ih => unfold cidrMaskBytes; split <;> simp [ih]

theorem cidrMaskBytes_lt (L n : Nat) : ∀ b ∈ cidrMaskBytes L n, b < 256 := by
  induction L generalizing n with
  | zero => simp [cidrMaskBytes]
  | succ L ih =>
    intro b hb
    unfold cidrMaskBytes at hb
    split at hb
    · simp only [List.mem_cons] at hb
      rcases hb with rfl | hb
      · norm_num
      · exact ih _ b hb
    · simp only [List.mem_cons] at hb
      rcases hb with rfl | hb
      · exact Nat.lt_of_le_of_lt (Nat.sub_le _ _) (by norm_num)
      · exact ih _ b hb

theorem pow256 (L : Nat) : 256 ^ L = 2 ^ (8 * L) := by
  rw [pow_mul]; norm_num

/-- The byte-wise AND with a CIDR mask clears the host bits of the number. -/
theorem zipWith_and_cidrMask (L : Nat) : ∀ (n h v : Nat), n + h = 8 * L →
    List.zipWith (fun a m => a &&& m) (ipOfVal L v) (cidrMaskBytes L n)
      = ipOfVal L (v / 2 ^ h * 2 ^ h) := by
  induction L with
  | zero => intro n h v _; rfl
  | succ L ih =>
    intro n h v hnh
    have hB : (256 : Nat) ^ L = 2 ^ (8 * L) := pow256 L
    have hBpos : 0 < (256 : Nat) ^ L := by positivity
    unfold cidrMaskBytes
    by_cases hn : n ≥ 8
    · simp only [hn, if_true, ipOfVal, List.zipWith_cons_cons]
      rw [ih (n - 8) h v (by omega), byte_and_ff _ (Nat.mod_lt _ (by norm_num))]
      congr 2
      have hle : h ≤ 8 * L := by omega
      obtain ⟨c, hc⟩ : ∃ c, 8 * L = h + c := ⟨8 * L - h, by omega⟩
      rw [hB, hc, pow_add, ← Nat.div_div_eq_div_mul, ← Nat.div_div_eq_div_mul,
        Nat.mul_div_cancel _ (by positivity)]
    · have hn8 : n < 8 := by omega
      simp only [hn, if_false, ipOfVal, List.zipWith_cons_cons]
      have hh : h = 8 * L + (8 - n) := by omega
      have hk : 2 ^ h = 2 ^ (8 - n) * 256 ^ L := by rw [hh, pow_add, hB]; ring
      have htail0 : ∀ w, w % 256 ^ L = 0 → ipOfVal L w = ipOfVal L 0 := by
        intro w hw
        rw [← ipOfVal_mod, hw]
      rw [ih 0 (8 * L) v (by omega), byte_and_mask n hn8 _ (Nat.mod_lt _ (by norm_num))]
      have hq : v / 2 ^ h * 2 ^ h / 256 ^ L = v / 256 ^ L / 2 ^ (8 - n) * 2 ^ (8 - n) := by
        rw [hk, ← Nat.mul_assoc, Nat.mul_div_cancel _ hBpos, Nat.mul_comm (2 ^ (8 - n)) (256 ^ L),
          Nat.div_div_eq_div_mul]
      congr 1
      · rw [hq]
        generalize v / 256 ^ L = y
        interval_cases n <;> simp <;> omega
      · rw [htail0 (v / 2 ^ (8 * L) * 2 ^ (8 * L)) (by rw [hB]; exact Nat.mul_mod_left _ _),
          htail0 (v / 2 ^ h * 2 ^ h) (by rw [hk, ← Nat.mul_assoc]; exact Nat.mul_mod_left _ _)]


/-! ## The loop of `ipListFromCIDR` -/

theorem enumerate_diverges (ipnet : IPNet) (fuel : Nat) (ip : IP) (acc : List String)
    (h : ∀ k, Contains ipnet (incIP^[k] ip) = true) : enumerate ipnet fuel ip acc = none := by
  induction fuel generalizing ip acc with
  | zero => rfl
  | succ fuel ih =>
    have h0 : Contains ipnet ip = true := h 0
    simp only [enumerate, h0, if_true]
    exact ih _ _ (fun k => by simpa [Function.iterate_succ_apply] using h (k + 1))

theorem enumerate_stops (ipnet : IPNet) (k : Nat) : ∀ (fuel : Nat) (ip : IP) (acc : List String),
    (∀ j < k, Contains ipnet (incIP^[j] ip) = true) → Contains ipnet (incIP^[k] ip) = false →
    k < fuel →
    enumerate ipnet fuel ip acc
      = some (acc ++ (List.range k).map (fun j => IPString (incIP^[j] ip))) := by
  induction k with
  | zero =>
    intro fuel ip acc _ hstop hfuel
    obtain ⟨f, rfl⟩ : ∃ f, fuel = f + 1 := ⟨fuel - 1, by omega⟩
    have h0 : Contains ipnet ip = false := hstop
    simp [enumerate, h0]
  | succ k ih =>
    intro fuel ip acc hin hstop hfuel
    obtain ⟨f, rfl⟩ : ∃ f, fuel = f + 1 := ⟨fuel - 1, by omega⟩
    have h0 : Contains ipnet ip = true := hin 0 (by omega)
    simp only [enumerate, h0, if_true]
    rw [ih f (incIP ip) _ (fun j hj => by
        simpa [Function.iterate_succ_apply] using hin (j + 1) (by omega))
      (by simpa [Function.iterate_succ_apply] using hstop) (by omega)]
    simp [List.range_succ_eq_map, Function.iterate_succ_apply, List.append_assoc]

/-! ## `Contains` as membership of the block -/

theorem sameNetwork_iff (nn m ip : List Nat) (h1 : nn.length = ip.length)
    (h2 : m.length = ip.length) :
    sameNetwork nn m ip = true
      ↔ List.zipWith (fun a m => a &&& m) nn m = List.zipWith (fun a m => a &&& m) ip m := by
  induction ip generalizing nn m with
  | nil =>
    cases nn <;> cases m <;> simp [sameNetwork] at *
  | cons b ip ih =>
    cases nn with
    | nil => simp at h1
    | cons n nn =>
      cases m with
      | nil => simp at h2
      | cons mb m =>
        simp only [List.length_cons, Nat.add_right_cancel_iff] at h1 h2
        by_cases hb : n &&& mb = b &&& mb
        · simp [sameNetwork, hb, ih nn m h1 h2]
        · simp [sameNetwork, hb]

theorem zipWith_and_idem (x m : List Nat) :
    List.zipWith (fun a m => a &&& m) (List.zipWith (fun a m => a &&& m) x m) m
      = List.zipWith (fun a m => a &&& m) x m := by
  induction x generalizing m with
  | nil => simp
  | cons a x ih =>
    cases m with
    | nil => simp
    | cons mb m => simp [ih, Nat.land_assoc]

theorem zipWith_and_lt (x m : List Nat) (hm : ∀ b ∈ m, b < 256) :
    ∀ b ∈ List.zipWith (fun a m => a &&& m) x m, b < 256 := by
  induction x generalizing m with
  | nil => simp
  | cons a x ih =>
    cases m with
    | nil => simp
    | cons mb m =>
      intro b hb
      simp only [List.zipWith_cons_cons, List.mem_cons] at hb
      rcases hb with rfl | hb
      · exact Nat.lt_of_le_of_lt Nat.and_le_right (hm mb (by simp))
      · exact ih m (fun c hc => hm c (by simp [hc])) b hb

theorem Contains_len4 (x m ip : List Nat) (hx : x.length = 4) (hm : m.length = 4)
    (hip : ip.length = 4) :
    Contains ⟨List.zipWith (fun a m => a &&& m) x m, m⟩ ip = true
      ↔ List.zipWith (fun a m => a &&& m) ip m = List.zipWith (fun a m => a &&& m) x m := by
  have hl : (List.zipWith (fun a m => a &&& m) x m).length = 4 := by simp [hx, hm]
  have hne : List.zipWith (fun a m => a &&& m) x m ≠ [] := by
    intro h; rw [h] at hl; simp at hl
  have hipne : ip ≠ [] := by intro h; rw [h] at hip; simp at hip
  have hnm : networkNumberAndMask ⟨List.zipWith (fun a m => a &&& m) x m, m⟩
      = (List.zipWith (fun a m => a &&& m) x m, m) := by
    simp [networkNumberAndMask, To4, IPv4len, IPv6len, hl, hm, hne]
  simp only [Contains, hnm, To4, IPv4len, hip, if_true, hipne, ne_eq, not_false_eq_true, hl,
    not_true_eq_false, if_false]
  rw [sameNetwork_iff _ _ _ (by rw [hl, hip]) (by rw [hm, hip]), zipWith_and_idem]
  exact eq_comm

theorem To4_append (p q : List Nat) (hp : p.length = 12) (hq : q.length = 4) :
    To4 (p ++ q) = if p = v4InV6Prefix then q else [] := by
  rcases p with _ | ⟨a0, _ | ⟨a1, _ | ⟨a2, _ | ⟨a3, _ | ⟨a4, _ | ⟨a5, _ | ⟨a6, _ | ⟨a7, _ | ⟨a8, _ | ⟨a9, _ | ⟨a10, _ | ⟨a11, _ | ⟨a12, p⟩⟩⟩⟩⟩⟩⟩⟩⟩⟩⟩⟩⟩
  all_goals simp at hp
  have hq4 : List.take 4 q = q := List.take_of_length_le (by omega)
  simp [To4, IPv4len, IPv6len, hq, isZeros, v4InV6Prefix, hq4]
  split <;> split <;> first | rfl | (exfalso; tauto)

theorem zipWith_and_replicate (p : List Nat) (k : Nat) (hp : p.length = k)
    (hb : ∀ b ∈ p, b < 256) :
    List.zipWith (fun a m => a &&& m) p (List.replicate k 255) = p := by
  induction p generalizing k with
  | nil => simp
  | cons a p ih =>
    obtain ⟨k, rfl⟩ : ∃ j, k = j + 1 := ⟨k - 1, by simp at hp; omega⟩
    simp only [List.length_cons, Nat.add_right_cancel_iff] at hp
    simp only [List.replicate_succ, List.zipWith_cons_cons]
    rw [ih k hp (fun c hc => hb c (by simp [hc])), byte_and_ff a (hb a (by simp))]

theorem cidrMaskBytes_leading_ff (k L n : Nat) (h : 8 * k ≤ n) :
    cidrMaskBytes (k + L) n = List.replicate k 255 ++ cidrMaskBytes L (n - 8 * k) := by
  induction k generalizing n with
  | zero => simp
  | succ k ih =>
    have h8 : n ≥ 8 := by omega
    rw [Nat.succ_add, cidrMaskBytes]
    simp only [h8, if_true, List.replicate_succ, List.cons_append]
    rw [ih (n - 8) (by omega)]
    congr 3
    omega

theorem Contains_len16 (xp xq m4 p q : List Nat) (hxp : xp.length = 12) (hxq : xq.length = 4)
    (hm4 : m4.length = 4) (hp : p.length = 12) (hq : q.length = 4) (hb : ∀ b ∈ p, b < 256) :
    Contains ⟨List.zipWith (fun a m => a &&& m) (xp ++ xq) (List.replicate 12 255 ++ m4),
        List.replicate 12 255 ++ m4⟩ (p ++ q) = true
      ↔ List.zipWith (fun a m => a &&& m) (p ++ q) (List.replicate 12 255 ++ m4)
        = List.zipWith (fun a m => a &&& m) (xp ++ xq) (List.replicate 12 255 ++ m4) := by
  have hsx : List.zipWith (fun a m => a &&& m) (xp ++ xq) (List.replicate 12 255 ++ m4)
      = List.zipWith (fun a m => a &&& m) xp (List.replicate 12 255)
        ++ List.zipWith (fun a m => a &&& m) xq m4 :=
    List.zipWith_append _ _ _ _ _ (by simp [hxp])
  have hsp : List.zipWith (fun a m => a &&& m) (p ++ q) (List.replicate 12 255 ++ m4)
      = p ++ List.zipWith (fun a m => a &&& m) q m4 := by
    rw [List.zipWith_append _ _ _ _ _ (by simp [hp]), zipWith_and_replicate p 12 hp hb]
  rw [hsx, hsp]
  generalize hpn : List.zipWith (fun a m => a &&& m) xp (List.replicate 12 255) = pn
  have hpnl : pn.length = 12 := by rw [← hpn]; simp [hxp]
  have hpnb : ∀ b ∈ pn, b < 256 := by
    rw [← hpn]; exact zipWith_and_lt _ _ (by simp)
  have hqnl : (List.zipWith (fun a m => a &&& m) xq m4).length = 4 := by simp [hxq, hm4]
  have hqnidem := zipWith_and_idem xq m4
  generalize List.zipWith (fun a m => a &&& m) xq m4 = qn at hqnl hqnidem ⊢
  have hqnne : qn ≠ [] := by intro h; rw [h] at hqnl; simp at hqnl
  have hqne : q ≠ [] := by intro h; rw [h] at hq; simp at hq
  have hmd : List.drop 12 (List.replicate 12 255 ++ m4) = m4 := by
    rw [List.drop_append_of_le_length (by simp)]; simp
  have happ : ∀ (a b c d : List Nat), a.length = c.length → (a ++ b = c ++ d ↔ a = c ∧ b = d) :=
    fun a b c d h => ⟨fun e => List.append_inj e h, fun e => by rw [e.1, e.2]⟩
  rw [happ p _ pn qn (by rw [hp, hpnl])]
  have hT1 := To4_append pn qn hpnl hqnl
  have hT2 := To4_append p q hp hq
  have hlen1 : (pn ++ qn).length = 16 := by simp [hpnl, hqnl]
  have hlen2 : (p ++ q).length = 16 := by simp [hp, hq]
  have hml : (List.replicate 12 255 ++ m4).length = 16 := by simp [hm4]
  by_cases h1 : pn = v4InV6Prefix
  · have hT1p : To4 (pn ++ qn) = qn := by rw [hT1, if_pos h1]
    have hnm : networkNumberAndMask ⟨pn ++ qn, List.replicate 12 255 ++ m4⟩ = (qn, m4) := by
      simp only [networkNumberAndMask, hT1p, hqnne, false_and, if_false, hml, IPv4len, IPv6len,
        hqnl, hmd]
      simp
    by_cases h2 : p = v4InV6Prefix
    · have hT2p : To4 (p ++ q) = q := by rw [hT2, if_pos h2]
      simp only [Contains, hnm, hT2p, hqne, ne_eq, not_false_eq_true, if_true, hq, hqnl,
        not_true_eq_false, if_false]
      rw [sameNetwork_iff _ _ _ (by rw [hqnl, hq]) (by rw [hm4, hq]), hqnidem, h1, h2]
      simp [eq_comm]
    · have hT2n : To4 (p ++ q) = [] := by rw [hT2, if_neg h2]
      simp only [Contains, hnm, hT2n, ne_eq, not_true_eq_false, if_false, hlen2, hqnl]
      simp [h2, h1]
  · have hT1n : To4 (pn ++ qn) = [] := by rw [hT1, if_neg h1]
    have hnm : networkNumberAndMask ⟨pn ++ qn, List.replicate 12 255 ++ m4⟩
        = (pn ++ qn, List.replicate 12 255 ++ m4) := by
      simp only [networkNumberAndMask, hT1n, hlen1, hml, IPv4len, IPv6len]
      simp [hpnl, hqnl]
    by_cases h2 : p = v4InV6Prefix
    · have hT2p : To4 (p ++ q) = q := by rw [hT2, if_pos h2]
      simp only [Contains, hnm, hT2p, hqne, ne_eq, not_false_eq_true, if_true, hq, hlen1]
      have : ¬ (v4InV6Prefix = pn) := fun h => h1 h.symm
      simp [this, h2]
    · have hT2n : To4 (p ++ q) = [] := by rw [hT2, if_neg h2]
      simp only [Contains, hnm, hT2n, ne_eq, not_true_eq_false, if_false, hlen1, hlen2]
      rw [sameNetwork_iff _ _ _ (by rw [hlen1, hlen2]) (by rw [hml, hlen2]),
        List.zipWith_append _ _ _ _ _ (by simp [hpnl]),
        List.zipWith_append _ _ _ _ _ (by simp [hp]),
        zipWith_and_replicate pn 12 hpnl hpnb, zipWith_and_replicate p 12 hp hb, hqnidem,
        happ pn _ p _ (by rw [hp, hpnl])]
      constructor
      · intro h; exact ⟨h.1.symm, h.2.symm⟩
      · intro h; exact ⟨h.1.symm, h.2.symm⟩

/-- For an IPv4 network, and for an IPv6 network with a prefix of at least 96 bits,
`Contains` says whether the address equals the network number under the mask. -/
theorem Contains_block (L n : Nat) (x ip : List Nat) (hL : L = 4 ∨ (L = 16 ∧ 96 ≤ n))
    (hx : x.length = L) (hip : ip.length = L) (hb : ∀ b ∈ ip, b < 256) :
    Contains ⟨List.zipWith (fun a m => a &&& m) x (cidrMaskBytes L n), cidrMaskBytes L n⟩ ip = true
      ↔ List.zipWith (fun a m => a &&& m) ip (cidrMaskBytes L n)
        = List.zipWith (fun a m => a &&& m) x (cidrMaskBytes L n) := by
  rcases hL with rfl | ⟨rfl, hn⟩
  · exact Contains_len4 x _ ip hx (cidrMaskBytes_length 4 n) hip
  · have hm : cidrMaskBytes 16 n = List.replicate 12 255 ++ cidrMaskBytes 4 (n - 8 * 12) :=
      cidrMaskBytes_leading_ff 12 4 n (by omega)
    rw [hm, ← List.take_append_drop 12 x, ← List.take_append_drop 12 ip]
    exact Contains_len16 _ _ _ _ _ (by simp [hx]) (by simp [hx]) (cidrMaskBytes_length 4 _)
      (by simp [hip]) (by simp [hip]) (fun b hb1 => hb b (List.mem_of_mem_take hb1))

/-! ## The block of a network, as a run of numbers -/

theorem block_arith (P Q net : Nat) (hP : 0 < P) (hnet : net < P * Q)
    (hal : net / P * P = net) :
    (∀ k < P, (net + k) % (P * Q) / P = net / P)
      ∧ (2 ≤ Q → (net + P) % (P * Q) / P ≠ net / P) := by
  obtain ⟨q, hq⟩ : ∃ q, net / P = q := ⟨_, rfl⟩
  rw [hq] at hal ⊢
  subst hal
  have hqQ : q < Q := by
    rw [Nat.mul_comm P Q] at hnet
    exact Nat.lt_of_mul_lt_mul_right hnet
  have hle : (q + 1) * P ≤ P * Q := by
    rw [Nat.mul_comm P Q]
    exact Nat.mul_le_mul_right P hqQ
  constructor
  · intro k hk
    have hlt : q * P + k < P * Q := by
      have : q * P + k < (q + 1) * P := by rw [Nat.add_mul, Nat.one_mul]; omega
      omega
    rw [Nat.mod_eq_of_lt hlt]
    exact Nat.div_eq_of_lt_le (by omega) (by rw [Nat.add_mul, Nat.one_mul]; omega)
  · intro hQ
    have hsum : q * P + P = (q + 1) * P := by rw [Nat.add_mul, Nat.one_mul]
    by_cases hlt : q * P + P < P * Q
    · rw [Nat.mod_eq_of_lt hlt, hsum, Nat.mul_div_cancel _ hP]
      omega
    · have heq : q * P + P = P * Q := by omega
      rw [heq, Nat.mod_self, Nat.zero_div]
      have hq1 : q + 1 = Q := by
        have h2 : (q + 1) * P = Q * P := by rw [← hsum, heq, Nat.mul_comm]
        exact Nat.eq_of_mul_eq_mul_right hP h2
      omega

/-- The facts about the network number of a parsed CIDR: it is the address of its
own value, the value is below `256 ^ L`, and its host bits are zero. -/
theorem network_number_facts (L n : Nat) (x : List Nat) (hn : n ≤ 8 * L) (hx : x.length = L) :
    List.zipWith (fun a m => a &&& m) x (cidrMaskBytes L n)
        = ipOfVal L (ipVal (List.zipWith (fun a m => a &&& m) x (cidrMaskBytes L n)))
      ∧ ipVal (List.zipWith (fun a m => a &&& m) x (cidrMaskBytes L n)) < 2 ^ (8 * L - n) * 2 ^ n
      ∧ ipVal (List.zipWith (fun a m => a &&& m) x (cidrMaskBytes L n)) / 2 ^ (8 * L - n)
          * 2 ^ (8 * L - n)
        = ipVal (List.zipWith (fun a m => a &&& m) x (cidrMaskBytes L n)) := by
  have hidem := zipWith_and_idem x (cidrMaskBytes L n)
  have hb := zipWith_and_lt x (cidrMaskBytes L n) (cidrMaskBytes_lt L n)
  have hl : (List.zipWith (fun a m => a &&& m) x (cidrMaskBytes L n)).length = L := by
    simp [hx, cidrMaskBytes_length]
  generalize List.zipWith (fun a m => a &&& m) x (cidrMaskBytes L n) = nn0 at hidem hb hl ⊢
  have hrep : ipOfVal L (ipVal nn0) = nn0 := by
    have := ipOfVal_ipVal nn0 hb
    rwa [hl] at this
  have hlt : ipVal nn0 < 256 ^ L := by
    have := ipVal_lt nn0 hb
    rwa [hl] at this
  have hB : (256 : Nat) ^ L = 2 ^ (8 * L - n) * 2 ^ n := by
    rw [pow256, ← pow_add]; congr 1; omega
  refine ⟨hrep.symm, by rw [← hB]; exact hlt, ?_⟩
  have hmask := zipWith_and_cidrMask L n (8 * L - n) (ipVal nn0) (by omega)
  rw [hrep, hidem] at hmask
  have hle : ipVal nn0 / 2 ^ (8 * L - n) * 2 ^ (8 * L - n) ≤ ipVal nn0 := Nat.div_mul_le_self _ _
  exact ipOfVal_inj L _ _ (by omega) hlt (by rw [← hmask, hrep])

/-- An address is in the network exactly when its number, without the host bits,
is the number of the network without the host bits. -/
theorem zipWith_and_eq_network_iff (L n : Nat) (x : List Nat) (hn : n ≤ 8 * L)
    (hx : x.length = L) (v : Nat) :
    List.zipWith (fun a m => a &&& m) (ipOfVal L v) (cidrMaskBytes L n)
        = List.zipWith (fun a m => a &&& m) x (cidrMaskBytes L n)
      ↔ v % (2 ^ (8 * L - n) * 2 ^ n) / 2 ^ (8 * L - n)
        = ipVal (List.zipWith (fun a m => a &&& m) x (cidrMaskBytes L n)) / 2 ^ (8 * L - n) := by
  obtain ⟨hrep, hlt, hal⟩ := network_number_facts L n x hn hx
  generalize List.zipWith (fun a m => a &&& m) x (cidrMaskBytes L n) = nn0 at hrep hlt hal ⊢
  have hB : (256 : Nat) ^ L = 2 ^ (8 * L - n) * 2 ^ n := by
    rw [pow256, ← pow_add]; congr 1; omega
  have hP : 0 < 2 ^ (8 * L - n) := by positivity
  rw [← hB] at hlt ⊢
  have hvlt : v % 256 ^ L < 256 ^ L := Nat.mod_lt _ (by positivity)
  rw [← ipOfVal_mod L v, zipWith_and_cidrMask L n (8 * L - n) _ (by omega)]
  have hle : v % 256 ^ L / 2 ^ (8 * L - n) * 2 ^ (8 * L - n) ≤ v % 256 ^ L :=
    Nat.div_mul_le_self _ _
  constructor
  · intro h
    rw [hrep] at h
    have := ipOfVal_inj L _ _ (by omega) hlt h
    rw [← this, Nat.mul_div_cancel _ hP]
  · intro h
    rw [h, hal]
    exact hrep.symm

/-! ## The shape of what `ParseCIDR` returns -/

theorem parseIPv4Fields_length (cs : List Char) : ∀ (first prevDot : Bool)
    (val pos digLen : Nat) (fields out : List Nat),
    parseIPv4Fields cs first prevDot val pos digLen fields = some out →
    out.length = fields.length := by
  induction cs with
  | nil =>
    intro first prevDot val pos digLen fields out h
    simp only [parseIPv4Fields] at h
    split at h
    · exact absurd h (by simp)
    · simp only [Option.some.injEq] at h
      rw [← h, List.length_set]
  | cons c cs ih =>
    intro first prevDot val pos digLen fields out h
    simp only [parseIPv4Fields] at h
    split at h
    · split at h
      · exact absurd h (by simp)
      · split at h
        · exact absurd h (by simp)
        · exact ih _ _ _ _ _ _ _ h
    · split at h
      · split at h
        · exact absurd h (by simp)
        · split at h
          · exact absurd h (by simp)
          · rw [ih _ _ _ _ _ _ _ h, List.length_set]
      · exact absurd h (by simp)

theorem parseIPv4_shape (s : List Char) (a : Addr) (h : parseIPv4 s = some a) :
    a.is4 = true ∧ ∃ f, f.length = 4 ∧ a.bytes = v4InV6Prefix ++ f := by
  unfold parseIPv4 at h
  cases hf : parseIPv4Fields s true false 0 0 0 [0, 0, 0, 0] with
  | none => simp [hf] at h
  | some f =>
    simp only [hf, Option.some.injEq] at h
    subst h
    exact ⟨rfl, f, by simpa using parseIPv4Fields_length _ _ _ _ _ _ _ _ hf, rfl⟩

theorem parseIPv6Loop_length (fuel : Nat) : ∀ (s : List Char) (i : Nat) (ip : List Nat)
    (e : Option Nat) (r : List Char × Nat × List Nat × Option Nat),
    parseIPv6Loop fuel s i ip e = some r → r.2.2.1.length = ip.length := by
  induction fuel with
  | zero =>
    intro s i ip e r h
    simp only [parseIPv6Loop, Option.some.injEq] at h
    rw [← h]
  | succ fuel ih =>
    intro s i ip e r h
    simp only [parseIPv6Loop] at h
    split at h
    · simp only [Option.some.injEq] at h
      rw [← h]
    · split at h
      · exact absurd h (by simp)
      · split at h
        · exact absurd h (by simp)
        · split at h
          · split at h
            · exact absurd h (by simp)
            · split at h
              · exact absurd h (by simp)
              · split at h
                · exact absurd h (by simp)
                · simp only [Option.some.injEq] at h
                  rw [← h]
                  simp
          · split at h
            · simp only [Option.some.injEq] at h
              rw [← h]
              simp
            · split at h
              · exact absurd h (by simp)
              · split at h
                · exact absurd h (by simp)
                · split at h
                  · split at h
                    · exact absurd h (by simp)
                    · split at h
                      · simp only [Option.some.injEq] at h
                        rw [← h]
                        simp
                      · rw [ih _ _ _ _ _ h]
                        simp
                  · rw [ih _ _ _ _ _ h]
                    simp

theorem foldl_set_length {α : Type} (f : List Nat → α → Nat) (g : List Nat → α → Nat)
    (l : List α) (ip : List Nat) :
    (l.foldl (fun (ip : List Nat) t => ip.set (f ip t) (g ip t)) ip).length = ip.length := by
  induction l generalizing ip with
  | nil => rfl
  | cons t l ih => simp only [List.foldl_cons]; rw [ih, List.length_set]

theorem expandEllipsis_length (ip : List Nat) (i e : Nat) :
    (expandEllipsis ip i e).length = ip.length := by
  unfold expandEllipsis
  simp only
  rw [foldl_set_length (fun _ k => e + k) (fun _ _ => 0),
    foldl_set_length (fun _ t => i - 1 - t + (16 - i)) (fun ip t => ip.getD (i - 1 - t) 0)]

theorem parseIPv6_shape (s : List Char) (a : Addr) (h : parseIPv6 s = some a) :
    a.is4 = false ∧ a.bytes.length = 16 := by
  unfold parseIPv6 at h
  simp only at h
  repeat' split at h
  all_goals first
    | (simp at h; done)
    | (have hlen := parseIPv6Loop_length _ _ _ _ _ _ (by assumption)
       simp only [List.length_replicate] at hlen
       simp only [Option.some.injEq] at h
       rw [← h]
       exact ⟨rfl, by simp [expandEllipsis_length, hlen]⟩)
    | (simp only [Option.some.injEq] at h
       rw [← h]
       exact ⟨rfl, by simp⟩)

theorem ParseAddrFrom_shape (s cs : List Char) (a : Addr) (h : ParseAddrFrom s cs = some a) :
    (a.is4 = true ∧ ∃ f, f.length = 4 ∧ a.bytes = v4InV6Prefix ++ f)
      ∨ (a.is4 = false ∧ a.bytes.length = 16) := by
  induction cs with
  | nil => simp [ParseAddrFrom] at h
  | cons c cs ih =>
    simp only [ParseAddrFrom] at h
    split at h
    · exact Or.inl (parseIPv4_shape s a h)
    · split at h
      · exact Or.inr (parseIPv6_shape s a h)
      · split at h
        · exact absurd h (by simp)
        · exact ih h

/-- What `ParseCIDR` returns on success: a mask of `n` one-bits over `L` bytes
(`L` is 4 or 16, `n ≤ 8 * L`), the network number as the address under that mask,
and the address with which the loop of `ipListFromCIDR` starts is that network
number. -/
theorem ParseCIDR_shape (s : String) (ip : IP) (ipnet : IPNet)
    (h : ParseCIDR s = .ok (ip, ipnet)) :
    ∃ L n x, (L = 4 ∨ L = 16) ∧ n ≤ 8 * L ∧ x.length = L
      ∧ ipnet = ⟨List.zipWith (fun a m => a &&& m) x (cidrMaskBytes L n), cidrMaskBytes L n⟩
      ∧ Mask ip ipnet.Mask = ipnet.IP := by
  unfold ParseCIDR at h
  simp only at h
  split at h
  · exact absurd h (by simp)
  · cases hparse : ParseAddr (List.takeWhile (fun c => decide (c ≠ '/')) s.toList) with
    | none => simp only [hparse] at h; exact absurd h (by simp)
    | some ipAddr =>
      simp only [hparse] at h
      split at h
      · exact absurd h (by simp)
      · split at h
        · exact absurd h (by simp)
        · rename_i hcond
          simp only [not_or, not_not, not_lt, gt_iff_lt] at hcond
          obtain ⟨-, -, hn⟩ := hcond
          simp only [Except.ok.injEq, Prod.mk.injEq] at h
          obtain ⟨hip, hnet⟩ := h
          subst hip hnet
          generalize (dtoi (List.drop 1 (List.dropWhile (fun c => decide (c ≠ '/'))
            s.toList))).1 = n at hn ⊢
          rcases ParseAddrFrom_shape _ _ _ hparse with ⟨h4, f, hf, hbytes⟩ | ⟨h6, hlen⟩
          · have hbl : ipAddr.BitLen = 32 := by simp [Addr.BitLen, h4]
            rw [hbl] at hn ⊢
            have hm : CIDRMask n 32 = cidrMaskBytes 4 n := by
              simp [CIDRMask, IPv4len, IPv6len]
              intro h; omega
            have hmask : Mask ipAddr.bytes (cidrMaskBytes 4 n)
                = List.zipWith (fun a m => a &&& m) f (cidrMaskBytes 4 n) := by
              rw [hbytes]
              simp [Mask, cidrMaskBytes_length, IPv4len, IPv6len, hf, v4InV6Prefix]
            refine ⟨4, n, f, Or.inl rfl, by omega, hf, ?_, ?_⟩
            · rw [hm, hmask]
            · simp only [hm, hmask]
          · have hbl : ipAddr.BitLen = 128 := by simp [Addr.BitLen, h6]
            rw [hbl] at hn ⊢
            have hm : CIDRMask n 128 = cidrMaskBytes 16 n := by
              simp [CIDRMask, IPv4len, IPv6len]
              intro h; omega
            have hmask : Mask ipAddr.bytes (cidrMaskBytes 16 n)
                = List.zipWith (fun a m => a &&& m) ipAddr.bytes (cidrMaskBytes 16 n) := by
              simp [Mask, cidrMaskBytes_length, IPv4len, IPv6len, hlen]
            refine ⟨16, n, ipAddr.bytes, Or.inr rfl, by omega, hlen, ?_, ?_⟩
            · rw [hm, hmask]
            · simp only [hm, hmask]

/-! ## What `ipListFromCIDR` returns -/

set_option maxRecDepth 100000 in
theorem maskSize_cidrMaskBytes_4 : ∀ n, n ≤ 32 → maskSize (cidrMaskBytes 4 n) = (n, 32) := by
  decide

set_option maxRecDepth 100000 in
theorem maskSize_cidrMaskBytes_16 : ∀ n, n ≤ 128 → maskSize (cidrMaskBytes 16 n) = (n, 128) := by
  decide

theorem blockSize_cidr (L n : Nat) (nn : IP) (hL : L = 4 ∨ L = 16) (hn : n ≤ 8 * L) :
    blockSize ⟨nn, cidrMaskBytes L n⟩ = 2 ^ (8 * L - n)
      ∧ (maskSize (cidrMaskBytes L n)).1 = n := by
  rcases hL with rfl | rfl
  · simp [blockSize, maskSize_cidrMaskBytes_4 n (by omega)]
  · simp [blockSize, maskSize_cidrMaskBytes_16 n (by omega)]

theorem trim_map_range {α : Type} (f : Nat → α) (P : Nat) (h : 2 < P) :
    (((List.range P).map f).take (P - 1)).drop 1 = (List.range (P - 2)).map (fun k => f (k + 1)) := by
  obtain ⟨p, rfl⟩ : ∃ p, P = p + 2 := ⟨P - 2, by omega⟩
  rw [← List.map_take, List.take_range]
  have h1 : min (p + 2 - 1) (p + 2) = p + 1 := by omega
  rw [h1, List.range_succ_eq_map]
  simp [List.map_map, Function.comp_def]

/-- In a network with an IPv4 mask, or an IPv6 mask of at least 96 one-bits, an
address of the network's length is contained exactly when its number agrees with
the network number above the host bits. -/
theorem Contains_ipOfVal (L n : Nat) (x : List Nat) (hL : L = 4 ∨ (L = 16 ∧ 96 ≤ n))
    (hn : n ≤ 8 * L) (hx : x.length = L) (v : Nat) :
    Contains ⟨List.zipWith (fun a m => a &&& m) x (cidrMaskBytes L n), cidrMaskBytes L n⟩
        (ipOfVal L v) = true
      ↔ v % (2 ^ (8 * L - n) * 2 ^ n) / 2 ^ (8 * L - n)
        = ipVal (List.zipWith (fun a m => a &&& m) x (cidrMaskBytes L n)) / 2 ^ (8 * L - n) := by
  rw [Contains_block L n x _ hL hx (ipOfVal_length L v) (ipOfVal_lt L v),
    zipWith_and_eq_network_iff L n x hn hx v]

/-- The loop of `ipListFromCIDR` on a network with at least one prefix bit: with
more fuel than the block has addresses it ends, and it has listed the block. -/
theorem enumerate_block (L n : Nat) (x : List Nat) (hL : L = 4 ∨ (L = 16 ∧ 96 ≤ n))
    (hn1 : 1 ≤ n) (hn : n ≤ 8 * L) (hx : x.length = L) (fuel : Nat)
    (hfuel : 2 ^ (8 * L - n) < fuel) :
    enumerate ⟨List.zipWith (fun a m => a &&& m) x (cidrMaskBytes L n), cidrMaskBytes L n⟩ fuel
        (List.zipWith (fun a m => a &&& m) x (cidrMaskBytes L n)) []
      = some ((addrRun (List.zipWith (fun a m => a &&& m) x (cidrMaskBytes L n)) 0
          (2 ^ (8 * L - n))).map IPString) := by
  obtain ⟨hrep, hlt, hal⟩ := network_number_facts L n x hn hx
  have hcont := Contains_ipOfVal L n x hL hn hx
  have hl : (List.zipWith (fun a m => a &&& m) x (cidrMaskBytes L n)).length = L := by
    simp [hx, cidrMaskBytes_length]
  generalize List.zipWith (fun a m => a &&& m) x (cidrMaskBytes L n) = nn0 at hrep hlt hal hcont hl ⊢
  obtain ⟨hin, hout⟩ := block_arith (2 ^ (8 * L - n)) (2 ^ n) (ipVal nn0) (by positivity) hlt hal
  have hQ : 2 ≤ 2 ^ n := by
    calc 2 = 2 ^ 1 := by norm_num
      _ ≤ 2 ^ n := Nat.pow_le_pow_right (by norm_num) hn1
  have hiter : ∀ j, incIP^[j] nn0 = ipOfVal L (ipVal nn0 + j) := by
    intro j
    rw [← incIP_iterate_ipOfVal, ← hrep]
  rw [enumerate_stops _ (2 ^ (8 * L - n)) fuel nn0 []
    (fun j hj => by rw [hiter, hcont]; exact hin j hj)
    (by
      rw [hiter]
      cases hc : Contains ⟨nn0, cidrMaskBytes L n⟩ (ipOfVal L (ipVal nn0 + 2 ^ (8 * L - n))) with
      | false => rfl
      | true => exact absurd ((hcont _).1 hc) (hout hQ))
    hfuel]
  simp only [List.nil_append, addrRun, List.map_map, hl, Nat.add_zero]
  congr 1
  apply List.map_congr_left
  intro j _
  simp [hiter]

/-- The run of the block's addresses is exactly the set of addresses that equal the
network number under the mask, each once, in ascending numeric order. -/
theorem addrRun_block (L n : Nat) (x : List Nat) (hn : n ≤ 8 * L) (hx : x.length = L) :
    (∀ a, a ∈ addrRun (List.zipWith (fun a m => a &&& m) x (cidrMaskBytes L n)) 0
          (2 ^ (8 * L - n))
        ↔ inBlock ⟨List.zipWith (fun a m => a &&& m) x (cidrMaskBytes L n), cidrMaskBytes L n⟩ a
          = true)
      ∧ ∀ first count, first + count ≤ 2 ^ (8 * L - n) →
        (addrRun (List.zipWith (fun a m => a &&& m) x (cidrMaskBytes L n)) first count).Pairwise
            (fun a b => ipVal a < ipVal b)
          ∧ (addrRun (List.zipWith (fun a m => a &&& m) x (cidrMaskBytes L n)) first count).Nodup
          ∧ ∀ a ∈ addrRun (List.zipWith (fun a m => a &&& m) x (cidrMaskBytes L n)) first count,
            inBlock ⟨List.zipWith (fun a m => a &&& m) x (cidrMaskBytes L n),
              cidrMaskBytes L n⟩ a = true := by
  obtain ⟨hrep, hlt, hal⟩ := network_number_facts L n x hn hx
  have hnet := zipWith_and_eq_network_iff L n x hn hx
  have hl : (List.zipWith (fun a m => a &&& m) x (cidrMaskBytes L n)).length = L := by
    simp [hx, cidrMaskBytes_length]
  generalize List.zipWith (fun a m => a &&& m) x (cidrMaskBytes L n) = nn0 at hrep hlt hal hnet hl ⊢
  obtain ⟨hin, -⟩ := block_arith (2 ^ (8 * L - n)) (2 ^ n) (ipVal nn0) (by positivity) hlt hal
  have hB : (256 : Nat) ^ L = 2 ^ (8 * L - n) * 2 ^ n := by
    rw [pow256, ← pow_add]; congr 1; omega
  have hP : 0 < 2 ^ (8 * L - n) := by positivity
  have hsmall : ∀ k, k < 2 ^ (8 * L - n) → ipVal nn0 + k < 256 ^ L := by
    intro k hk
    have h1 := hin k hk
    by_contra hge
    have hq : ipVal nn0 / 2 ^ (8 * L - n) < 2 ^ n := by
      rw [Nat.div_lt_iff_lt_mul hP, Nat.mul_comm]; exact hlt
    have h3 : ipVal nn0 + k < (ipVal nn0 / 2 ^ (8 * L - n) + 1) * 2 ^ (8 * L - n) := by
      rw [Nat.add_mul, Nat.one_mul, hal]; omega
    have h4 : (ipVal nn0 / 2 ^ (8 * L - n) + 1) * 2 ^ (8 * L - n) ≤ 2 ^ n * 2 ^ (8 * L - n) :=
      Nat.mul_le_mul_right _ hq
    rw [hB, Nat.mul_comm] at hge
    omega
  have hmem : ∀ k, k < 2 ^ (8 * L - n) →
      inBlock ⟨nn0, cidrMaskBytes L n⟩ (ipOfVal L (ipVal nn0 + k)) = true := by
    intro k hk
    simp only [inBlock, Bool.and_eq_true, beq_iff_eq, List.all_eq_true, decide_eq_true_eq]
    exact ⟨⟨by rw [ipOfVal_length, cidrMaskBytes_length], ipOfVal_lt L _⟩,
      (hnet _).2 (hin k hk)⟩
  constructor
  · intro a
    simp only [addrRun, List.mem_map, List.mem_range, hl, Nat.add_zero]
    constructor
    · rintro ⟨k, hk, rfl⟩
      exact hmem k hk
    · intro ha
      simp only [inBlock, Bool.and_eq_true, beq_iff_eq, List.all_eq_true,
        decide_eq_true_eq] at ha
      obtain ⟨⟨hal1, hab⟩, haz⟩ := ha
      rw [cidrMaskBytes_length] at hal1
      have harep : ipOfVal L (ipVal a) = a := by
        have := ipOfVal_ipVal a hab
        rwa [hal1] at this
      have halt : ipVal a < 256 ^ L := by
        have := ipVal_lt a hab
        rwa [hal1] at this
      rw [← harep] at haz
      have hq := (hnet _).1 haz
      rw [← hB, Nat.mod_eq_of_lt halt] at hq
      refine ⟨ipVal a % 2 ^ (8 * L - n), Nat.mod_lt _ hP, ?_⟩
      have hdm := Nat.div_add_mod (ipVal a) (2 ^ (8 * L - n))
      rw [hq, Nat.mul_comm, hal] at hdm
      rw [hdm, harep]
  · intro first count hfc
    have hval : ∀ k, k < count → ipVal (ipOfVal L (ipVal nn0 + first + k)) = ipVal nn0 + first + k := by
      intro k hk
      rw [ipVal_ipOfVal, Nat.mod_eq_of_lt]
      have := hsmall (first + k) (by omega)
      omega
    have hpw : (addrRun nn0 first count).Pairwise (fun a b => ipVal a < ipVal b) := by
      simp only [addrRun, hl]
      rw [List.pairwise_map]
      refine List.Pairwise.imp_of_mem ?_ (List.pairwise_lt_range count)
      intro j k hj hk hjk
      rw [hval j (List.mem_range.1 hj), hval k (List.mem_range.1 hk)]
      omega
    refine ⟨hpw, ?_, ?_⟩
    · exact hpw.imp (fun h => fun e => by rw [e] at h; exact absurd h (Nat.lt_irrefl _))
    · intro a ha
      simp only [addrRun, List.mem_map, List.mem_range, hl] at ha
      obtain ⟨k, hk, rfl⟩ := ha
      rw [Nat.add_assoc]
      exact hmem (first + k) (by omega)

theorem ipListFromCIDR_of_parse (fuel : Nat) (cidr : String) (ip : IP) (ipnet : IPNet)
    (ips : List String) (hparse : ParseCIDR cidr = .ok (ip, ipnet))
    (henum : enumerate ipnet fuel (Mask ip ipnet.Mask) [] = some ips) :
    ipListFromCIDR fuel cidr
      = some (.ok (if ips.length > 2 then (ips.take (ips.length - 1)).drop 1 else ips)) := by
  simp only [ipListFromCIDR, hparse, henum]
  split <;> rfl

/-- C2. For a well-formed CIDR string whose block has at most two addresses (one or
no host bit), `ipListFromCIDR` returns, for every fuel of at least 3, the text of
every address of the block: the list is the block written out (`blockAddrs`), which
has `blockSize` entries, no repetition, and holds exactly the addresses that equal
the network number under the mask. -/
theorem ipListFromCIDR_small_block (cidr : String) (ip : IP) (ipnet : IPNet)
    (hparse : ParseCIDR cidr = .ok (ip, ipnet)) (hsmall : blockSize ipnet ≤ 2) :
    (∀ fuel, 3 ≤ fuel →
        ipListFromCIDR fuel cidr = some (.ok ((blockAddrs ipnet).map IPString)))
      ∧ ((blockAddrs ipnet).map IPString).length = blockSize ipnet
      ∧ (blockAddrs ipnet).Nodup
      ∧ ∀ a, a ∈ blockAddrs ipnet ↔ inBlock ipnet a = true := by
  obtain ⟨L, n, x, hL, hn, hx, rfl, hstart⟩ := ParseCIDR_shape cidr ip ipnet hparse
  obtain ⟨hbs, -⟩ := blockSize_cidr L n (List.zipWith (fun a m => a &&& m) x (cidrMaskBytes L n))
    hL hn
  rw [hbs] at hsmall
  have hh : 8 * L - n ≤ 1 := by
    by_contra hgt
    have : 2 ^ 2 ≤ 2 ^ (8 * L - n) := Nat.pow_le_pow_right (by norm_num) (by omega)
    omega
  have hL2 : L = 4 ∨ (L = 16 ∧ 96 ≤ n) := by
    rcases hL with h | h
    · exact Or.inl h
    · exact Or.inr ⟨h, by omega⟩
  have hn1 : 1 ≤ n := by rcases hL with h | h <;> omega
  obtain ⟨hmem, hrun⟩ := addrRun_block L n x hn hx
  obtain ⟨-, hnodup, -⟩ := hrun 0 (2 ^ (8 * L - n)) (by omega)
  simp only [blockAddrs, hbs]
  refine ⟨?_, by simp [addrRun], hnodup, hmem⟩
  intro fuel hfuel
  have henum := enumerate_block L n x hL2 hn1 hn hx fuel (by omega)
  simp only at hstart
  rw [ipListFromCIDR_of_parse fuel cidr ip _ _ hparse (by rw [hstart]; exact henum)]
  have hlen : ((addrRun (List.zipWith (fun a m => a &&& m) x (cidrMaskBytes L n)) 0
      (2 ^ (8 * L - n))).map IPString).length ≤ 2 := by
    simp [addrRun]; exact hsmall
  rw [if_neg (by omega)]

/-- Witness for C2: the two-address block `192.168.1.4/31`, written with a host bit set. -/
theorem ipListFromCIDR_small_block_witness :
    (∀ fuel, 3 ≤ fuel → ipListFromCIDR fuel "192.168.1.5/31"
        = some (.ok ((blockAddrs ⟨[192, 168, 1, 4], [255, 255, 255, 254]⟩).map IPString)))
      ∧ ((blockAddrs ⟨[192, 168, 1, 4], [255, 255, 255, 254]⟩).map IPString).length
        = blockSize ⟨[192, 168, 1, 4], [255, 255, 255, 254]⟩
      ∧ (blockAddrs ⟨[192, 168, 1, 4], [255, 255, 255, 254]⟩).Nodup
      ∧ ∀ a, a ∈ blockAddrs ⟨[192, 168, 1, 4], [255, 255, 255, 254]⟩
        ↔ inBlock ⟨[192, 168, 1, 4], [255, 255, 255, 254]⟩ a = true :=
  ipListFromCIDR_small_block "192.168.1.5/31"
    [0, 0, 0, 0, 0, 0, 0, 0, 0, 0, 255, 255, 192, 168, 1, 5]
    ⟨[192, 168, 1, 4], [255, 255, 255, 254]⟩ (by decide) (by decide)

/-- Support for C1 and C3. For a well-formed CIDR string with an IPv4 mask of at least
one bit, or an IPv6 mask of at least 96 bits, whose block has more than two
addresses, `ipListFromCIDR` returns, for every fuel above the block size, the text
of the addresses `network + 1, ..., network + size - 2`: `size - 2` entries, in
strictly ascending numeric order, all of the block, without the network address
(`network + 0`) and the broadcast address (`network + size - 1`); before the trim
the loop has listed the whole block from the network address on. -/
theorem ipListFromCIDR_large_block (cidr : String) (ip : IP) (ipnet : IPNet)
    (hparse : ParseCIDR cidr = .ok (ip, ipnet)) (hlarge : 2 < blockSize ipnet)
    (hfam : (ipnet.Mask.length = 4 ∧ 1 ≤ (maskSize ipnet.Mask).1)
      ∨ (ipnet.Mask.length = 16 ∧ 96 ≤ (maskSize ipnet.Mask).1)) :
    (∀ fuel, blockSize ipnet < fuel →
        enumerate ipnet fuel (Mask ip ipnet.Mask) []
            = some ((blockAddrs ipnet).map IPString)
          ∧ ipListFromCIDR fuel cidr
            = some (.ok ((addrRun ipnet.IP 1 (blockSize ipnet - 2)).map IPString)))
      ∧ ((addrRun ipnet.IP 1 (blockSize ipnet - 2)).map IPString).length = blockSize ipnet - 2
      ∧ (addrRun ipnet.IP 1 (blockSize ipnet - 2)).Pairwise (fun a b => ipVal a < ipVal b)
      ∧ (∀ a ∈ addrRun ipnet.IP 1 (blockSize ipnet - 2), inBlock ipnet a = true
          ∧ ipVal ipnet.IP < ipVal a ∧ ipVal a < ipVal ipnet.IP + (blockSize ipnet - 1))
      ∧ (∀ a, a ∈ blockAddrs ipnet ↔ inBlock ipnet a = true)
      ∧ (blockAddrs ipnet).Nodup := by
  obtain ⟨L, n, x, hL, hn, hx, rfl, hstart⟩ := ParseCIDR_shape cidr ip ipnet hparse
  obtain ⟨hbs, hones⟩ := blockSize_cidr L n
    (List.zipWith (fun a m => a &&& m) x (cidrMaskBytes L n)) hL hn
  simp only [cidrMaskBytes_length, hones] at hfam
  rw [hbs] at hlarge
  have hL2 : L = 4 ∨ (L = 16 ∧ 96 ≤ n) := by
    rcases hfam with ⟨h, _⟩ | ⟨h, h'⟩
    · exact Or.inl h
    · exact Or.inr ⟨h, h'⟩
  have hn1 : 1 ≤ n := by rcases hfam with ⟨_, h⟩ | ⟨_, h⟩ <;> omega
  obtain ⟨hmem, hrun⟩ := addrRun_block L n x hn hx
  obtain ⟨hpw, -, hin⟩ := hrun 1 (2 ^ (8 * L - n) - 2) (by omega)
  obtain ⟨hpw0, hnodup0, -⟩ := hrun 0 (2 ^ (8 * L - n)) (by omega)
  simp only [blockAddrs, hbs]
  simp only at hstart
  refine ⟨?_, by simp [addrRun], hpw, ?_, hmem, hnodup0⟩
  · intro fuel hfuel
    have henum := enumerate_block L n x hL2 hn1 hn hx fuel hfuel
    refine ⟨by rw [hstart]; exact henum, ?_⟩
    rw [ipListFromCIDR_of_parse fuel cidr ip _ _ hparse (by rw [hstart]; exact henum)]
    have hlen : ((addrRun (List.zipWith (fun a m => a &&& m) x (cidrMaskBytes L n)) 0
        (2 ^ (8 * L - n))).map IPString).length = 2 ^ (8 * L - n) := by
      simp [addrRun]
    rw [if_pos (by omega), hlen]
    simp only [addrRun, List.map_map]
    rw [trim_map_range _ _ hlarge]
    apply congrArg
    apply congrArg
    apply List.map_congr_left
    intro k _
    simp only [Function.comp_apply]
    congr 2
    omega
  · intro a ha
    refine ⟨hin a ha, ?_⟩
    obtain ⟨hrep, hlt, hal⟩ := network_number_facts L n x hn hx
    have hl : (List.zipWith (fun a m => a &&& m) x (cidrMaskBytes L n)).length = L := by
      simp [hx, cidrMaskBytes_length]
    simp only [addrRun, List.mem_map, List.mem_range, hl] at ha
    obtain ⟨k, hk, rfl⟩ := ha
    have hB : (256 : Nat) ^ L = 2 ^ (8 * L - n) * 2 ^ n := by
      rw [pow256, ← pow_add]; congr 1; omega
    obtain ⟨hin2, -⟩ := block_arith (2 ^ (8 * L - n)) (2 ^ n) _ (by positivity) hlt hal
    have hsm : ipVal (List.zipWith (fun a m => a &&& m) x (cidrMaskBytes L n)) + 1 + k
        < 256 ^ L := by
      have hP : 0 < 2 ^ (8 * L - n) := by positivity
      have hq : ipVal (List.zipWith (fun a m => a &&& m) x (cidrMaskBytes L n))
          / 2 ^ (8 * L - n) < 2 ^ n := by
        rw [Nat.div_lt_iff_lt_mul hP, Nat.mul_comm]; exact hlt
      have h4 := Nat.mul_le_mul_right (2 ^ (8 * L - n)) hq
      rw [Nat.succ_mul, hal] at h4
      rw [hB, Nat.mul_comm]
      omega
    rw [ipVal_ipOfVal, Nat.mod_eq_of_lt hsm]
    omega

/-- Witness for the support lemma of C1 and C3: the block `192.168.1.0/29`. -/
theorem ipListFromCIDR_large_block_witness :
    ∀ fuel, blockSize ⟨[192, 168, 1, 0], [255, 255, 255, 248]⟩ < fuel →
      ipListFromCIDR fuel "192.168.1.5/29"
        = some (.ok ((addrRun [192, 168, 1, 0] 1
            (blockSize ⟨[192, 168, 1, 0], [255, 255, 255, 248]⟩ - 2)).map IPString)) :=
  fun fuel hfuel =>
    ((ipListFromCIDR_large_block "192.168.1.5/29"
      [0, 0, 0, 0, 0, 0, 0, 0, 0, 0, 255, 255, 192, 168, 1, 5]
      ⟨[192, 168, 1, 0], [255, 255, 255, 248]⟩ (by decide) (by decide)
      (Or.inl (by decide))).1 fuel hfuel).2

/-- On an IPv4 network with no prefix bit every 4-byte address is contained, so the
increment, which wraps from `255.255.255.255` to `0.0.0.0`, never leaves the
network: the loop of `ipListFromCIDR` is still running after any number of rounds. -/
theorem ipListFromCIDR_ipv4_prefix0 (cidr : String) (ip : IP) (ipnet : IPNet)
    (hparse : ParseCIDR cidr = .ok (ip, ipnet)) (hmask : ipnet.Mask = [0, 0, 0, 0]) (fuel : Nat) :
    enumerate ipnet fuel (Mask ip ipnet.Mask) [] = none ∧ ipListFromCIDR fuel cidr = none := by
  obtain ⟨L, n, x, hL, hn, hx, rfl, hstart⟩ := ParseCIDR_shape cidr ip ipnet hparse
  simp only at hmask hstart
  have hL4 : L = 4 := by
    have := congrArg List.length hmask
    simpa [cidrMaskBytes_length] using this
  subst hL4
  have hn0 : n = 0 := by
    have h1 := maskSize_cidrMaskBytes_4 n (by omega)
    rw [hmask] at h1
    have h2 : maskSize [0, 0, 0, 0] = (0, 32) := by decide
    rw [h2] at h1
    exact (congrArg Prod.fst h1).symm
  subst hn0
  obtain ⟨hrep, hlt, -⟩ := network_number_facts 4 0 x hn hx
  have hcont := Contains_ipOfVal 4 0 x (Or.inl rfl) hn hx
  generalize List.zipWith (fun a m => a &&& m) x (cidrMaskBytes 4 0) = nn0
    at hrep hlt hcont hstart hparse ⊢
  have hdiv : ∀ fuel, enumerate ⟨nn0, cidrMaskBytes 4 0⟩ fuel nn0 [] = none := by
    intro fuel
    apply enumerate_diverges
    intro k
    have hiter : incIP^[k] nn0 = ipOfVal 4 (ipVal nn0 + k) := by
      rw [← incIP_iterate_ipOfVal, ← hrep]
    rw [hiter, hcont]
    simp only [Nat.sub_zero, pow_zero, Nat.mul_one] at hlt ⊢
    rw [Nat.div_eq_of_lt (Nat.mod_lt _ (by positivity)), Nat.div_eq_of_lt hlt]
  have h1 : enumerate ⟨nn0, cidrMaskBytes 4 0⟩ fuel (Mask ip (cidrMaskBytes 4 0)) [] = none := by
    rw [hstart]; exact hdiv fuel
  refine ⟨h1, ?_⟩
  simp only [ipListFromCIDR, hparse, h1]

/-- C1, at the range `0.0.0.0/0`: the string is a well-formed CIDR, its block has
`2 ^ 32` addresses, and `ipListFromCIDR` is still in its loop after any number of
rounds: it returns no list at all. -/
theorem ipListFromCIDR_whole_ipv4_never_returns :
    ParseCIDR "0.0.0.0/0"
        = .ok ([0, 0, 0, 0, 0, 0, 0, 0, 0, 0, 255, 255, 0, 0, 0, 0], ⟨[0, 0, 0, 0], [0, 0, 0, 0]⟩)
      ∧ blockSize ⟨[0, 0, 0, 0], [0, 0, 0, 0]⟩ = 2 ^ 32
      ∧ ∀ fuel, ipListFromCIDR fuel "0.0.0.0/0" = none :=
  ⟨by decide, by decide, fun fuel =>
    (ipListFromCIDR_ipv4_prefix0 "0.0.0.0/0" [0, 0, 0, 0, 0, 0, 0, 0, 0, 0, 255, 255, 0, 0, 0, 0]
      ⟨[0, 0, 0, 0], [0, 0, 0, 0]⟩ (by decide) rfl fuel).2⟩

/-- C3, at the range `192.168.1.5/0` (an address part with host bits set): the
string is a well-formed CIDR, the loop starts at the masked address `0.0.0.0`, and
after any number of rounds it is still running, so `ipListFromCIDR` returns no list. -/
theorem ipListFromCIDR_host_bits_prefix0_never_returns :
    ParseCIDR "192.168.1.5/0"
        = .ok ([0, 0, 0, 0, 0, 0, 0, 0, 0, 0, 255, 255, 192, 168, 1, 5],
          ⟨[0, 0, 0, 0], [0, 0, 0, 0]⟩)
      ∧ Mask [0, 0, 0, 0, 0, 0, 0, 0, 0, 0, 255, 255, 192, 168, 1, 5] [0, 0, 0, 0] = [0, 0, 0, 0]
      ∧ ∀ fuel, enumerate ⟨[0, 0, 0, 0], [0, 0, 0, 0]⟩ fuel [0, 0, 0, 0] [] = none
        ∧ ipListFromCIDR fuel "192.168.1.5/0" = none := by
  refine ⟨by decide, by decide, fun fuel => ?_⟩
  have h := ipListFromCIDR_ipv4_prefix0 "192.168.1.5/0"
    [0, 0, 0, 0, 0, 0, 0, 0, 0, 0, 255, 255, 192, 168, 1, 5] ⟨[0, 0, 0, 0], [0, 0, 0, 0]⟩
    (by decide) rfl fuel
  have hm : Mask [0, 0, 0, 0, 0, 0, 0, 0, 0, 0, 255, 255, 192, 168, 1, 5] [0, 0, 0, 0]
      = [0, 0, 0, 0] := by decide
  simp only [hm] at h
  exact h

/-- Go's `Contains` takes an IPv4-mapped address for a 4-byte address: the IPv6
network `::/0` does not contain `::ffff:0.0.0.0`, at which the loop of
`ipListFromCIDR` on `::/0` would therefore stop. -/
theorem Contains_ipv6_prefix0_mapped :
    ParseCIDR "::/0"
        = .ok (List.replicate 16 0, ⟨List.replicate 16 0, List.replicate 16 0⟩)
      ∧ Contains ⟨List.replicate 16 0, List.replicate 16 0⟩
          [0, 0, 0, 0, 0, 0, 0, 0, 0, 0, 255, 255, 0, 0, 0, 0] = false
      ∧ inBlock ⟨List.replicate 16 0, List.replicate 16 0⟩
          [0, 0, 0, 0, 0, 0, 0, 0, 0, 0, 255, 255, 0, 0, 0, 0] = true := by
  decide

/-! ## IPv6 networks with a prefix below 96 bits -/

theorem ipOfVal_add (a b v : Nat) :
    ipOfVal (a + b) v = ipOfVal a (v / 256 ^ b) ++ ipOfVal b v := by
  induction a with
  | zero => simp [ipOfVal]
  | succ a ih =>
    rw [Nat.succ_add, ipOfVal, ipOfVal, ih, List.cons_append]
    congr 2
    rw [Nat.div_div_eq_div_mul, ← pow_add, Nat.add_comm b a]

set_option maxRecDepth 100000 in
theorem v4InV6Prefix_eq : v4InV6Prefix = ipOfVal 12 0xffff := by decide

/-- A 16-byte address is IPv4-mapped exactly when its number without the last 32
bits is `0xffff`. -/
theorem To4_ipOfVal_16 (v : Nat) :
    To4 (ipOfVal 16 v) = [] ↔ v % 2 ^ 128 / 2 ^ 32 ≠ 0xffff := by
  have hsplit : ipOfVal 16 v = ipOfVal 12 (v / 256 ^ 4) ++ ipOfVal 4 v := ipOfVal_add 12 4 v
  rw [hsplit, To4_append _ _ (ipOfVal_length 12 _) (ipOfVal_length 4 _)]
  have hq : ipOfVal 4 v ≠ [] := by
    intro h
    have := congrArg List.length h
    simp [ipOfVal_length] at this
  have hmod : v % 2 ^ 128 / 2 ^ 32 = v / 256 ^ 4 % 256 ^ 12 := by
    have h1 : (2 : Nat) ^ 128 = 256 ^ 4 * 256 ^ 12 := by norm_num
    have h2 : (2 : Nat) ^ 32 = 256 ^ 4 := by norm_num
    rw [h1, h2, Nat.mod_mul_right_div_self]
  rw [hmod]
  constructor
  · intro h heq
    split at h
    · exact hq h
    · rename_i hne
      apply hne
      rw [v4InV6Prefix_eq, ← ipOfVal_mod 12 (v / 256 ^ 4), heq]
  · intro h
    rw [if_neg]
    intro heq
    apply h
    rw [v4InV6Prefix_eq] at heq
    have := ipOfVal_inj 12 (v / 256 ^ 4 % 256 ^ 12) 0xffff (Nat.mod_lt _ (by positivity))
      (by norm_num) (by rw [ipOfVal_mod]; exact heq)
    exact this

set_option maxRecDepth 100000 in
theorem cidrMaskBytes_16_byte11 : ∀ n, n < 96 → (cidrMaskBytes 16 n).getD 11 0 < 255 := by
  decide

theorem getD_zipWith_and_le (x m : List Nat) (i : Nat) :
    (List.zipWith (fun a m => a &&& m) x m).getD i 0 ≤ m.getD i 0 := by
  induction x generalizing m i with
  | nil => simp
  | cons a x ih =>
    cases m with
    | nil => simp
    | cons mb m =>
      cases i with
      | zero => simp [Nat.and_le_right]
      | succ i => simpa using ih m i

theorem To4_length (ip : List Nat) (h : To4 ip ≠ []) (hl : ip.length = 16) :
    (To4 ip).length = 4 := by
  unfold To4 at h ⊢
  have h4 : ¬ ip.length = IPv4len := by rw [hl]; decide
  rw [if_neg h4] at h ⊢
  split at h
  · rename_i hc
    rw [if_pos hc]
    simp [hl]
  · exact absurd rfl h

/-- On an IPv6 network with fewer than 96 prefix bits, `Contains` holds for the
addresses that equal the network number under the mask and are not IPv4-mapped. -/
theorem Contains_len16_low (n : Nat) (x ip : List Nat) (hn : n < 96) (hx : x.length = 16)
    (hip : ip.length = 16) :
    Contains ⟨List.zipWith (fun a m => a &&& m) x (cidrMaskBytes 16 n), cidrMaskBytes 16 n⟩ ip
        = true
      ↔ To4 ip = [] ∧ List.zipWith (fun a m => a &&& m) ip (cidrMaskBytes 16 n)
        = List.zipWith (fun a m => a &&& m) x (cidrMaskBytes 16 n) := by
  have hidem := zipWith_and_idem x (cidrMaskBytes 16 n)
  have hl : (List.zipWith (fun a m => a &&& m) x (cidrMaskBytes 16 n)).length = 16 := by
    simp [hx, cidrMaskBytes_length]
  have h11 : (List.zipWith (fun a m => a &&& m) x (cidrMaskBytes 16 n)).getD 11 0 ≠ 255 := by
    have h1 := getD_zipWith_and_le x (cidrMaskBytes 16 n) 11
    have h2 := cidrMaskBytes_16_byte11 n hn
    omega
  have hml := cidrMaskBytes_length 16 n
  generalize List.zipWith (fun a m => a &&& m) x (cidrMaskBytes 16 n) = nn0 at hidem hl h11 ⊢
  generalize cidrMaskBytes 16 n = m at hidem hml ⊢
  have hT : To4 nn0 = [] := by
    unfold To4
    rw [if_neg (by rw [hl]; decide), if_neg (fun hc => h11 hc.2.2.2)]
  have hnm : networkNumberAndMask ⟨nn0, m⟩ = (nn0, m) := by
    simp [networkNumberAndMask, hT, IPv4len, IPv6len, hl, hml]
  by_cases h4 : To4 ip = []
  · simp only [Contains, hnm, h4, ne_eq, not_true_eq_false, if_false, hip, hl, true_and]
    rw [sameNetwork_iff _ _ _ (by rw [hl, hip]) (by rw [hml, hip]), hidem]
    exact eq_comm
  · have h4l := To4_length ip h4 hip
    simp only [Contains, hnm, h4, ne_eq, not_false_eq_true, if_true, h4l, hl, false_and,
      iff_false]
    simp

theorem Contains_ipOfVal_low (n : Nat) (x : List Nat) (hn : n < 96) (hx : x.length = 16)
    (v : Nat) :
    Contains ⟨List.zipWith (fun a m => a &&& m) x (cidrMaskBytes 16 n), cidrMaskBytes 16 n⟩
        (ipOfVal 16 v) = true
      ↔ v % 2 ^ 128 / 2 ^ 32 ≠ 0xffff
        ∧ v % 2 ^ 128 / 2 ^ (128 - n)
          = ipVal (List.zipWith (fun a m => a &&& m) x (cidrMaskBytes 16 n)) / 2 ^ (128 - n) := by
  rw [Contains_len16_low n x _ hn hx (ipOfVal_length 16 v), To4_ipOfVal_16,
    zipWith_and_eq_network_iff 16 n x (by omega) hx v]
  have hB : (2 : Nat) ^ (8 * 16 - n) * 2 ^ n = 2 ^ 128 := by
    rw [← pow_add]; congr 1; omega
  rw [hB]

/-- The loop of `ipListFromCIDR` on an IPv6 network with fewer than 96 prefix bits.
When the block does not cover the IPv4-mapped addresses, the loop lists the whole
block; when it does, the loop ends at `::ffff:0.0.0.0`, the first IPv4-mapped
address, having listed only the addresses below it. -/
theorem enumerate_block_low (n : Nat) (x : List Nat) (hn : n < 96) (hx : x.length = 16) :
    (ipVal (List.zipWith (fun a m => a &&& m) x (cidrMaskBytes 16 n)) / 2 ^ (128 - n)
        ≠ 0xffff * 2 ^ 32 / 2 ^ (128 - n) →
      ∀ fuel, 2 ^ (128 - n) < fuel →
        enumerate ⟨List.zipWith (fun a m => a &&& m) x (cidrMaskBytes 16 n), cidrMaskBytes 16 n⟩
            fuel (List.zipWith (fun a m => a &&& m) x (cidrMaskBytes 16 n)) []
          = some ((addrRun (List.zipWith (fun a m => a &&& m) x (cidrMaskBytes 16 n)) 0
              (2 ^ (128 - n))).map IPString))
      ∧ (ipVal (List.zipWith (fun a m => a &&& m) x (cidrMaskBytes 16 n)) / 2 ^ (128 - n)
          = 0xffff * 2 ^ 32 / 2 ^ (128 - n) →
        0xffff * 2 ^ 32 - ipVal (List.zipWith (fun a m => a &&& m) x (cidrMaskBytes 16 n))
            < 2 ^ (128 - n)
          ∧ 2 ^ 32 ≤ 0xffff * 2 ^ 32
            - ipVal (List.zipWith (fun a m => a &&& m) x (cidrMaskBytes 16 n))
          ∧ ∀ fuel, 0xffff * 2 ^ 32
              - ipVal (List.zipWith (fun a m => a &&& m) x (cidrMaskBytes 16 n)) < fuel →
            enumerate ⟨List.zipWith (fun a m => a &&& m) x (cidrMaskBytes 16 n),
                cidrMaskBytes 16 n⟩ fuel
                (List.zipWith (fun a m => a &&& m) x (cidrMaskBytes 16 n)) []
              = some ((addrRun (List.zipWith (fun a m => a &&& m) x (cidrMaskBytes 16 n)) 0
                  (0xffff * 2 ^ 32
                    - ipVal (List.zipWith (fun a m => a &&& m) x (cidrMaskBytes 16 n)))).map
                  IPString)) := by
  obtain ⟨hrep, hlt, hal⟩ := network_number_facts 16 n x (by omega) hx
  have hcont := Contains_ipOfVal_low n x hn hx
  have hl : (List.zipWith (fun a m => a &&& m) x (cidrMaskBytes 16 n)).length = 16 := by
    simp [hx, cidrMaskBytes_length]
  generalize List.zipWith (fun a m => a &&& m) x (cidrMaskBytes 16 n) = nn0
    at hrep hlt hal hcont hl ⊢
  have h128 : 8 * 16 - n = 128 - n := by omega
  rw [h128] at hlt hal
  have hB : (2 : Nat) ^ (128 - n) * 2 ^ n = 2 ^ 128 := by
    rw [← pow_add]; congr 1; omega
  have hPR : (2 : Nat) ^ (128 - n) = 2 ^ 32 * 2 ^ (96 - n) := by
    rw [← pow_add]; congr 1; omega
  have hP : 0 < 2 ^ (128 - n) := by positivity
  have hR2 : 2 ≤ 2 ^ (96 - n) := by
    calc 2 = 2 ^ 1 := by norm_num
      _ ≤ 2 ^ (96 - n) := Nat.pow_le_pow_right (by norm_num) (by omega)
  obtain ⟨hin, hout⟩ := block_arith (2 ^ (128 - n)) (2 ^ n) (ipVal nn0) hP hlt hal
  rw [hB] at hin hout hlt
  have hiter : ∀ j, incIP^[j] nn0 = ipOfVal 16 (ipVal nn0 + j) := by
    intro j
    rw [← incIP_iterate_ipOfVal, ← hrep]
  have hfin : ∀ (k : Nat) (fuel : Nat), k < fuel →
      (∀ j < k, Contains ⟨nn0, cidrMaskBytes 16 n⟩ (ipOfVal 16 (ipVal nn0 + j)) = true) →
      ¬ Contains ⟨nn0, cidrMaskBytes 16 n⟩ (ipOfVal 16 (ipVal nn0 + k)) = true →
      enumerate ⟨nn0, cidrMaskBytes 16 n⟩ fuel nn0 [] = some ((addrRun nn0 0 k).map IPString) := by
    intro k fuel hfuel hall hstop
    rw [enumerate_stops _ k fuel nn0 [] (fun j hj => by rw [hiter]; exact hall j hj)
      (by rw [hiter]; simpa using hstop) hfuel]
    simp only [List.nil_append, addrRun, List.map_map, hl, Nat.add_zero]
    congr 1
    apply List.map_congr_left
    intro j _
    simp [hiter]
  have hsmall : ∀ k, k < 2 ^ (128 - n) → ipVal nn0 + k < 2 ^ 128 := by
    intro k hk
    have hq : ipVal nn0 / 2 ^ (128 - n) < 2 ^ n := by
      rw [Nat.div_lt_iff_lt_mul hP, Nat.mul_comm, hB]; exact hlt
    have h4 := Nat.mul_le_mul_right (2 ^ (128 - n)) hq
    rw [Nat.succ_mul, hal, Nat.mul_comm, hB] at h4
    omega
  have hdivP : ∀ w, w / 2 ^ (128 - n) = w / 2 ^ 32 / 2 ^ (96 - n) := by
    intro w; rw [hPR, Nat.div_div_eq_div_mul]
  have hM0 : 0xffff * 2 ^ 32 / 2 ^ 32 = 0xffff := by norm_num
  constructor
  · intro hmiss fuel hfuel
    have hn1 : 1 ≤ n := by
      by_contra h0
      have hn0 : n = 0 := by omega
      subst hn0
      apply hmiss
      rw [Nat.div_eq_of_lt (by simpa using hlt), Nat.div_eq_of_lt (by norm_num)]
    have hQ : 2 ≤ 2 ^ n := by
      calc 2 = 2 ^ 1 := by norm_num
        _ ≤ 2 ^ n := Nat.pow_le_pow_right (by norm_num) hn1
    apply hfin _ fuel hfuel
    · intro j hj
      rw [hcont]
      refine ⟨?_, hin j hj⟩
      intro hmapped
      apply hmiss
      have h1 := hin j hj
      rw [← h1, hdivP, hmapped, hdivP, hM0]
    · intro hc
      exact hout hQ ((hcont _).1 hc).2
  · intro hcover
    have hle : ipVal nn0 ≤ 0xffff * 2 ^ 32 := by
      rw [← hal, hcover]
      exact Nat.div_mul_le_self _ _
    have hk0 : 0xffff * 2 ^ 32 - ipVal nn0 < 2 ^ (128 - n) := by
      have h1 := Nat.lt_mul_div_succ (0xffff * 2 ^ 32) hP
      rw [← hcover] at h1
      have h2 : 2 ^ (128 - n) * (ipVal nn0 / 2 ^ (128 - n) + 1)
          = ipVal nn0 + 2 ^ (128 - n) := by
        rw [Nat.mul_add, Nat.mul_one, Nat.mul_comm, hal]
      rw [h2] at h1
      omega
    have h32 : ipVal nn0 / 2 ^ 32 = ipVal nn0 / 2 ^ (128 - n) * 2 ^ (96 - n) := by
      have e : ipVal nn0 = (ipVal nn0 / 2 ^ (128 - n) * 2 ^ (96 - n)) * 2 ^ 32 := by
        rw [Nat.mul_assoc, Nat.mul_comm (2 ^ (96 - n)) (2 ^ 32), ← hPR, hal]
      conv_lhs => rw [e]
      exact Nat.mul_div_cancel _ (by positivity)
    have hmul32 : ipVal nn0 / 2 ^ 32 * 2 ^ 32 = ipVal nn0 := by
      rw [h32, Nat.mul_assoc, Nat.mul_comm (2 ^ (96 - n)) (2 ^ 32), ← hPR, hal]
    have hnet32 : ipVal nn0 / 2 ^ 32 < 0xffff := by
      have hq : ipVal nn0 / 2 ^ 32 / 2 ^ (96 - n) = 0xffff / 2 ^ (96 - n) := by
        rw [← hdivP, hcover, hdivP, hM0]
      have hmul : ipVal nn0 / 2 ^ 32 / 2 ^ (96 - n) * 2 ^ (96 - n) = ipVal nn0 / 2 ^ 32 := by
        rw [h32, Nat.mul_div_cancel _ (by positivity)]
      rw [hq] at hmul
      have hle2 : 0xffff / 2 ^ (96 - n) * 2 ^ (96 - n) ≤ 0xffff := Nat.div_mul_le_self _ _
      have hodd : 0xffff / 2 ^ (96 - n) * 2 ^ (96 - n) ≠ 0xffff := by
        intro he
        have hdvd : 2 ∣ 0xffff := by
          have h2 : (2 : Nat) ∣ 2 ^ (96 - n) := dvd_pow_self 2 (by omega)
          exact he ▸ Dvd.dvd.mul_left h2 _
        omega
      omega
    have hge : 2 ^ 32 ≤ 0xffff * 2 ^ 32 - ipVal nn0 := by
      have h1 : ipVal nn0 / 2 ^ 32 ≤ 0xfffe := by omega
      have h2 := Nat.mul_le_mul_right (2 ^ 32) h1
      rw [hmul32] at h2
      norm_num at h2 ⊢
      omega
    refine ⟨hk0, hge, ?_⟩
    intro fuel hfuel
    apply hfin _ fuel hfuel
    · intro j hj
      rw [hcont]
      refine ⟨?_, hin j (by omega)⟩
      rw [Nat.mod_eq_of_lt (hsmall j (by omega))]
      have : (ipVal nn0 + j) / 2 ^ 32 < 0xffff := by
        rw [Nat.div_lt_iff_lt_mul (by positivity)]
        omega
      omega
    · intro hc
      have h1 := ((hcont _).1 hc).1
      apply h1
      have he : ipVal nn0 + (0xffff * 2 ^ 32 - ipVal nn0) = 0xffff * 2 ^ 32 := by omega
      rw [he, Nat.mod_eq_of_lt (by norm_num), hM0]

theorem ipListFromCIDR_of_run (fuel : Nat) (cidr : String) (ip : IP) (ipnet : IPNet)
    (count : Nat) (hparse : ParseCIDR cidr = .ok (ip, ipnet))
    (henum : enumerate ipnet fuel (Mask ip ipnet.Mask) []
      = some ((addrRun ipnet.IP 0 count).map IPString)) :
    ipListFromCIDR fuel cidr
      = some (.ok (if 2 < count then (addrRun ipnet.IP 1 (count - 2)).map IPString
          else (addrRun ipnet.IP 0 count).map IPString)) := by
  rw [ipListFromCIDR_of_parse fuel cidr ip ipnet _ hparse henum]
  have hlen : ((addrRun ipnet.IP 0 count).map IPString).length = count := by simp [addrRun]
  rw [hlen]
  by_cases hc : 2 < count
  · rw [if_pos hc, if_pos hc]
    simp only [addrRun, List.map_map]
    rw [trim_map_range _ _ hc]
    apply congrArg
    apply congrArg
    apply List.map_congr_left
    intro k _
    simp only [Function.comp_apply]
    congr 2
    omega
  · rw [if_neg hc, if_neg hc]

/-- The first IPv4-mapped address, `::ffff:0.0.0.0`. -/
theorem ipOfVal_mapped_zero :
    ipOfVal 16 (0xffff * 2 ^ 32) = [0, 0, 0, 0, 0, 0, 0, 0, 0, 0, 255, 255, 0, 0, 0, 0] := by
  decide

/-- For a well-formed IPv6 CIDR string with a prefix below 96 bits: when the block
does not hold `::ffff:0.0.0.0`, the loop of `ipListFromCIDR` lists the whole block;
when it does, the loop ends at that address, and what `ipListFromCIDR` returns has
`count - 2` entries for a `count` that is below the block size. -/
theorem ipListFromCIDR_ipv6_below_96 (cidr : String) (ip : IP) (ipnet : IPNet)
    (hparse : ParseCIDR cidr = .ok (ip, ipnet)) (h16 : ipnet.Mask.length = 16)
    (hlow : (maskSize ipnet.Mask).1 < 96) :
    (inBlock ipnet [0, 0, 0, 0, 0, 0, 0, 0, 0, 0, 255, 255, 0, 0, 0, 0] = false →
        ∀ fuel, blockSize ipnet < fuel →
          enumerate ipnet fuel (Mask ip ipnet.Mask) [] = some ((blockAddrs ipnet).map IPString)
            ∧ ipListFromCIDR fuel cidr
              = some (.ok ((addrRun ipnet.IP 1 (blockSize ipnet - 2)).map IPString)))
      ∧ (inBlock ipnet [0, 0, 0, 0, 0, 0, 0, 0, 0, 0, 255, 255, 0, 0, 0, 0] = true →
        0xffff * 2 ^ 32 - ipVal ipnet.IP < blockSize ipnet
          ∧ 2 ^ 32 ≤ 0xffff * 2 ^ 32 - ipVal ipnet.IP
          ∧ ∀ fuel, 0xffff * 2 ^ 32 - ipVal ipnet.IP < fuel →
            enumerate ipnet fuel (Mask ip ipnet.Mask) []
                = some ((addrRun ipnet.IP 0 (0xffff * 2 ^ 32 - ipVal ipnet.IP)).map IPString)
              ∧ ipListFromCIDR fuel cidr
                = some (.ok ((addrRun ipnet.IP 1
                    (0xffff * 2 ^ 32 - ipVal ipnet.IP - 2)).map IPString))) := by
  obtain ⟨L, n, x, hL, hn, hx, rfl, hstart⟩ := ParseCIDR_shape cidr ip ipnet hparse
  obtain ⟨hbs, hones⟩ := blockSize_cidr L n
    (List.zipWith (fun a m => a &&& m) x (cidrMaskBytes L n)) hL hn
  simp only [cidrMaskBytes_length] at h16
  subst h16
  simp only [hones] at hlow
  simp only at hstart
  have h128 : 8 * 16 - n = 128 - n := by omega
  rw [h128] at hbs
  obtain ⟨hmiss, hcover⟩ := enumerate_block_low n x hlow hx
  have hB : (2 : Nat) ^ (8 * 16 - n) * 2 ^ n = 2 ^ 128 := by
    rw [← pow_add]; congr 1; omega
  have hmapped : inBlock ⟨List.zipWith (fun a m => a &&& m) x (cidrMaskBytes 16 n),
        cidrMaskBytes 16 n⟩ [0, 0, 0, 0, 0, 0, 0, 0, 0, 0, 255, 255, 0, 0, 0, 0] = true
      ↔ ipVal (List.zipWith (fun a m => a &&& m) x (cidrMaskBytes 16 n)) / 2 ^ (128 - n)
        = 0xffff * 2 ^ 32 / 2 ^ (128 - n) := by
    have hz := zipWith_and_eq_network_iff 16 n x (by omega) hx (0xffff * 2 ^ 32)
    rw [hB, h128, Nat.mod_eq_of_lt (by norm_num), ipOfVal_mapped_zero] at hz
    simp only [inBlock, Bool.and_eq_true, beq_iff_eq, List.all_eq_true, decide_eq_true_eq,
      cidrMaskBytes_length]
    constructor
    · intro h; exact ((hz.1 h.2)).symm
    · intro h
      refine ⟨⟨rfl, ?_⟩, hz.2 h.symm⟩
      intro b hb
      simp only [List.mem_cons, List.mem_singleton, List.not_mem_nil, or_false] at hb
      rcases hb with h | h | h | h | h | h | h | h | h | h | h | h | h | h | h | h <;> omega
  simp only [blockAddrs, hbs]
  constructor
  · intro hnot fuel hfuel
    have hne : ¬ (ipVal (List.zipWith (fun a m => a &&& m) x (cidrMaskBytes 16 n))
        / 2 ^ (128 - n) = 0xffff * 2 ^ 32 / 2 ^ (128 - n)) := by
      intro h
      rw [hmapped.2 h] at hnot
      exact absurd hnot (by simp)
    have henum := hmiss hne fuel hfuel
    have h2 : 2 < 2 ^ (128 - n) := by
      calc 2 < 2 ^ 2 := by norm_num
        _ ≤ 2 ^ (128 - n) := Nat.pow_le_pow_right (by norm_num) (by omega)
    refine ⟨by rw [hstart]; exact henum, ?_⟩
    rw [ipListFromCIDR_of_run fuel cidr ip _ (2 ^ (128 - n)) hparse (by rw [hstart]; exact henum),
      if_pos h2]
  · intro hyes
    obtain ⟨hk0, hge, hen⟩ := hcover (hmapped.1 hyes)
    refine ⟨hk0, hge, ?_⟩
    intro fuel hfuel
    have henum := hen fuel hfuel
    refine ⟨by rw [hstart]; exact henum, ?_⟩
    rw [ipListFromCIDR_of_run fuel cidr ip _ _ hparse (by rw [hstart]; exact henum),
      if_pos (by
        have : (2 : Nat) < 2 ^ 32 := by norm_num
        omega)]

/-- On every well-formed CIDR string other than an IPv4 one with prefix length 0,
`ipListFromCIDR` returns: there is a number of rounds from which on the result is
the same list. -/
theorem ipListFromCIDR_returns_unless_ipv4_prefix0 (cidr : String) (ip : IP) (ipnet : IPNet)
    (hparse : ParseCIDR cidr = .ok (ip, ipnet)) (hnot : ipnet.Mask ≠ [0, 0, 0, 0]) :
    ∃ count, 1 ≤ count ∧ count ≤ blockSize ipnet ∧ ∀ fuel, count < fuel →
      enumerate ipnet fuel (Mask ip ipnet.Mask) []
          = some ((addrRun ipnet.IP 0 count).map IPString)
        ∧ ipListFromCIDR fuel cidr
          = some (.ok (if 2 < count then (addrRun ipnet.IP 1 (count - 2)).map IPString
              else (addrRun ipnet.IP 0 count).map IPString)) := by
  have hshape := ParseCIDR_shape cidr ip ipnet hparse
  obtain ⟨L, n, x, hL, hn, hx, hnet, hstart⟩ := hshape
  have hbsz := blockSize_cidr L n (List.zipWith (fun a m => a &&& m) x (cidrMaskBytes L n)) hL hn
  have hfin : ∀ count, 1 ≤ count → count ≤ blockSize ipnet →
      (∀ fuel, count < fuel → enumerate ipnet fuel (Mask ip ipnet.Mask) []
        = some ((addrRun ipnet.IP 0 count).map IPString)) →
      ∃ count, 1 ≤ count ∧ count ≤ blockSize ipnet ∧ ∀ fuel, count < fuel →
        enumerate ipnet fuel (Mask ip ipnet.Mask) []
            = some ((addrRun ipnet.IP 0 count).map IPString)
          ∧ ipListFromCIDR fuel cidr
            = some (.ok (if 2 < count then (addrRun ipnet.IP 1 (count - 2)).map IPString
                else (addrRun ipnet.IP 0 count).map IPString)) :=
    fun count h1 h2 h3 => ⟨count, h1, h2, fun fuel hfuel =>
      ⟨h3 fuel hfuel, ipListFromCIDR_of_run fuel cidr ip ipnet count hparse (h3 fuel hfuel)⟩⟩
  have hPpos : 1 ≤ 2 ^ (8 * L - n) := Nat.one_le_two_pow
  by_cases hreg : L = 4 ∨ (L = 16 ∧ 96 ≤ n)
  · have hn1 : 1 ≤ n := by
      rcases hreg with h4 | ⟨h16, h96⟩
      · by_contra h0
        have hn0 : n = 0 := by omega
        apply hnot
        rw [hnet, h4, hn0]
        show cidrMaskBytes 4 0 = [0, 0, 0, 0]
        decide
      · omega
    apply hfin (2 ^ (8 * L - n)) hPpos (by rw [hnet, hbsz.1])
    intro fuel hfuel
    have henum := enumerate_block L n x hreg hn1 hn hx fuel hfuel
    rw [hnet] at hstart ⊢
    simp only at hstart ⊢
    rw [hstart]
    exact henum
  · have h16 : L = 16 := by
      rcases hL with h | h
      · exact absurd (Or.inl h) hreg
      · exact h
    subst h16
    have hlow : n < 96 := by
      by_contra hge
      exact hreg (Or.inr ⟨rfl, by omega⟩)
    obtain ⟨hmiss, hcover⟩ := enumerate_block_low n x hlow hx
    have h128 : 8 * 16 - n = 128 - n := by omega
    rw [h128] at hbsz hPpos
    by_cases hc : ipVal (List.zipWith (fun a m => a &&& m) x (cidrMaskBytes 16 n))
        / 2 ^ (128 - n) = 0xffff * 2 ^ 32 / 2 ^ (128 - n)
    · obtain ⟨hk0, hge, hen⟩ := hcover hc
      have hbs' : blockSize ipnet = 2 ^ (128 - n) := by rw [hnet]; exact hbsz.1
      have hip : ipnet.IP = List.zipWith (fun a m => a &&& m) x (cidrMaskBytes 16 n) := by
        rw [hnet]
      apply hfin (0xffff * 2 ^ 32 - ipVal ipnet.IP)
      · rw [hip]
        have : (1 : Nat) ≤ 2 ^ 32 := by norm_num
        omega
      · rw [hip, hbs']; omega
      · intro fuel hfuel
        rw [hip] at hfuel
        have henum := hen fuel hfuel
        rw [hnet] at hstart ⊢
        simp only at hstart ⊢
        rw [hstart]
        exact henum
    · apply hfin (2 ^ (128 - n)) hPpos (by rw [hnet, hbsz.1])
      intro fuel hfuel
      have henum := hmiss hc fuel hfuel
      rw [hnet] at hstart ⊢
      simp only at hstart ⊢
      rw [hstart]
      exact henum

/-- Witness: `ipListFromCIDR` returns on `::/0` (it stops at `::ffff:0.0.0.0`). -/
theorem ipListFromCIDR_returns_unless_ipv4_prefix0_witness :
    ∃ count, 1 ≤ count ∧ count ≤ blockSize ⟨List.replicate 16 0, List.replicate 16 0⟩
      ∧ ∀ fuel, count < fuel →
        enumerate ⟨List.replicate 16 0, List.replicate 16 0⟩ fuel
            (Mask (List.replicate 16 0) (List.replicate 16 0)) []
          = some ((addrRun (List.replicate 16 0) 0 count).map IPString)
        ∧ ipListFromCIDR fuel "::/0"
          = some (.ok (if 2 < count then (addrRun (List.replicate 16 0) 1 (count - 2)).map IPString
              else (addrRun (List.replicate 16 0) 0 count).map IPString)) :=
  ipListFromCIDR_returns_unless_ipv4_prefix0 "::/0" (List.replicate 16 0)
    ⟨List.replicate 16 0, List.replicate 16 0⟩ (by decide) (by decide)

/-- On the IPv6 range `::fffe:0:0/95`, whose block has `2 ^ 33` addresses,
`ipListFromCIDR` returns a list of `2 ^ 32 - 2` entries: the loop ends at
`::ffff:0.0.0.0`, after the first half of the block. -/
theorem ipListFromCIDR_ipv6_95_half_block :
    blockSize ⟨[0, 0, 0, 0, 0, 0, 0, 0, 0, 0, 255, 254, 0, 0, 0, 0],
        [255, 255, 255, 255, 255, 255, 255, 255, 255, 255, 255, 254, 0, 0, 0, 0]⟩ = 2 ^ 33
      ∧ ∀ fuel, 2 ^ 32 < fuel →
        ipListFromCIDR fuel "::fffe:0:0/95"
          = some (.ok ((addrRun [0, 0, 0, 0, 0, 0, 0, 0, 0, 0, 255, 254, 0, 0, 0, 0] 1
              (2 ^ 32 - 2)).map IPString)) := by
  refine ⟨by decide, ?_⟩
  intro fuel hfuel
  have h := (ipListFromCIDR_ipv6_below_96 "::fffe:0:0/95"
    [0, 0, 0, 0, 0, 0, 0, 0, 0, 0, 255, 254, 0, 0, 0, 0]
    ⟨[0, 0, 0, 0, 0, 0, 0, 0, 0, 0, 255, 254, 0, 0, 0, 0],
      [255, 255, 255, 255, 255, 255, 255, 255, 255, 255, 255, 254, 0, 0, 0, 0]⟩
    (by decide) (by decide) (by decide)).2 (by decide)
  have hv : ipVal [0, 0, 0, 0, 0, 0, 0, 0, 0, 0, 255, 254, 0, 0, 0, 0] = 0xfffe * 2 ^ 32 := by
    decide
  simp only [hv] at h
  have hc : 0xffff * 2 ^ 32 - 0xfffe * 2 ^ 32 = 2 ^ 32 := by norm_num
  rw [hc] at h
  exact (h.2.2 fuel hfuel).2

/-! ## `FindNode` -/

theorem findNodeIn_eq_none (a : String) (ns : List Node) (k : Nat) :
    findNodeIn a ns k = none ↔ ∀ n ∈ ns, n.Alias ≠ a := by
  induction ns generalizing k with
  | nil => simp [findNodeIn]
  | cons n rest ih =>
    by_cases h : n.Alias = a
    · simp [findNodeIn, h]
    · simp [findNodeIn, h, ih]

theorem findNodeIn_eq_some (a : String) (ns : List Node) (k j : Nat)
    (h : findNodeIn a ns k = some j) :
    ∃ j0 nd, j = k + j0 ∧ ns[j0]? = some nd ∧ nd.Alias = a ∧
      ∀ j1 < j0, ∀ n1, ns[j1]? = some n1 → n1.Alias ≠ a := by
  induction ns generalizing k with
  | nil => simp [findNodeIn] at h
  | cons n rest ih =>
    by_cases hn : n.Alias = a
    · simp [findNodeIn, hn] at h
      exact ⟨0, n, by omega, by simp, hn, by intro j1 hj1; omega⟩
    · simp [findNodeIn, hn] at h
      obtain ⟨j0, nd, hj, hget, hal, hmin⟩ := ih (k + 1) h
      refine ⟨j0 + 1, nd, by omega, by simpa using hget, hal, ?_⟩
      intro j1 hj1 n1 hn1
      cases j1 with
      | zero => simp at hn1; subst hn1; exact hn
      | succ j2 => exact hmin j2 (by omega) n1 (by simpa using hn1)

theorem findNodeFrom_eq_none (a : String) (cs : List Cluster) (k : Nat) :
    findNodeFrom a cs k = none ↔ ∀ cl ∈ cs, ∀ n ∈ cl.Nodes, n.Alias ≠ a := by
  induction cs generalizing k with
  | nil => simp [findNodeFrom]
  | cons cl rest ih =>
    cases hin : findNodeIn a cl.Nodes 0 with
    | none =>
      have h0 := (findNodeIn_eq_none a cl.Nodes 0).1 hin
      simp only [findNodeFrom, hin, ih, List.mem_cons, forall_eq_or_imp]
      exact ⟨fun h => ⟨h0, h⟩, fun h => h.2⟩
    | some j =>
      have hne : ¬ ∀ n ∈ cl.Nodes, n.Alias ≠ a := by
        intro hall
        have := (findNodeIn_eq_none a cl.Nodes 0).2 hall
        rw [hin] at this
        exact absurd this (by simp)
      simp only [findNodeFrom, hin, List.mem_cons, forall_eq_or_imp]
      constructor
      · intro h; exact absurd h (by simp)
      · intro h; exact absurd h.1 hne

theorem findNodeFrom_eq_some (a : String) (cs : List Cluster) (k i j : Nat)
    (h : findNodeFrom a cs k = some (i, j)) :
    ∃ i0 cl nd, i = k + i0 ∧ cs[i0]? = some cl ∧ cl.Nodes[j]? = some nd ∧ nd.Alias = a ∧
      (∀ i1 < i0, ∀ cl1, cs[i1]? = some cl1 → ∀ n ∈ cl1.Nodes, n.Alias ≠ a) ∧
      (∀ j1 < j, ∀ n1, cl.Nodes[j1]? = some n1 → n1.Alias ≠ a) := by
  induction cs generalizing k with
  | nil => simp [findNodeFrom] at h
  | cons cl rest ih =>
    cases hin : findNodeIn a cl.Nodes 0 with
    | none =>
      simp only [findNodeFrom, hin] at h
      obtain ⟨i0, cl0, nd, hi, hget, hnd, hal, hmin, hminj⟩ := ih (k + 1) h
      refine ⟨i0 + 1, cl0, nd, by omega, by simpa using hget, hnd, hal, ?_, hminj⟩
      intro i1 hi1 cl1 hcl1
      cases i1 with
      | zero =>
        simp at hcl1; subst hcl1
        exact (findNodeIn_eq_none a cl.Nodes 0).1 hin
      | succ i2 => exact hmin i2 (by omega) cl1 (by simpa using hcl1)
    | some j0 =>
      simp only [findNodeFrom, hin, Option.some.injEq, Prod.mk.injEq] at h
      obtain ⟨hi, hj⟩ := h
      obtain ⟨j1, nd, hj1, hget, hal, hmin⟩ := findNodeIn_eq_some a cl.Nodes 0 j0 hin
      have hjj : j1 = j := by omega
      subst hjj
      exact ⟨0, cl, nd, by omega, by simp, hget, hal, by intro i1 hi1; omega, hmin⟩

/-- C4. When an alias occurs in two different clusters, at indices `i1 < i2`,
`FindNode` returns the pair `(i, j)` where `i` is the smallest index of a cluster
holding a node with that alias (so `i ≤ i1 < i2`) and `j` is the index of the first
node of that cluster carrying the alias; the result is a function of the
configuration and the alias alone, so any two calls agree. -/
theorem FindNode_returns_first_cluster (c : Config) (a : String) (i1 i2 : Nat)
    (c1 c2 : Cluster) (h12 : i1 < i2)
    (h1 : c.Clusters[i1]? = some c1) (h2 : c.Clusters[i2]? = some c2)
    (hn1 : ∃ n ∈ c1.Nodes, n.Alias = a) (hn2 : ∃ n ∈ c2.Nodes, n.Alias = a) :
    ∃ i j cl nd, c.FindNode a = .ok (i, j) ∧ i ≤ i1 ∧ i < i2 ∧
      c.clusterAt i = some cl ∧ c.nodeAt i j = some nd ∧ nd.Alias = a ∧
      (∀ i0 < i, ∀ cl0, c.Clusters[i0]? = some cl0 → ∀ n ∈ cl0.Nodes, n.Alias ≠ a) ∧
      (∀ j0 < j, ∀ n0, cl.Nodes[j0]? = some n0 → n0.Alias ≠ a) ∧
      (∀ r, c.FindNode a = r → r = .ok (i, j)) := by
  cases hf : findNodeFrom a c.Clusters 0 with
  | none =>
    have hall := (findNodeFrom_eq_none a c.Clusters 0).1 hf
    obtain ⟨n, hn, hal⟩ := hn1
    exact absurd hal (hall c1 (List.getElem?_mem h1) n hn)
  | some r =>
    obtain ⟨i, j⟩ := r
    obtain ⟨i0, cl, nd, hi, hget, hnd, hal, hmin, hminj⟩ :=
      findNodeFrom_eq_some a c.Clusters 0 i j hf
    have hi0 : i0 = i := by omega
    subst hi0
    have hle : i0 ≤ i1 := by
      by_contra hlt
      obtain ⟨n, hn, hal1⟩ := hn1
      exact hmin i1 (by omega) c1 h1 n hn hal1
    have hres : c.FindNode a = .ok (i0, j) := by simp [Config.FindNode, hf]
    refine ⟨i0, j, cl, nd, hres, hle, by omega, hget, ?_, hal, hmin, hminj, ?_⟩
    · simp [Config.nodeAt, hget, hnd]
    · intro r hr; rw [← hr, hres]

/-- Witness for C4: the alias `db` is in the clusters at index 0 and 1. -/
theorem FindNode_returns_first_cluster_witness :
    ∃ i j cl nd,
      (Config.mk [⟨"east", ⟨"b1", "ops", 0, ""⟩, [⟨"web", "10.0.0.1", "root"⟩, ⟨"db", "10.0.0.2", "root"⟩]⟩,
        ⟨"west", ⟨"b2", "ops", 0, ""⟩, [⟨"db", "10.1.0.2", "admin"⟩]⟩]).FindNode "db" = .ok (i, j)
      ∧ i ≤ 0 ∧ i < 1 ∧
      (Config.mk [⟨"east", ⟨"b1", "ops", 0, ""⟩, [⟨"web", "10.0.0.1", "root"⟩, ⟨"db", "10.0.0.2", "root"⟩]⟩,
        ⟨"west", ⟨"b2", "ops", 0, ""⟩, [⟨"db", "10.1.0.2", "admin"⟩]⟩]).clusterAt i = some cl
      ∧ (Config.mk [⟨"east", ⟨"b1", "ops", 0, ""⟩, [⟨"web", "10.0.0.1", "root"⟩, ⟨"db", "10.0.0.2", "root"⟩]⟩,
        ⟨"west", ⟨"b2", "ops", 0, ""⟩, [⟨"db", "10.1.0.2", "admin"⟩]⟩]).nodeAt i j = some nd
      ∧ nd.Alias = "db" := by
  obtain ⟨i, j, cl, nd, h1, h2, h3, h4, h5, h6, _⟩ :=
    FindNode_returns_first_cluster
      (Config.mk [⟨"east", ⟨"b1", "ops", 0, ""⟩, [⟨"web", "10.0.0.1", "root"⟩, ⟨"db", "10.0.0.2", "root"⟩]⟩,
        ⟨"west", ⟨"b2", "ops", 0, ""⟩, [⟨"db", "10.1.0.2", "admin"⟩]⟩])
      "db" 0 1 _ _ (by decide) rfl rfl ⟨⟨"db", "10.0.0.2", "root"⟩, by simp, rfl⟩
      ⟨⟨"db", "10.1.0.2", "admin"⟩, by simp, rfl⟩
  exact ⟨i, j, cl, nd, h1, h2, h3, h4, h5, h6⟩

/-- C5. `FindNode` returns the not-found error exactly when no node of any cluster
has the alias; when it succeeds with the pointers `(i, j)`, the node pointed to has
the requested alias and is an element of the node list of the cluster pointed to. -/
theorem FindNode_error_iff_absent (c : Config) (a : String) :
    (c.FindNode a = .error ("node with alias '" ++ a ++ "' not found")
      ↔ ∀ cl ∈ c.Clusters, ∀ n ∈ cl.Nodes, n.Alias ≠ a) ∧
    ((∃ e, c.FindNode a = .error e) ↔ ∀ cl ∈ c.Clusters, ∀ n ∈ cl.Nodes, n.Alias ≠ a) ∧
    (∀ i j, c.FindNode a = .ok (i, j) →
      ∃ cl nd, c.clusterAt i = some cl ∧ c.nodeAt i j = some nd ∧ nd.Alias = a ∧
        nd ∈ cl.Nodes ∧ cl ∈ c.Clusters) := by
  cases hf : findNodeFrom a c.Clusters 0 with
  | none =>
    have hall := (findNodeFrom_eq_none a c.Clusters 0).1 hf
    refine ⟨?_, ?_, ?_⟩
    · simp [Config.FindNode, hf]; exact hall
    · simp [Config.FindNode, hf]; exact hall
    · intro i j h; simp [Config.FindNode, hf] at h
  | some r =>
    obtain ⟨i, j⟩ := r
    obtain ⟨i0, cl, nd, hi, hget, hnd, hal, -, -⟩ := findNodeFrom_eq_some a c.Clusters 0 i j hf
    have hi0 : i0 = i := by omega
    subst hi0
    have hne : ¬ ∀ cl ∈ c.Clusters, ∀ n ∈ cl.Nodes, n.Alias ≠ a := by
      intro hall
      exact hall cl (List.getElem?_mem hget) nd (List.getElem?_mem hnd) hal
    refine ⟨?_, ?_, ?_⟩
    · simp only [Config.FindNode, hf]
      exact ⟨fun h => (by cases h), fun h => absurd h hne⟩
    · simp only [Config.FindNode, hf]
      exact ⟨fun h => (by obtain ⟨e, h⟩ := h; cases h), fun h => absurd h hne⟩
    · intro i1 j1 h
      simp only [Config.FindNode, hf, Except.ok.injEq, Prod.mk.injEq] at h
      obtain ⟨rfl, rfl⟩ := h
      exact ⟨cl, nd, hget, by simp [Config.nodeAt, hget, hnd], hal,
        List.getElem?_mem hnd, List.getElem?_mem hget⟩

/-! ## The composed invocations -/

theorem FindNode_ok_deref (c : Config) (a : String) (i j : Nat)
    (h : c.FindNode a = .ok (i, j)) :
    ∃ cl nd, c.clusterAt i = some cl ∧ c.nodeAt i j = some nd ∧ nd.Alias = a := by
  cases hf : findNodeFrom a c.Clusters 0 with
  | none => simp [Config.FindNode, hf] at h
  | some r =>
    obtain ⟨i1, j1⟩ := r
    simp only [Config.FindNode, hf, Except.ok.injEq, Prod.mk.injEq] at h
    obtain ⟨rfl, rfl⟩ := h
    obtain ⟨i0, cl, nd, hi, hget, hnd, hal, -, -⟩ := findNodeFrom_eq_some a c.Clusters 0 _ _ hf
    have hi0 : i0 = i1 := by omega
    subst hi0
    exact ⟨cl, nd, hget, by simp [Config.nodeAt, hget, hnd], hal⟩

theorem flag_ne_nodeAddr (user ip : String) : "-t" ≠ user ++ "@" ++ ip := by
  intro h
  have hd := congrArg String.data h
  simp only [String.data_append] at hd
  have hmem : '@' ∈ user.data ++ "@".data ++ ip.data := by simp
  rw [← hd] at hmem
  exact absurd hmem (by decide)

theorem shellWordsFrom_plain (w rest : List Char) (cur : List Char) (ws : List String)
    (hw : ∀ c ∈ w, isPlainChar c = true) :
    shellWordsFrom (w ++ rest) .unquoted (some cur) ws
      = shellWordsFrom rest .unquoted (some (cur ++ w)) ws := by
  induction w generalizing cur with
  | nil => simp
  | cons c w ih =>
    have hc := hw c (by simp)
    simp only [isPlainChar, Bool.and_eq_true, Bool.not_eq_true', bne_iff_ne, ne_eq] at hc
    obtain ⟨⟨⟨⟨h1, h2⟩, h3⟩, h4⟩, h5⟩ := hc
    simp only [List.cons_append, shellWordsFrom, h1, h2, h3, h4, h5, Bool.false_eq_true, if_false,
      pushChar, Option.getD_some]
    simpa [List.append_assoc] using ih (cur ++ [c]) (fun c hc => hw c (by simp [hc]))

theorem shellWordsFrom_double (w rest : List Char) (cur : List Char) (ws : List String)
    (hw : ∀ c ∈ w, isDoubleQuotedLiteral c = true) :
    shellWordsFrom (w ++ rest) .double (some cur) ws
      = shellWordsFrom rest .double (some (cur ++ w)) ws := by
  induction w generalizing cur with
  | nil => simp
  | cons c w ih =>
    have hc := hw c (by simp)
    simp only [isDoubleQuotedLiteral, Bool.and_eq_true, bne_iff_ne, ne_eq] at hc
    obtain ⟨⟨⟨h1, h2⟩, h3⟩, h4⟩ := hc
    simp only [List.cons_append, shellWordsFrom, h1, h2, h3, h4, if_false, or_self,
      pushChar, Option.getD_some]
    simpa [List.append_assoc] using ih (cur ++ [c]) (fun c hc => hw c (by simp [hc]))

/-- Support for C6: when the command text has no double quote, backslash, dollar
sign or backquote (and user and address are plain words), the shell reads the inner
invocation of `runExec` as the three words `ssh`, `<user>@<ip>` and the command text. -/
theorem execRemoteCommand_words_of_literal (node : Node) (commandToRun : String)
    (haddr : ∀ c ∈ (node.User ++ "@" ++ node.IP).toList, isPlainChar c = true)
    (hcmd : ∀ c ∈ commandToRun.toList, isDoubleQuotedLiteral c = true) :
    shellWords (execRemoteCommand node commandToRun)
      = some ["ssh", node.User ++ "@" ++ node.IP, commandToRun] := by
  have hsplit : (execRemoteCommand node commandToRun).toList
      = ['s', 's', 'h', ' '] ++ ((node.User ++ "@" ++ node.IP).toList
        ++ (' ' :: dquote :: (commandToRun.toList ++ [dquote]))) := by
    simp [execRemoteCommand, String.toList, String.data_append, dquote]
  have hpre : ∀ rest, shellWordsFrom (['s', 's', 'h', ' '] ++ rest) .unquoted none []
      = shellWordsFrom rest .unquoted none ["ssh"] := by
    intro rest
    rfl
  unfold shellWords
  rw [hsplit, hpre]
  cases haddrl : (node.User ++ "@" ++ node.IP).toList with
  | nil =>
    have : '@' ∈ (node.User ++ "@" ++ node.IP).toList := by
      simp [String.toList, String.data_append]
    rw [haddrl] at this
    simp at this
  | cons a as =>
    rw [haddrl] at haddr
    have ha := haddr a (by simp)
    have ha' := ha
    simp only [isPlainChar, Bool.and_eq_true, Bool.not_eq_true', bne_iff_ne, ne_eq] at ha'
    obtain ⟨⟨⟨⟨h1, h2⟩, h3⟩, h4⟩, h5⟩ := ha'
    have hstep : ∀ rest, shellWordsFrom (a :: as ++ rest) .unquoted none ["ssh"]
        = shellWordsFrom (as ++ rest) .unquoted (some [a]) ["ssh"] := by
      intro rest
      simp [shellWordsFrom, h1, h2, h3, h4, h5, pushChar]
    rw [hstep, shellWordsFrom_plain _ _ _ _ (fun c hc => haddr c (by simp [hc]))]
    have hblank : isBlank ' ' = true := by decide
    have hdq : (dquote = dquote) := rfl
    simp only [shellWordsFrom, hblank, if_true, flushWord, hdq, Option.getD_none]
    have hnb : isBlank dquote = false := by decide
    simp only [hnb, Bool.false_eq_true, if_false]
    rw [shellWordsFrom_double _ _ _ _ hcmd]
    simp only [shellWordsFrom, if_true, flushWord, List.nil_append, List.cons_append,
      List.singleton_append]
    have e1 : String.mk (a :: as) = node.User ++ "@" ++ node.IP := by
      rw [← haddrl]
      rfl
    have e2 : String.mk commandToRun.toList = commandToRun := rfl
    rw [e1, e2]

/-- Witness for the support lemma of C6. -/
theorem execRemoteCommand_words_of_literal_witness :
    shellWords (execRemoteCommand ⟨"web", "10.0.0.1", "root"⟩ "ls -l /tmp")
      = some ["ssh", "root" ++ "@" ++ "10.0.0.1", "ls -l /tmp"] :=
  execRemoteCommand_words_of_literal ⟨"web", "10.0.0.1", "root"⟩ "ls -l /tmp"
    (by decide) (by decide)

/-- C6, at the input `exec web 'echo "a b"'`: the inner invocation `runExec` builds is
`ssh root@10.0.0.1 "echo "a b""`, which the shell reads as the four words `ssh`,
`root@10.0.0.1`, `echo a` and `b`: the command text is neither one word nor unchanged. -/
theorem runExec_double_quote_splits_command :
    runExec (Config.mk [⟨"east", ⟨"b1", "ops", 0, ""⟩, [⟨"web", "10.0.0.1", "root"⟩]⟩])
        ["web", "echo \"a b\""]
      = .ok ⟨"ssh", ["ops@b1", "ssh root@10.0.0.1 \"echo \"a b\"\""]⟩
    ∧ shellWords "ssh root@10.0.0.1 \"echo \"a b\"\""
      = some ["ssh", "root@10.0.0.1", "echo a", "b"]
    ∧ shellWords "ssh root@10.0.0.1 \"echo \"a b\"\""
      ≠ some ["ssh", "root@10.0.0.1", "echo \"a b\""] := by
  decide

/-- A plain word at the start of a word position is read as that word. -/
theorem shellWordsFrom_plain_word (w rest : List Char) (ws : List String)
    (hw : ∀ c ∈ w, isPlainChar c = true) (hne : w ≠ []) :
    shellWordsFrom (w ++ rest) .unquoted none ws
      = shellWordsFrom rest .unquoted (some w) ws := by
  cases w with
  | nil => exact absurd rfl hne
  | cons a as =>
    have ha := hw a (by simp)
    simp only [isPlainChar, Bool.and_eq_true, Bool.not_eq_true', bne_iff_ne, ne_eq] at ha
    obtain ⟨⟨⟨⟨h1, h2⟩, h3⟩, h4⟩, h5⟩ := ha
    have hstep : shellWordsFrom (a :: as ++ rest) .unquoted none ws
        = shellWordsFrom (as ++ rest) .unquoted (some [a]) ws := by
      simp [shellWordsFrom, h1, h2, h3, h4, h5, pushChar]
    rw [hstep, shellWordsFrom_plain _ _ _ _ (fun c hc => hw c (by simp [hc]))]
    rfl

/-- The inner invocation of `runConnect` as a text. -/
theorem connectRemoteCommand_eq (isTerminal : Bool) (nd : Node) :
    connectRemoteCommand isTerminal nd
      = "ssh " ++ (if isTerminal then "-t " else "") ++ (nd.User ++ "@" ++ nd.IP)
        ++ " /bin/bash -l" := by
  cases isTerminal
  · simp [connectRemoteCommand, innerSshArgs, String.intercalate, String.intercalate.go,
      String.append_assoc]
  · have e : "ssh " ++ "-t " = "ssh -t " := by decide
    simp [connectRemoteCommand, innerSshArgs, String.intercalate, String.intercalate.go,
      String.append_assoc]
    rw [← String.append_assoc, e]

/-- When `<user>@<ip>` is a plain word, the shell reads the inner invocation of
`runConnect` as `ssh`, then `-t` exactly when standard input is a terminal, then
`<user>@<ip>`, `/bin/bash` and `-l`. -/
theorem connectRemoteCommand_words (isTerminal : Bool) (nd : Node)
    (haddr : ∀ c ∈ (nd.User ++ "@" ++ nd.IP).toList, isPlainChar c = true) :
    shellWords (connectRemoteCommand isTerminal nd)
      = some (["ssh"] ++ (if isTerminal then ["-t"] else [])
          ++ [nd.User ++ "@" ++ nd.IP, "/bin/bash", "-l"]) := by
  have hne : (nd.User ++ "@" ++ nd.IP).toList ≠ [] := by
    intro h
    have : '@' ∈ (nd.User ++ "@" ++ nd.IP).toList := by
      simp [String.toList, String.data_append]
    rw [h] at this
    simp at this
  have htail : ∀ (w : List Char) (ws : List String),
      shellWordsFrom [' ', '/', 'b', 'i', 'n', '/', 'b', 'a', 's', 'h', ' ', '-', 'l']
          .unquoted (some w) ws
        = some (ws ++ [String.mk w, "/bin/bash", "-l"]) := by
    intro w ws
    simp [shellWordsFrom, isBlank, isShellMeta, dquote, squote, backslash, backquote,
      flushWord, pushChar]
  rw [connectRemoteCommand_eq]
  unfold shellWords
  cases isTerminal
  · have hsplit : ("ssh " ++ (if false = true then "-t " else "") ++ (nd.User ++ "@" ++ nd.IP)
        ++ " /bin/bash -l").toList
        = ['s', 's', 'h', ' '] ++ ((nd.User ++ "@" ++ nd.IP).toList
          ++ [' ', '/', 'b', 'i', 'n', '/', 'b', 'a', 's', 'h', ' ', '-', 'l']) := by
      simp [String.toList, String.data_append]
    have hpre : ∀ rest, shellWordsFrom (['s', 's', 'h', ' '] ++ rest) .unquoted none []
        = shellWordsFrom rest .unquoted none ["ssh"] := by
      intro rest
      rfl
    rw [hsplit, hpre, shellWordsFrom_plain_word _ _ _ haddr hne, htail]
    rfl
  · have hsplit : ("ssh " ++ (if true = true then "-t " else "") ++ (nd.User ++ "@" ++ nd.IP)
        ++ " /bin/bash -l").toList
        = ['s', 's', 'h', ' ', '-', 't', ' '] ++ ((nd.User ++ "@" ++ nd.IP).toList
          ++ [' ', '/', 'b', 'i', 'n', '/', 'b', 'a', 's', 'h', ' ', '-', 'l']) := by
      simp [String.toList, String.data_append]
    have hpre : ∀ rest,
        shellWordsFrom (['s', 's', 'h', ' ', '-', 't', ' '] ++ rest) .unquoted none []
          = shellWordsFrom rest .unquoted none ["ssh", "-t"] := by
      intro rest
      rfl
    rw [hsplit, hpre, shellWordsFrom_plain_word _ _ _ haddr hne, htail]
    rfl

/-- C7, counterexample: a node whose user text is `-t x`, standard input not a
terminal. The inner invocation `runConnect` passes is `ssh -t x@10.0.0.1 /bin/bash -l`,
the very text built for the user `x` on a terminal; the shell reads `-t` as the
first word after `ssh`, although standard input is not a terminal. -/
theorem runConnect_user_text_reads_as_flag :
    runConnect (Config.mk [⟨"east", ⟨"b1", "ops", 0, ""⟩, [⟨"web", "10.0.0.1", "-t x"⟩]⟩])
        false ["web"]
      = .ok ⟨"ssh", ["-t", "ops@b1", "ssh -t x@10.0.0.1 /bin/bash -l"]⟩
    ∧ shellWords "ssh -t x@10.0.0.1 /bin/bash -l"
      = some ["ssh", "-t", "x@10.0.0.1", "/bin/bash", "-l"]
    ∧ (shellWords (connectRemoteCommand false ⟨"web", "10.0.0.1", "-t x"⟩)).bind
        (fun ws => ws[1]?) = some "-t"
    ∧ connectRemoteCommand false ⟨"web", "10.0.0.1", "-t x"⟩
      = connectRemoteCommand true ⟨"web", "10.0.0.1", "x"⟩ := by
  decide

/-- C7, amended. For a node resolved by `FindNode`, the command `runConnect` builds
has the inner invocation as the last entry of the outer argument list, and the inner
invocation is `ssh `, then `-t ` exactly when standard input is a terminal, then
`<user>@<ip> /bin/bash -l`; the inner argument slice starts with `-t` exactly when
standard input is a terminal. When `<user>@<ip>` is a plain word (no blank, quote,
backslash or other character special to the shell), the words of the inner
invocation are `ssh`, `-t` exactly when standard input is a terminal, `<user>@<ip>`,
`/bin/bash`, `-l`: its first word after `ssh` is `-t` iff standard input is a
terminal. -/
theorem runConnect_inner_words (cfg : Config) (isTerminal : Bool) (args : List String)
    (i j : Nat) (h : cfg.FindNode (args.headD "") = .ok (i, j)) :
    ∃ cl nd outer, cfg.clusterAt i = some cl ∧ cfg.nodeAt i j = some nd ∧
      runConnect cfg isTerminal args = .ok ⟨"ssh", outer⟩ ∧
      outer = outerSshArgs isTerminal cl.Bastion nd ∧
      outer.getLast? = some (connectRemoteCommand isTerminal nd) ∧
      connectRemoteCommand isTerminal nd
        = "ssh " ++ (if isTerminal then "-t " else "") ++ (nd.User ++ "@" ++ nd.IP)
          ++ " /bin/bash -l" ∧
      ((innerSshArgs isTerminal nd).head? = some "-t" ↔ isTerminal = true) ∧
      ((∀ c ∈ (nd.User ++ "@" ++ nd.IP).toList, isPlainChar c = true) →
        shellWords (connectRemoteCommand isTerminal nd)
          = some (["ssh"] ++ (if isTerminal then ["-t"] else [])
              ++ [nd.User ++ "@" ++ nd.IP, "/bin/bash", "-l"])
        ∧ ((shellWords (connectRemoteCommand isTerminal nd)).bind (fun ws => ws[1]?)
            = some "-t" ↔ isTerminal = true)) := by
  obtain ⟨cl, nd, hcl, hnd, -⟩ := FindNode_ok_deref cfg _ i j h
  refine ⟨cl, nd, _, hcl, hnd, ?_, rfl, ?_, connectRemoteCommand_eq isTerminal nd, ?_, ?_⟩
  · simp only [runConnect, h, hcl, hnd]
  · unfold outerSshArgs
    split <;> simp [List.getLast?_append]
  · cases isTerminal
    · simp only [innerSshArgs, Bool.false_eq_true, if_false, List.nil_append, List.head?_cons,
        Option.some.injEq, iff_false]
      exact fun h => flag_ne_nodeAddr nd.User nd.IP h.symm
    · simp [innerSshArgs]
  · intro haddr
    have hw := connectRemoteCommand_words isTerminal nd haddr
    refine ⟨hw, ?_⟩
    rw [hw]
    cases isTerminal
    · simp only [Bool.false_eq_true, if_false, iff_false]
      intro hh
      simp at hh
      exact flag_ne_nodeAddr nd.User nd.IP hh.symm
    · simp

/-- Witness for the amended C7: the node `web` (`root@10.0.0.1`) behind the bastion
`b1`, standard input a terminal. -/
theorem runConnect_inner_words_witness :
    (∀ c ∈ ("root" ++ "@" ++ "10.0.0.1").toList, isPlainChar c = true)
    ∧ ∃ cl nd outer,
      (Config.mk [⟨"east", ⟨"b1", "ops", 0, "/k"⟩, [⟨"web", "10.0.0.1", "root"⟩]⟩]).clusterAt 0
        = some cl
      ∧ (Config.mk [⟨"east", ⟨"b1", "ops", 0, "/k"⟩, [⟨"web", "10.0.0.1", "root"⟩]⟩]).nodeAt 0 0
        = some nd
      ∧ nd = ⟨"web", "10.0.0.1", "root"⟩
      ∧ runConnect (Config.mk [⟨"east", ⟨"b1", "ops", 0, "/k"⟩, [⟨"web", "10.0.0.1", "root"⟩]⟩])
          true ["web"] = .ok ⟨"ssh", outer⟩
      ∧ outer.getLast? = some (connectRemoteCommand true nd)
      ∧ shellWords (connectRemoteCommand true nd)
          = some ["ssh", "-t", "root@10.0.0.1", "/bin/bash", "-l"] := by
  obtain ⟨cl, nd, outer, h1, h2, h3, _, h5, _, _, h8⟩ :=
    runConnect_inner_words
      (Config.mk [⟨"east", ⟨"b1", "ops", 0, "/k"⟩, [⟨"web", "10.0.0.1", "root"⟩]⟩])
      true ["web"] 0 0 (by decide)
  have hnd : nd = ⟨"web", "10.0.0.1", "root"⟩ := by
    have : (Config.mk [⟨"east", ⟨"b1", "ops", 0, "/k"⟩, [⟨"web", "10.0.0.1", "root"⟩]⟩]).nodeAt 0 0
        = some ⟨"web", "10.0.0.1", "root"⟩ := by decide
    rw [this] at h2
    exact (Option.some.inj h2).symm
  refine ⟨by decide, cl, nd, outer, h1, h2, hnd, h3, h5, ?_⟩
  subst hnd
  exact (h8 (by decide)).1

/-! ## The discovery flow -/

theorem findClusterFrom_eq_some (name : String) (cs : List Cluster) (k i : Nat)
    (h : findClusterFrom name cs k = some i) :
    ∃ i0 cl, i = k + i0 ∧ cs[i0]? = some cl ∧ cl.Name = name := by
  induction cs generalizing k with
  | nil => simp [findClusterFrom] at h
  | cons c rest ih =>
    by_cases hc : c.Name = name
    · simp [findClusterFrom, hc] at h
      exact ⟨0, c, by omega, by simp, hc⟩
    · simp [findClusterFrom, hc] at h
      obtain ⟨i0, cl, hi, hget, hn⟩ := ih (k + 1) h
      exact ⟨i0 + 1, cl, by omega, by simpa using hget, hn⟩

theorem FindCluster_ok_deref (c : Config) (name : String) (i : Nat)
    (h : c.FindCluster name = .ok i) : ∃ cl, c.clusterAt i = some cl ∧ cl.Name = name := by
  cases hf : findClusterFrom name c.Clusters 0 with
  | none => simp [Config.FindCluster, hf] at h
  | some i1 =>
    simp only [Config.FindCluster, hf, Except.ok.injEq] at h
    subst h
    obtain ⟨i0, cl, hi, hget, hn⟩ := findClusterFrom_eq_some name c.Clusters 0 i1 hf
    have : i0 = i1 := by omega
    subst this
    exact ⟨cl, hget, hn⟩

theorem ipListFromCIDR_of_parse_error (fuel : Nat) (cidr : String) (err : ParseError)
    (h : ParseCIDR cidr = .error err) : ipListFromCIDR fuel cidr = some (.error err) := by
  simp [ipListFromCIDR, h]

/-- The command `kgate nodes discover` as shipped: `discoverCmd` defines no flag
`cluster`, so `GetString` gives the empty text and `runDiscover` ends at its first
check, whatever the range, the configuration and the environment: nothing is
started, parsed or dialled. -/
theorem discoverCmdRun_ends_at_flag_check (cfg : Config) (env : DiscoverEnv) :
    GetString (discoverCmdFlags env) "cluster"
        = ("", some "flag accessed but not defined: cluster")
      ∧ discoverCmdRun cfg env
        = ⟨[.stderr "错误: discover 命令需要 --cluster 标志。\n"], .exited 1, cfg⟩ := by
  have h : GetString (discoverCmdFlags env) "cluster"
      = ("", some "flag accessed but not defined: cluster") := by
    simp [GetString, discoverCmdFlags, List.find?]
  exact ⟨h, by simp [discoverCmdRun, runDiscover, h]⟩

/-- On a command that defines the string flag `cluster`, as the other `nodes`
subcommands do, `GetString` gives its value. -/
theorem GetString_cluster_defined (clusterName : String) (env : DiscoverEnv) :
    GetString (clusterAndDiscoverFlags clusterName env) "cluster" = (clusterName, none)
      ∧ GetString (nodesCmdFlags clusterName) "cluster" = (clusterName, none) := by
  constructor <;> simp [GetString, clusterAndDiscoverFlags, nodesCmdFlags, List.find?]

/-- With a cluster name that `FindCluster` resolves, `runDiscover` goes on with
step 2 for that cluster. -/
theorem runDiscover_of_cluster (cfg : Config) (flags : List Flag) (env : DiscoverEnv) (i : Nat)
    (hflag : (GetString flags "cluster").1 ≠ "")
    (hfind : cfg.FindCluster (GetString flags "cluster").1 = .ok i) :
    ∃ cluster, cfg.clusterAt i = some cluster
      ∧ cluster.Name = (GetString flags "cluster").1
      ∧ runDiscover cfg flags env = discoverCluster cfg env i cluster := by
  obtain ⟨cluster, hcl, hname⟩ := FindCluster_ok_deref cfg _ i hfind
  exact ⟨cluster, hcl, hname, by simp [runDiscover, hflag, hfind, hcl]⟩

/-- C8, counterexample, at the malformed range `10.0.0.0/33`. Through `kgate nodes
discover` the flow ends at the check of the cluster flag and reports that, not the
parse error. Called on a command that defines the flag `cluster` (value `east`), the
flow starts the tunnel process `ssh -N -D 127.0.0.1:1080 ops@b1` and waits two
seconds before it reports the parse error. -/
theorem runDiscover_starts_tunnel_before_parse :
    ParseCIDR "10.0.0.0/33" = .error ⟨"CIDR address", "10.0.0.0/33"⟩
    ∧ discoverCmdRun sampleConfig (sampleDiscoverEnv "10.0.0.0/33")
      = ⟨[.stderr "错误: discover 命令需要 --cluster 标志。\n"], .exited 1, sampleConfig⟩
    ∧ runDiscover sampleConfig (clusterAndDiscoverFlags "east" (sampleDiscoverEnv "10.0.0.0/33"))
        (sampleDiscoverEnv "10.0.0.0/33")
      = ⟨[.stdout "--> 正在通过跳板机启动 SSH SOCKS 代理...\n",
          .start ⟨"ssh", ["-N", "-D", "127.0.0.1:1080", "ops@b1"]⟩,
          .stdout "--> SSH SOCKS 代理已在端口 1080 上成功启动 (PID: 4242)\n",
          .sleep 2,
          .stderr "解析 IP 范围时出错: invalid CIDR address: 10.0.0.0/33\n"],
        .exited 1, sampleConfig⟩ := by
  decide

/-- C8, amended. On a malformed range `runDiscover` ends with exit status 1, the
configuration unchanged, no address dialled and no question asked, on every path:
without a cluster name it reports the missing flag; with a name that is not a
cluster of the configuration it reports the lookup error; when the tunnel process
does not start it reports that; and when the tunnel process starts, the flow waits
two seconds and only then reports the parse error. The tunnel is the only process
the flow starts, and its start precedes the validation of the range. -/
theorem runDiscover_malformed_range (cfg : Config) (flags : List Flag) (env : DiscoverEnv)
    (err : ParseError) (hbad : ParseCIDR env.discoverRange = .error err) :
    (runDiscover cfg flags env).ending = .exited 1
    ∧ (runDiscover cfg flags env).cfg = cfg
    ∧ (runDiscover cfg flags env).trace.filter Event.isDial = []
    ∧ (runDiscover cfg flags env).trace.filter Event.isPrompt = []
    ∧ ((GetString flags "cluster").1 = "" →
        runDiscover cfg flags env
          = ⟨[.stderr "错误: discover 命令需要 --cluster 标志。\n"], .exited 1, cfg⟩)
    ∧ (∀ e, (GetString flags "cluster").1 ≠ "" →
        cfg.FindCluster (GetString flags "cluster").1 = .error e →
        runDiscover cfg flags env = ⟨[.stderr ("错误: " ++ e ++ "\n")], .exited 1, cfg⟩)
    ∧ (∀ i, (GetString flags "cluster").1 ≠ "" →
        cfg.FindCluster (GetString flags "cluster").1 = .ok i →
        ∃ cluster, cfg.clusterAt i = some cluster
          ∧ (∀ e, env.startErr = some e →
              runDiscover cfg flags env
                = ⟨[.stdout "--> 正在通过跳板机启动 SSH SOCKS 代理...\n",
                    .startFailed ⟨"ssh", proxySshArgs cluster.Bastion⟩,
                    .stderr ("启动 SSH 代理时出错: " ++ e ++ "\n")], .exited 1, cfg⟩)
          ∧ (env.startErr = none →
              runDiscover cfg flags env
                = ⟨[.stdout "--> 正在通过跳板机启动 SSH SOCKS 代理...\n",
                    .start ⟨"ssh", proxySshArgs cluster.Bastion⟩,
                    .stdout ("--> SSH SOCKS 代理已在端口 1080 上成功启动 (PID: "
                      ++ toString env.pid ++ ")\n"),
                    .sleep 2,
                    .stderr ("解析 IP 范围时出错: invalid " ++ err.kind ++ ": " ++ err.text
                      ++ "\n")],
                  .exited 1, cfg⟩)) := by
  have hlist := ipListFromCIDR_of_parse_error env.fuel env.discoverRange err hbad
  by_cases hflag : (GetString flags "cluster").1 = ""
  · have hrun : runDiscover cfg flags env
        = ⟨[.stderr "错误: discover 命令需要 --cluster 标志。\n"], .exited 1, cfg⟩ := by
      simp [runDiscover, hflag]
    refine ⟨by rw [hrun], by rw [hrun], by rw [hrun]; rfl, by rw [hrun]; rfl, fun _ => hrun,
      fun e h => absurd hflag h, fun i h => absurd hflag h⟩
  · cases hfind : cfg.FindCluster (GetString flags "cluster").1 with
    | error e =>
      have hrun : runDiscover cfg flags env
          = ⟨[.stderr ("错误: " ++ e ++ "\n")], .exited 1, cfg⟩ := by
        simp [runDiscover, hflag, hfind]
      refine ⟨by rw [hrun], by rw [hrun], by rw [hrun]; rfl, by rw [hrun]; rfl,
        fun h => absurd h hflag, ?_, ?_⟩
      · intro e2 _ h2
        cases h2
        exact hrun
      · intro i _ h2
        cases h2
    | ok i =>
      obtain ⟨cluster, hcl, -, hrun⟩ := runDiscover_of_cluster cfg flags env i hflag hfind
      cases hs : env.startErr with
      | some e =>
        have hrun2 : runDiscover cfg flags env
            = ⟨[.stdout "--> 正在通过跳板机启动 SSH SOCKS 代理...\n",
                .startFailed ⟨"ssh", proxySshArgs cluster.Bastion⟩,
                .stderr ("启动 SSH 代理时出错: " ++ e ++ "\n")], .exited 1, cfg⟩ := by
          rw [hrun]
          simp [discoverCluster, hs]
        refine ⟨by rw [hrun2], by rw [hrun2], by rw [hrun2]; rfl, by rw [hrun2]; rfl,
          fun h => absurd h hflag, ?_, ?_⟩
        · intro e2 _ h2
          cases h2
        · intro i2 _ h2
          cases h2
          refine ⟨cluster, hcl, ?_, ?_⟩
          · intro e2 h3
            cases h3
            exact hrun2
          · intro h3
            cases h3
      | none =>
        have hrun2 : runDiscover cfg flags env
            = ⟨[.stdout "--> 正在通过跳板机启动 SSH SOCKS 代理...\n",
                .start ⟨"ssh", proxySshArgs cluster.Bastion⟩,
                .stdout ("--> SSH SOCKS 代理已在端口 1080 上成功启动 (PID: "
                  ++ toString env.pid ++ ")\n"),
                .sleep 2,
                .stderr ("解析 IP 范围时出错: invalid " ++ err.kind ++ ": " ++ err.text
                  ++ "\n")],
              .exited 1, cfg⟩ := by
          rw [hrun]
          simp [discoverCluster, hs, hlist, tunnelStarted]
        refine ⟨by rw [hrun2], by rw [hrun2], by rw [hrun2]; rfl, by rw [hrun2]; rfl,
          fun h => absurd h hflag, ?_, ?_⟩
        · intro e2 _ h2
          cases h2
        · intro i2 _ h2
          cases h2
          refine ⟨cluster, hcl, ?_, ?_⟩
          · intro e2 h3
            cases h3
          · intro _
            exact hrun2

/-- Witness for the amended C8, at the malformed range `10.0.0.0/33` on the sample
configuration: through `kgate nodes discover` the flow ends at the flag check with
status 1; on a command with the flag `cluster` set to `east` it ends with status 1
without a dial, after the tunnel start. -/
theorem runDiscover_malformed_range_witness :
    ParseCIDR (sampleDiscoverEnv "10.0.0.0/33").discoverRange
        = .error ⟨"CIDR address", "10.0.0.0/33"⟩
    ∧ (runDiscover sampleConfig (discoverCmdFlags (sampleDiscoverEnv "10.0.0.0/33"))
        (sampleDiscoverEnv "10.0.0.0/33")).ending = .exited 1
    ∧ runDiscover sampleConfig (discoverCmdFlags (sampleDiscoverEnv "10.0.0.0/33"))
        (sampleDiscoverEnv "10.0.0.0/33")
      = ⟨[.stderr "错误: discover 命令需要 --cluster 标志。\n"], .exited 1, sampleConfig⟩
    ∧ (runDiscover sampleConfig (clusterAndDiscoverFlags "east" (sampleDiscoverEnv "10.0.0.0/33"))
        (sampleDiscoverEnv "10.0.0.0/33")).trace.filter Event.isDial = [] :=
  ⟨by decide,
    (runDiscover_malformed_range sampleConfig (discoverCmdFlags (sampleDiscoverEnv "10.0.0.0/33"))
      (sampleDiscoverEnv "10.0.0.0/33") ⟨"CIDR address", "10.0.0.0/33"⟩ (by decide)).1,
    (runDiscover_malformed_range sampleConfig (discoverCmdFlags (sampleDiscoverEnv "10.0.0.0/33"))
      (sampleDiscoverEnv "10.0.0.0/33") ⟨"CIDR address", "10.0.0.0/33"⟩
      (by decide)).2.2.2.2.1 (by decide),
    (runDiscover_malformed_range sampleConfig
      (clusterAndDiscoverFlags "east" (sampleDiscoverEnv "10.0.0.0/33"))
      (sampleDiscoverEnv "10.0.0.0/33") ⟨"CIDR address", "10.0.0.0/33"⟩ (by decide)).2.2.1⟩

/-- C9, for `runDiscover` called on a command that defines the flag `cluster` (value
`east`), on the sample configuration, the tunnel process starting. At the range
`bad` the flow ends with `os.Exit(1)` after the parse error; with a valid range and
a failing construction of the dialer, or a dialer without `DialContext`, it ends
with `os.Exit(1)` as well. In the three runs the tunnel process has been started
and no termination of its process group is in the trace. -/
theorem runDiscover_parse_failure_leaves_tunnel :
    GetString (clusterAndDiscoverFlags "east" (sampleDiscoverEnv "bad")) "cluster" = ("east", none)
    ∧ ((runDiscover sampleConfig (clusterAndDiscoverFlags "east" (sampleDiscoverEnv "bad"))
          (sampleDiscoverEnv "bad")).trace.filter Event.isStart
        = [.start ⟨"ssh", ["-N", "-D", "127.0.0.1:1080", "ops@b1"]⟩])
    ∧ (runDiscover sampleConfig (clusterAndDiscoverFlags "east" (sampleDiscoverEnv "bad"))
          (sampleDiscoverEnv "bad")).ending = .exited 1
    ∧ (runDiscover sampleConfig (clusterAndDiscoverFlags "east" (sampleDiscoverEnv "bad"))
          (sampleDiscoverEnv "bad")).trace.filter Event.isKill = []
    ∧ runDiscover sampleConfig (clusterAndDiscoverFlags "east" (sampleDiscoverEnv "10.0.0.0/29"))
          { sampleDiscoverEnv "10.0.0.0/29" with socksErr := some "no proxy" }
        = ⟨[.stdout "--> 正在通过跳板机启动 SSH SOCKS 代理...\n",
            .start ⟨"ssh", ["-N", "-D", "127.0.0.1:1080", "ops@b1"]⟩,
            .stdout "--> SSH SOCKS 代理已在端口 1080 上成功启动 (PID: 4242)\n",
            .sleep 2,
            .stderr "创建 SOCKS5 拨号器时出错: no proxy\n"],
          .exited 1, sampleConfig⟩
    ∧ runDiscover sampleConfig (clusterAndDiscoverFlags "east" (sampleDiscoverEnv "10.0.0.0/29"))
          { sampleDiscoverEnv "10.0.0.0/29" with hasContext := false }
        = ⟨[.stdout "--> 正在通过跳板机启动 SSH SOCKS 代理...\n",
            .start ⟨"ssh", ["-N", "-D", "127.0.0.1:1080", "ops@b1"]⟩,
            .stdout "--> SSH SOCKS 代理已在端口 1080 上成功启动 (PID: 4242)\n",
            .sleep 2,
            .stderr "错误: 拨号器不支持 context。\n"],
          .exited 1, sampleConfig⟩ := by
  decide

theorem addHosts_trace_mem (env : DiscoverEnv) (i : Nat) (user : String)
    (hosts : List String) (cfg : Config) (tr : List Event) (e : Event) (he : e ∈ tr) :
    e ∈ (addHosts env i user hosts cfg tr).2 := by
  induction hosts generalizing cfg tr with
  | nil => simpa [addHosts] using he
  | cons host rest ih =>
    simp only [addHosts]
    exact ih _ _ (List.mem_append_left _ he)

/-- Support for C9: on every path on which the flow returns, the scan has finished
(`wg.Wait()` has returned) and the last thing the flow does is the deferred
termination of the tunnel's process group. -/
theorem discoverCluster_returned_kills_last (cfg : Config) (env : DiscoverEnv) (i : Nat)
    (cluster : Cluster) (h : (discoverCluster cfg env i cluster).ending = .returned) :
    ∃ pre, (discoverCluster cfg env i cluster).trace = pre ++ deferredKill env
      ∧ Event.workersDone ∈ pre := by
  unfold discoverCluster at h ⊢
  cases hs : env.startErr with
  | some e => simp [hs] at h
  | none =>
    simp only [hs] at h ⊢
    cases hl : ipListFromCIDR env.fuel env.discoverRange with
    | none => simp [hl] at h
    | some r =>
      cases r with
      | error e => simp [hl] at h
      | ok ips =>
        simp only [hl] at h ⊢
        cases hk : env.socksErr with
        | some e => simp [hk] at h
        | none =>
          simp only [hk] at h ⊢
          by_cases hc : env.hasContext = true
          · by_cases hw : env.discoverWorkers < 0
            · simp [hc, hw] at h
            · by_cases hd : env.discoverWorkers = 0 ∧ ips ≠ []
              · simp [hc, hw, hd] at h
              · simp only [hc, hw, hd, not_true_eq_false, if_false]
                split
                · exact ⟨_, rfl, by simp [scanDone, scanEvents]⟩
                · split
                  · exact ⟨_, rfl, by simp [scanDone, scanEvents]⟩
                  · refine ⟨_, rfl, ?_⟩
                    apply List.mem_append_left
                    apply List.mem_append_left
                    apply addHosts_trace_mem
                    split <;> simp [scanDone, scanEvents]
          · simp [hc] at h

/-- Witness for the support lemma of C9: a scan of `10.0.0.0/29` that finds new
hosts and is not confirmed by the operator. -/
theorem discoverCluster_returned_kills_last_witness :
    ∃ pre, (discoverCluster sampleConfig (sampleDiscoverEnv "10.0.0.0/29") 0
        ⟨"east", ⟨"b1", "ops", 0, ""⟩,
          [⟨"web", "10.0.0.1", "root"⟩, ⟨"db", "10.0.0.2", "root"⟩]⟩).trace
        = pre ++ deferredKill (sampleDiscoverEnv "10.0.0.0/29")
      ∧ Event.workersDone ∈ pre :=
  discoverCluster_returned_kills_last sampleConfig (sampleDiscoverEnv "10.0.0.0/29") 0 _
    (by decide)

/-- Support for C9: on every path on which the tunnel process has started and the
flow ends with `os.Exit`, no termination of the process group is performed. -/
theorem discoverCluster_exit_skips_kill (cfg : Config) (env : DiscoverEnv) (i : Nat)
    (cluster : Cluster) (hstart : env.startErr = none) (status : Int)
    (h : (discoverCluster cfg env i cluster).ending = .exited status) :
    Event.start ⟨"ssh", proxySshArgs cluster.Bastion⟩ ∈ (discoverCluster cfg env i cluster).trace
      ∧ (discoverCluster cfg env i cluster).trace.filter Event.isKill = [] := by
  unfold discoverCluster at h ⊢
  simp only [hstart] at h ⊢
  cases hl : ipListFromCIDR env.fuel env.discoverRange with
  | none => simp [hl] at h
  | some r =>
    cases r with
    | error e => simp [hl, tunnelStarted, Event.isKill]
    | ok ips =>
      simp only [hl] at h ⊢
      cases hk : env.socksErr with
      | some e => simp [hk, tunnelStarted, Event.isKill]
      | none =>
        simp only [hk] at h ⊢
        by_cases hc : env.hasContext = true
        · by_cases hw : env.discoverWorkers < 0
          · simp [hc, hw] at h
          · by_cases hd : env.discoverWorkers = 0 ∧ ips ≠ []
            · simp [hc, hw, hd] at h
            · simp only [hc, hw, hd, not_true_eq_false, if_false] at h
              split at h
              · simp at h
              · split at h <;> simp at h
        · simp [hc, tunnelStarted, Event.isKill]

/-- Witness for the second support lemma of C9: the range `bad`. -/
theorem discoverCluster_exit_skips_kill_witness :
    Event.start ⟨"ssh", proxySshArgs ⟨"b1", "ops", 0, ""⟩⟩
        ∈ (discoverCluster sampleConfig (sampleDiscoverEnv "bad") 0
            ⟨"east", ⟨"b1", "ops", 0, ""⟩, []⟩).trace
      ∧ (discoverCluster sampleConfig (sampleDiscoverEnv "bad") 0
            ⟨"east", ⟨"b1", "ops", 0, ""⟩, []⟩).trace.filter Event.isKill = [] :=
  discoverCluster_exit_skips_kill sampleConfig (sampleDiscoverEnv "bad") 0
    ⟨"east", ⟨"b1", "ops", 0, ""⟩, []⟩ rfl 1 (by decide)

/-! ## The transfer orchestration -/

/-- C10, counterexample: an upload in which producer (local `tar`) and consumer (the
nested `ssh`) both exit with a failure. The flow ends with status 1 right after the
wait for the consumer: the producer is never waited for, and nothing names its
failure. -/
theorem upload_both_fail_skips_producer_wait :
    upload sampleConfig (sampleScpEnv (some "exit status 2") (some "exit status 255"))
        ⟨"b1", "ops", 0, ""⟩ ⟨"web", "10.0.0.1", "root"⟩ "/srv/data" "/tmp"
      = ⟨[.start ⟨"tar", ["cf", "-", "-C", "/srv", "data"]⟩,
          .start ⟨"ssh", ["ops@b1", "ssh root@10.0.0.1 \"mkdir -p /tmp && tar xf - -C /tmp\""]⟩,
          .wait ⟨"ssh", ["ops@b1", "ssh root@10.0.0.1 \"mkdir -p /tmp && tar xf - -C /tmp\""]⟩],
        .exited 1, sampleConfig⟩
    ∧ (upload sampleConfig (sampleScpEnv (some "exit status 2") (some "exit status 255"))
        ⟨"b1", "ops", 0, ""⟩ ⟨"web", "10.0.0.1", "root"⟩ "/srv/data" "/tmp").trace.filter
        (Event.isWaitFor ⟨"tar", ["cf", "-", "-C", "/srv", "data"]⟩) = []
    ∧ download sampleConfig (sampleScpEnv (some "exit status 255") (some "exit status 2"))
        ⟨"b1", "ops", 0, ""⟩ ⟨"web", "10.0.0.1", "root"⟩ "/srv/data" "/tmp"
      = ⟨[.start ⟨"ssh", ["ops@b1", "ssh root@10.0.0.1 \"tar cf - -C /srv data\""]⟩,
          .start ⟨"tar", ["xf", "-", "-C", "/tmp"]⟩,
          .wait ⟨"tar", ["xf", "-", "-C", "/tmp"]⟩,
          .stderr "Error during local tar execution: exit status 2\n"],
        .exited 1, sampleConfig⟩ := by
  decide

/-- C10, amended. With the pipe created and both processes started: when the
producer exits with a failure and the consumer exits successfully, `upload` and
`download` wait for the consumer, then for the producer, report the producer's
failure and exit with status 1; when the consumer exits with a failure, both end
with status 1 right after the wait for the consumer, whatever the producer's
result, without waiting for the producer (`download` reports the consumer's
failure, `upload` prints nothing). -/
theorem transfer_producer_failure (cfg : Config) (env : ScpEnv) (bastion : Bastion)
    (node : Node) (src dst : String)
    (hpipe : env.pipeErr = none) (hps : env.producerStartErr = none)
    (hcs : env.consumerStartErr = none) :
    (∀ perr, env.producerWaitErr = some perr → env.consumerWaitErr = none →
      upload cfg env bastion node src dst
        = ⟨[.start (uploadLocalCmd env src), .start (uploadBastionCmd bastion node dst),
            .wait (uploadBastionCmd bastion node dst), .wait (uploadLocalCmd env src),
            .stderr ("Error waiting for local tar command: " ++ perr ++ "\n")],
          .exited 1, cfg⟩
      ∧ download cfg env bastion node src dst
        = ⟨[.start (downloadBastionCmd env bastion node src), .start (downloadLocalCmd env dst),
            .wait (downloadLocalCmd env dst), .wait (downloadBastionCmd env bastion node src),
            .stderr ("Error waiting for bastion ssh command: " ++ perr ++ "\n")],
          .exited 1, cfg⟩)
    ∧ (∀ cerr, env.consumerWaitErr = some cerr →
      upload cfg env bastion node src dst
        = ⟨[.start (uploadLocalCmd env src), .start (uploadBastionCmd bastion node dst),
            .wait (uploadBastionCmd bastion node dst)], .exited 1, cfg⟩
      ∧ download cfg env bastion node src dst
        = ⟨[.start (downloadBastionCmd env bastion node src), .start (downloadLocalCmd env dst),
            .wait (downloadLocalCmd env dst),
            .stderr ("Error during local tar execution: " ++ cerr ++ "\n")],
          .exited 1, cfg⟩) := by
  constructor
  · intro perr hpw hcw
    simp [upload, download, hpipe, hps, hcs, hpw, hcw]
  · intro cerr hcw
    simp [upload, download, hpipe, hps, hcs, hcw]

/-- Witness for the amended C10: an upload in which the producer fails with `exit
status 2` and the consumer succeeds, and a download in which the consumer fails
with `exit status 2` and the producer succeeds. -/
theorem transfer_producer_failure_witness :
    upload sampleConfig (sampleScpEnv (some "exit status 2") none)
        ⟨"b1", "ops", 0, ""⟩ ⟨"web", "10.0.0.1", "root"⟩ "/srv/data" "/tmp"
      = ⟨[.start ⟨"tar", ["cf", "-", "-C", "/srv", "data"]⟩,
          .start ⟨"ssh", ["ops@b1", "ssh root@10.0.0.1 \"mkdir -p /tmp && tar xf - -C /tmp\""]⟩,
          .wait ⟨"ssh", ["ops@b1", "ssh root@10.0.0.1 \"mkdir -p /tmp && tar xf - -C /tmp\""]⟩,
          .wait ⟨"tar", ["cf", "-", "-C", "/srv", "data"]⟩,
          .stderr "Error waiting for local tar command: exit status 2\n"],
        .exited 1, sampleConfig⟩
    ∧ download sampleConfig (sampleScpEnv none (some "exit status 2"))
        ⟨"b1", "ops", 0, ""⟩ ⟨"web", "10.0.0.1", "root"⟩ "/srv/data" "/tmp"
      = ⟨[.start ⟨"ssh", ["ops@b1", "ssh root@10.0.0.1 \"tar cf - -C /srv data\""]⟩,
          .start ⟨"tar", ["xf", "-", "-C", "/tmp"]⟩,
          .wait ⟨"tar", ["xf", "-", "-C", "/tmp"]⟩,
          .stderr "Error during local tar execution: exit status 2\n"],
        .exited 1, sampleConfig⟩ :=
  ⟨((transfer_producer_failure sampleConfig (sampleScpEnv (some "exit status 2") none)
      ⟨"b1", "ops", 0, ""⟩ ⟨"web", "10.0.0.1", "root"⟩ "/srv/data" "/tmp"
      rfl rfl rfl).1 "exit status 2" rfl rfl).1,
    ((transfer_producer_failure sampleConfig (sampleScpEnv none (some "exit status 2"))
      ⟨"b1", "ops", 0, ""⟩ ⟨"web", "10.0.0.1", "root"⟩ "/srv/data" "/tmp"
      rfl rfl rfl).2 "exit status 2" rfl).2⟩

/-! ## The new hosts of the discovery flow -/

/-- What is read from the channel is a rearrangement of the queued addresses that
accepted a connection. -/
theorem openHostsOf_perm (accepts : String → Bool) (reportTime : Nat → Nat)
    (ipsToScan : List String) (port : String) :
    (openHostsOf accepts reportTime ipsToScan port).Perm
      (ipsToScan.filter (fun ip => accepts (ip ++ ":" ++ port))) := by
  unfold openHostsOf
  have h1 := (List.perm_insertionSort (fun p q : Nat × String => reportTime p.1 ≤ reportTime q.1)
    (ipsToScan.enum.filter (fun p => accepts (p.2 ++ ":" ++ port)))).map (fun p => p.2)
  refine h1.trans ?_
  have h2 : (ipsToScan.enum.filter (fun p => accepts (p.2 ++ ":" ++ port))).map (fun p => p.2)
      = (ipsToScan.enum.map (fun p => p.2)).filter (fun ip => accepts (ip ++ ":" ++ port)) := by
    rw [List.filter_map]
    rfl
  rw [h2]
  have h3 : ipsToScan.enum.map (fun p => p.2) = ipsToScan := List.enum_map_snd ipsToScan
  rw [h3]

/-- Step 6 on any list read from the channel: a host is new iff it was read and is
the IP of no node of the cluster; the new hosts keep the order and the
multiplicities of what was read. -/
theorem newHostsOf_exact (cluster : Cluster) (openHosts : List String) :
    (∀ host, host ∈ newHostsOf cluster openHosts ↔
        host ∈ openHosts ∧ ∀ node ∈ cluster.Nodes, node.IP ≠ host)
    ∧ (newHostsOf cluster openHosts).Sublist openHosts
    ∧ (openHosts.Nodup → (newHostsOf cluster openHosts).Nodup) := by
  refine ⟨?_, List.filter_sublist _, fun h => h.filter _⟩
  intro host
  simp [newHostsOf, List.mem_filter]

/-- Witness: two hosts accept, one of them is the node `web` of the cluster. -/
theorem newHostsOf_exact_witness :
    ["10.0.0.3", "10.0.0.1"].Nodup
      ∧ (newHostsOf ⟨"east", ⟨"b1", "ops", 0, ""⟩, [⟨"web", "10.0.0.1", "root"⟩]⟩
          ["10.0.0.3", "10.0.0.1"]).Nodup
      ∧ newHostsOf ⟨"east", ⟨"b1", "ops", 0, ""⟩, [⟨"web", "10.0.0.1", "root"⟩]⟩
          ["10.0.0.3", "10.0.0.1"] = ["10.0.0.3"] :=
  ⟨by decide,
    (newHostsOf_exact ⟨"east", ⟨"b1", "ops", 0, ""⟩, [⟨"web", "10.0.0.1", "root"⟩]⟩
      ["10.0.0.3", "10.0.0.1"]).2.2 (by decide),
    by decide⟩

/-- The configuration after the loop of step 7: the cluster at `i` has one more node
for every new host, in their order, with the alias the operator gave and the common
user name; nothing else changes. -/
theorem addHosts_cfg (env : DiscoverEnv) (i : Nat) (user : String) (hosts : List String)
    (cfg : Config) (tr : List Event) :
    (addHosts env i user hosts cfg tr).1
      = { cfg with Clusters := (cfg.Clusters.modify
            (fun cl => { cl with Nodes := (cl.Nodes
              ++ hosts.map (fun host => ⟨env.aliasAnswer host, host, user⟩)) }) i) } := by
  induction hosts generalizing cfg tr with
  | nil =>
    have hid : (fun cl : Cluster => ({ cl with Nodes := (cl.Nodes
        ++ ([] : List String).map (fun host => (⟨env.aliasAnswer host, host, user⟩ : Node))) }
          : Cluster)) = id := by
      funext cl
      simp
    simp only [addHosts]
    rw [hid, List.modify_id]
  | cons host rest ih =>
    simp only [addHosts]
    rw [ih]
    simp only [Config.addNodeAt, List.modify_modify_eq]
    congr 2
    funext cl
    simp [Cluster.AddNode, List.append_assoc]

/-- The events of the loop of step 7 come after the events before it. -/
theorem addHosts_trace_append (env : DiscoverEnv) (i : Nat) (user : String)
    (hosts : List String) (cfg : Config) (tr : List Event) :
    ∃ rest, (addHosts env i user hosts cfg tr).2 = tr ++ rest := by
  induction hosts generalizing cfg tr with
  | nil => exact ⟨[], by simp [addHosts]⟩
  | cons host rest ih =>
    simp only [addHosts]
    obtain ⟨r, hr⟩ := ih (cfg.addNodeAt i (env.aliasAnswer host) host user)
      (tr ++ [.stdout ("\n--- 正在添加主机 " ++ host ++ " ---\n"),
        .prompt ("为此主机 '" ++ host ++ "' 输入别名"),
        .stdout ("已添加节点: " ++ env.aliasAnswer host ++ " (" ++ host ++ ")，用户名为 " ++ user
          ++ "\n")])
    exact ⟨_, by rw [hr, List.append_assoc]⟩

/-- C11. In `runDiscover` for a target cluster, once the scan is over (the tunnel
started, the range parsed to `ips`, the dialer built, at least one worker or
nothing to scan), for
every choice of accepting addresses and every order in which the workers report:
the new hosts are exactly the scanned addresses that accepted a connection and
are the IP of no node of the cluster, without repetition when the scanned list has
none. They are what the flow prints as new, one line each, and, when the operator
confirms, what it adds to the cluster as nodes; when there is none, the flow says
so and leaves the configuration as it was. -/
theorem discoverCluster_reports_new_hosts (cfg : Config) (env : DiscoverEnv) (i : Nat)
    (cluster : Cluster) (ips newHosts : List String)
    (hstart : env.startErr = none)
    (hlist : ipListFromCIDR env.fuel env.discoverRange = some (.ok ips))
    (hsocks : env.socksErr = none) (hctx : env.hasContext = true)
    (hworkers : 0 < env.discoverWorkers ∨ (env.discoverWorkers = 0 ∧ ips = []))
    (hnew : newHosts
      = newHostsOf cluster (openHostsOf env.accepts env.reportTime ips env.discoverPort)) :
    (∀ host, host ∈ newHosts ↔
        host ∈ ips ∧ env.accepts (host ++ ":" ++ env.discoverPort) = true
          ∧ ∀ node ∈ cluster.Nodes, node.IP ≠ host)
    ∧ (ips.Nodup → newHosts.Nodup)
    ∧ (newHosts = [] →
        discoverCluster cfg env i cluster
          = ⟨scanDone env cluster ips ++ [.stdout "\n--> 未发现新主机。\n"] ++ deferredKill env,
            .returned, cfg⟩)
    ∧ (newHosts ≠ [] →
        (discoverCluster cfg env i cluster).ending = .returned
        ∧ (∃ rest, (discoverCluster cfg env i cluster).trace
            = scanDone env cluster ips ++ newHostsReport newHosts ++ rest)
        ∧ (env.confirmed = false → (discoverCluster cfg env i cluster).cfg = cfg)
        ∧ (env.confirmed = true →
            (discoverCluster cfg env i cluster).cfg
              = { cfg with Clusters := (cfg.Clusters.modify
                    (fun cl => { cl with Nodes := (cl.Nodes ++ newHosts.map (fun host =>
                      ⟨env.aliasAnswer host, host,
                        if env.discoverDefaultUser = "" then env.userAnswer
                        else env.discoverDefaultUser⟩)) }) i) })) := by
  have hperm := openHostsOf_perm env.accepts env.reportTime ips env.discoverPort
  have hw1 : ¬ env.discoverWorkers < 0 := by
    rcases hworkers with h | ⟨h, -⟩ <;> omega
  have hw2 : ¬ (env.discoverWorkers = 0 ∧ ips ≠ []) := by
    rintro ⟨h0, hne⟩
    rcases hworkers with h | ⟨-, h⟩
    · omega
    · exact hne h
  have hfilter : (openHostsOf env.accepts env.reportTime ips env.discoverPort).filter
      (fun host => !(cluster.Nodes.map (fun node => node.IP)).contains host) = newHosts := by
    rw [hnew]
    rfl
  refine ⟨?_, ?_, ?_, ?_⟩
  · intro host
    rw [hnew, (newHostsOf_exact cluster _).1, hperm.mem_iff, List.mem_filter]
    simp only [and_assoc]
  · intro hnd
    rw [hnew]
    exact (newHostsOf_exact cluster _).2.2 (hperm.nodup_iff.2 (hnd.filter _))
  · intro hnil
    simp only [discoverCluster, hstart, hlist, hsocks, hctx, hw1, hw2, hfilter, hnil,
      not_true_eq_false, if_false, List.length_nil, if_true]
  · intro hne
    have hlen : ¬ newHosts.length = 0 := by
      intro h
      exact hne (List.length_eq_zero.1 h)
    cases hconf : env.confirmed with
    | false =>
      have hrun : discoverCluster cfg env i cluster
          = ⟨scanDone env cluster ips ++ newHostsReport newHosts ++ [.stdout "操作已中止。\n"]
              ++ deferredKill env, .returned, cfg⟩ := by
        simp only [discoverCluster, hstart, hlist, hsocks, hctx, hw1, hw2, hfilter, hlen, hconf,
          not_true_eq_false, if_false, Bool.false_eq_true, not_false_eq_true, if_true]
      rw [hrun]
      exact ⟨rfl, ⟨[.stdout "操作已中止。\n"] ++ deferredKill env, by
        simp only [List.append_assoc]⟩, fun _ => rfl, fun h => by cases h⟩
    | true =>
      obtain ⟨r, hr⟩ := addHosts_trace_append env i
        (if env.discoverDefaultUser = "" then env.userAnswer else env.discoverDefaultUser)
        newHosts cfg
        (if env.discoverDefaultUser = "" then
          scanDone env cluster ips ++ newHostsReport newHosts
            ++ [.prompt "为所有新主机输入一个通用的用户名 (可稍后逐个修改)"]
        else scanDone env cluster ips ++ newHostsReport newHosts)
      have hrun : discoverCluster cfg env i cluster
          = ⟨(if env.discoverDefaultUser = "" then
                scanDone env cluster ips ++ newHostsReport newHosts
                  ++ [.prompt "为所有新主机输入一个通用的用户名 (可稍后逐个修改)"]
              else scanDone env cluster ips ++ newHostsReport newHosts) ++ r ++ [.save]
              ++ (match env.saveErr with
                | some err => [.stderr ("\n保存配置时出错: " ++ err ++ "\n")]
                | none => [.stdout "\n✅ 配置已成功保存！\n"])
              ++ deferredKill env, .returned,
            (addHosts env i
              (if env.discoverDefaultUser = "" then env.userAnswer
                else env.discoverDefaultUser) newHosts cfg
              (if env.discoverDefaultUser = "" then
                scanDone env cluster ips ++ newHostsReport newHosts
                  ++ [.prompt "为所有新主机输入一个通用的用户名 (可稍后逐个修改)"]
              else scanDone env cluster ips ++ newHostsReport newHosts)).1⟩ := by
        simp only [discoverCluster, hstart, hlist, hsocks, hctx, hw1, hw2, hfilter, hlen, hconf,
          not_true_eq_false, if_false, hr]
      rw [hrun]
      refine ⟨rfl, ?_, fun h => absurd h (by decide),
        fun _ => addHosts_cfg env i _ newHosts cfg _⟩
      by_cases hu : env.discoverDefaultUser = ""
      · simp only [hu, if_true, List.append_assoc]
        exact ⟨_, rfl⟩
      · simp only [hu, if_false, List.append_assoc]
        exact ⟨_, rfl⟩

/-- Witness for C11: a scan of `10.0.0.0/29` on the cluster `east`, in which
`10.0.0.1`, `10.0.0.3` and `10.0.0.5` accept and the workers report in the reverse
of the queue order. The new hosts are `10.0.0.5` and `10.0.0.3`: the known node
`10.0.0.1` is left out; the operator confirms and two nodes are added to `east`. -/
theorem discoverCluster_reports_new_hosts_witness :
    ipListFromCIDR 16 "10.0.0.0/29"
        = some (.ok ["10.0.0.1", "10.0.0.2", "10.0.0.3", "10.0.0.4", "10.0.0.5", "10.0.0.6"])
    ∧ openHostsOf (sampleDiscoverEnv "10.0.0.0/29").accepts
          (sampleDiscoverEnv "10.0.0.0/29").reportTime
          ["10.0.0.1", "10.0.0.2", "10.0.0.3", "10.0.0.4", "10.0.0.5", "10.0.0.6"] "22"
        = ["10.0.0.5", "10.0.0.3", "10.0.0.1"]
    ∧ (["10.0.0.5", "10.0.0.3"] : List String).Nodup
    ∧ (∃ rest, (discoverCluster sampleConfig
          { sampleDiscoverEnv "10.0.0.0/29" with confirmed := true } 0
          ⟨"east", ⟨"b1", "ops", 0, ""⟩,
            [⟨"web", "10.0.0.1", "root"⟩, ⟨"db", "10.0.0.2", "root"⟩]⟩).trace
        = scanDone { sampleDiscoverEnv "10.0.0.0/29" with confirmed := true }
            ⟨"east", ⟨"b1", "ops", 0, ""⟩,
              [⟨"web", "10.0.0.1", "root"⟩, ⟨"db", "10.0.0.2", "root"⟩]⟩
            ["10.0.0.1", "10.0.0.2", "10.0.0.3", "10.0.0.4", "10.0.0.5", "10.0.0.6"]
          ++ newHostsReport ["10.0.0.5", "10.0.0.3"] ++ rest)
    ∧ (discoverCluster sampleConfig
          { sampleDiscoverEnv "10.0.0.0/29" with confirmed := true } 0
          ⟨"east", ⟨"b1", "ops", 0, ""⟩,
            [⟨"web", "10.0.0.1", "root"⟩, ⟨"db", "10.0.0.2", "root"⟩]⟩).cfg.Clusters
        = [⟨"east", ⟨"b1", "ops", 0, ""⟩,
            [⟨"web", "10.0.0.1", "root"⟩, ⟨"db", "10.0.0.2", "root"⟩,
              ⟨"node-10.0.0.5", "10.0.0.5", "root"⟩, ⟨"node-10.0.0.3", "10.0.0.3", "root"⟩]⟩,
          ⟨"west", ⟨"b2", "ops", 0, "/k"⟩, [⟨"db", "10.1.0.2", "admin"⟩]⟩] := by
  have h := discoverCluster_reports_new_hosts sampleConfig
    { sampleDiscoverEnv "10.0.0.0/29" with confirmed := true } 0
    ⟨"east", ⟨"b1", "ops", 0, ""⟩, [⟨"web", "10.0.0.1", "root"⟩, ⟨"db", "10.0.0.2", "root"⟩]⟩
    ["10.0.0.1", "10.0.0.2", "10.0.0.3", "10.0.0.4", "10.0.0.5", "10.0.0.6"]
    ["10.0.0.5", "10.0.0.3"] rfl (by decide) rfl rfl (Or.inl (by decide)) (by decide)
  have h4 := h.2.2.2 (by decide)
  refine ⟨by decide, by decide, h.2.1 (by decide), h4.2.1, ?_⟩
  rw [h4.2.2.2 rfl]
  decide

/-! ## Well-formedness of the topology under the commands -/

/-- Changing one entry by a function that keeps a key keeps the list of keys. -/
theorem map_modify_of_key {α β : Type} (key : α → β) (f : α → α)
    (hf : ∀ a, key (f a) = key a) (l : List α) (i : Nat) :
    (l.modify f i).map key = l.map key := by
  induction l generalizing i with
  | nil => simp
  | cons a rest ih =>
    cases i with
    | zero => simp [hf]
    | succ k => simp [ih k]

/-- An entry of a list changed at `i` is an old entry or the changed one. -/
theorem mem_modify_cases {α : Type} (f : α → α) (l : List α) (i : Nat) (x : α)
    (h : x ∈ l.modify f i) : x ∈ l ∨ ∃ y, l[i]? = some y ∧ x = f y := by
  induction l generalizing i with
  | nil => simp at h
  | cons a rest ih =>
    cases i with
    | zero =>
      simp only [List.modify_zero_cons, List.mem_cons] at h
      rcases h with h | h
      · exact Or.inr ⟨a, by simp, h⟩
      · exact Or.inl (List.mem_cons_of_mem _ h)
    | succ k =>
      simp only [List.modify_succ_cons, List.mem_cons] at h
      rcases h with h | h
      · exact Or.inl (by simp [h])
      · rcases ih k h with h2 | ⟨y, hy, hxy⟩
        · exact Or.inl (List.mem_cons_of_mem _ h2)
        · exact Or.inr ⟨y, by simpa using hy, hxy⟩

/-- The changed entry is in the list changed at `i`. -/
theorem mem_modify_at {α : Type} (f : α → α) (l : List α) (i : Nat) (y : α)
    (h : l[i]? = some y) : f y ∈ l.modify f i := by
  induction l generalizing i with
  | nil => simp at h
  | cons a rest ih =>
    cases i with
    | zero =>
      simp at h
      simp [h]
    | succ k =>
      simp at h
      simp [ih k h]

/-- A list with one more entry at its end has distinct keys iff it had and the new
key is not among them. -/
theorem nodup_map_append_one {α β : Type} (key : α → β) (l : List α) (a : α) :
    ((l ++ [a]).map key).Nodup ↔ (l.map key).Nodup ∧ ∀ x ∈ l, key x ≠ key a := by
  simp only [List.map_append, List.map_cons, List.map_nil, List.nodup_append,
    List.nodup_singleton, true_and, List.disjoint_singleton, List.mem_map, not_exists, not_and]

/-- Replacing the nodes of the cluster at `i` keeps the invariant when the new nodes
have distinct aliases. -/
theorem wellFormed_modify_nodes (cfg : Config) (hwf : cfg.wellFormed) (i : Nat)
    (nodes : Cluster → List Node)
    (hn : ∀ cl, cfg.Clusters[i]? = some cl → ((nodes cl).map (fun n => n.Alias)).Nodup) :
    Config.wellFormed
      { cfg with Clusters := cfg.Clusters.modify (fun cl => { cl with Nodes := nodes cl }) i } := by
  refine ⟨?_, ?_⟩
  · show ((cfg.Clusters.modify (fun cl => { cl with Nodes := nodes cl }) i).map
      (fun cl => cl.Name)).Nodup
    rw [map_modify_of_key (fun cl : Cluster => cl.Name)
      (fun cl => { cl with Nodes := nodes cl }) (fun _ => rfl)]
    exact hwf.1
  · intro cl hcl
    rcases mem_modify_cases _ _ _ _ hcl with h | ⟨y, hy, rfl⟩
    · exact hwf.2 cl h
    · exact hn y hy

/-- The index returned by the search of a cluster is an index of the list. -/
theorem findClusterFrom_get (name : String) (cs : List Cluster) (i : Nat)
    (h : findClusterFrom name cs 0 = some i) : ∃ cl, cs[i]? = some cl ∧ cl.Name = name := by
  obtain ⟨i0, cl, hi, hget, hname⟩ := findClusterFrom_eq_some name cs 0 i h
  have : i = i0 := by omega
  subst this
  exact ⟨cl, hget, hname⟩

/-- Adding a node to the cluster at `i` keeps the invariant iff the alias is new
in that cluster. -/
theorem wellFormed_append_node (cfg : Config) (hwf : cfg.wellFormed) (i : Nat) (cl : Cluster)
    (hcl : cfg.Clusters[i]? = some cl) (newNode : Node) :
    Config.wellFormed
        { cfg with Clusters :=
            cfg.Clusters.modify (fun c => { c with Nodes := c.Nodes ++ [newNode] }) i }
      ↔ ∀ n ∈ cl.Nodes, n.Alias ≠ newNode.Alias := by
  constructor
  · intro h
    have hmem := mem_modify_at (fun c : Cluster => { c with Nodes := c.Nodes ++ [newNode] })
      cfg.Clusters i cl hcl
    exact ((nodup_map_append_one (fun n : Node => n.Alias) cl.Nodes newNode).1
      (h.2 _ hmem)).2
  · intro h
    refine wellFormed_modify_nodes cfg hwf i (fun c => c.Nodes ++ [newNode]) ?_
    intro c hc
    have hcc : c = cl := by
      rw [hcl] at hc
      exact (Option.some.inj hc).symm
    subst hcc
    exact (nodup_map_append_one (fun n : Node => n.Alias) c.Nodes newNode).2
      ⟨hwf.2 c (List.getElem?_mem hcl), h⟩

/-- Support for C12: the two removing commands keep the invariant, whatever is
selected. -/
theorem wellFormed_remove (cfg : Config) (hwf : cfg.wellFormed) :
    (∀ result, (configRemove cfg result).wellFormed)
    ∧ (∀ clusterName result, (nodesRemove cfg clusterName result).wellFormed) := by
  constructor
  · intro result
    unfold configRemove
    split
    · exact hwf
    · cases result with
      | none => exact hwf
      | some r =>
        refine ⟨hwf.1.sublist ((List.filter_sublist _).map _), ?_⟩
        intro cl hcl
        exact hwf.2 cl (List.mem_of_mem_filter hcl)
  · intro clusterName result
    unfold nodesRemove
    split
    · exact hwf
    · split
      · exact hwf
      · rename_i clusterIndex hfind
        split
        · exact hwf
        · rename_i targetCluster hget
          split
          · exact hwf
          · cases result with
            | none => exact hwf
            | some r =>
              refine wellFormed_modify_nodes cfg hwf clusterIndex
                (fun _ => targetCluster.Nodes.filter (fun n => n.Alias != r)) ?_
              intro _ _
              exact (hwf.2 targetCluster (List.getElem?_mem hget)).sublist
                ((List.filter_sublist _).map _)

/-- C12, as amended. On a well-formed configuration: `config remove` and `nodes
remove` keep the invariant; `config add` keeps it exactly when the new name is the
name of no cluster; `nodes add` and `Cluster.AddNode` keep it exactly when the new
alias is the alias of no node of the target cluster; a command whose prompt fails
leaves the configuration as it was. -/
theorem wellFormed_preserved_iff_fresh (cfg : Config) (hwf : cfg.wellFormed) :
    (∀ result, (configRemove cfg result).wellFormed)
    ∧ (∀ clusterName result, (nodesRemove cfg clusterName result).wellFormed)
    ∧ (∀ name host user identityFile,
        (configAdd cfg (some name) (some host) (some user) (some identityFile)).wellFormed
          ↔ ∀ cl ∈ cfg.Clusters, cl.Name ≠ name)
    ∧ (∀ clusterName i cl, clusterName ≠ "" → cfg.FindCluster clusterName = .ok i →
        cfg.clusterAt i = some cl → ∀ nodeAlias ip user,
          ((nodesAdd cfg clusterName (some nodeAlias) (some ip) (some user)).wellFormed
            ↔ ∀ n ∈ cl.Nodes, n.Alias ≠ nodeAlias))
    ∧ (∀ i cl, cfg.clusterAt i = some cl → ∀ nodeAlias ip user,
          ((cfg.addNodeAt i nodeAlias ip user).wellFormed
            ↔ ∀ n ∈ cl.Nodes, n.Alias ≠ nodeAlias))
    ∧ (∀ name host user identityFile,
        name = none ∨ host = none ∨ user = none ∨ identityFile = none →
          configAdd cfg name host user identityFile = cfg)
    ∧ (∀ clusterName nodeAlias ip user,
        nodeAlias = none ∨ ip = none ∨ user = none →
          nodesAdd cfg clusterName nodeAlias ip user = cfg) := by
  refine ⟨(wellFormed_remove cfg hwf).1, (wellFormed_remove cfg hwf).2, ?_, ?_, ?_, ?_, ?_⟩
  · intro name host user identityFile
    simp only [configAdd, Config.wellFormed]
    rw [nodup_map_append_one (fun cl : Cluster => cl.Name)]
    constructor
    · intro h
      exact h.1.2
    · intro h
      refine ⟨⟨hwf.1, h⟩, ?_⟩
      intro cl hcl
      rcases List.mem_append.1 hcl with h1 | h1
      · exact hwf.2 cl h1
      · rw [List.mem_singleton.1 h1]
        exact List.nodup_nil
  · intro clusterName i cl hne hfind hcl nodeAlias ip user
    have hf : findClusterFrom clusterName cfg.Clusters 0 = some i := by
      unfold Config.FindCluster at hfind
      split at hfind
      · rename_i j hj
        rw [hj]
        cases hfind
        rfl
      · cases hfind
    simp only [nodesAdd, if_neg hne, hf]
    exact wellFormed_append_node cfg hwf i cl hcl ⟨nodeAlias, ip, user⟩
  · intro i cl hcl nodeAlias ip user
    exact wellFormed_append_node cfg hwf i cl hcl ⟨nodeAlias, ip, user⟩
  · intro name host user identityFile h
    rcases h with h | h | h | h <;> subst h
    · rfl
    · cases name <;> rfl
    · cases name <;> cases host <;> rfl
    · cases name <;> cases host <;> cases user <;> rfl
  · intro clusterName nodeAlias ip user h
    unfold nodesAdd
    split
    · rfl
    · split
      · rfl
      · rcases h with h | h | h <;> subst h
        · rfl
        · cases nodeAlias <;> rfl
        · cases nodeAlias <;> cases ip <;> rfl

/-- Counterexample to C12 as stated: the sample configuration is well-formed, and it
is no longer so after `config add` with the name `east` of an existing cluster,
after `nodes add --cluster east` with the alias `web` of one of its nodes, or after
`AddNode` with that alias on the cluster `east`; in each case the entry is appended. -/
theorem add_existing_name_breaks_wellFormed :
    sampleConfig.wellFormed
      ∧ ¬ (configAdd sampleConfig (some "east") (some "b3") (some "ops") (some "")).wellFormed
      ∧ (configAdd sampleConfig (some "east") (some "b3") (some "ops") (some "")).Clusters.map
          (fun cl => cl.Name) = ["east", "west", "east"]
      ∧ ¬ (nodesAdd sampleConfig "east" (some "web") (some "10.0.0.9") (some "root")).wellFormed
      ∧ (nodesAdd sampleConfig "east" (some "web") (some "10.0.0.9") (some "root")).Clusters.map
          (fun cl => cl.Nodes.map (fun n => n.Alias)) = [["web", "db", "web"], ["db"]]
      ∧ ¬ (sampleConfig.addNodeAt 0 "web" "10.0.0.9" "root").wellFormed := by
  decide

/-- Witness for the amended C12 on the sample configuration: removing the cluster
`east`, removing the node `web`, adding a cluster `north` and adding a node `cache`
to `east` all give a well-formed configuration. -/
theorem wellFormed_preserved_iff_fresh_witness :
    sampleConfig.wellFormed
      ∧ (configRemove sampleConfig (some "east")).wellFormed
      ∧ (nodesRemove sampleConfig "east" (some "web")).wellFormed
      ∧ (configAdd sampleConfig (some "north") (some "b3") (some "ops") (some "")).wellFormed
      ∧ (nodesAdd sampleConfig "east" (some "cache") (some "10.0.0.9")
          (some "root")).wellFormed :=
  ⟨by decide,
    (wellFormed_preserved_iff_fresh sampleConfig (by decide)).1 (some "east"),
    (wellFormed_preserved_iff_fresh sampleConfig (by decide)).2.1 "east" (some "web"),
    ((wellFormed_preserved_iff_fresh sampleConfig (by decide)).2.2.1
      "north" "b3" "ops" "").2 (by decide),
    ((wellFormed_preserved_iff_fresh sampleConfig (by decide)).2.2.2.1 "east" 0
      ⟨"east", ⟨"b1", "ops", 0, ""⟩, [⟨"web", "10.0.0.1", "root"⟩, ⟨"db", "10.0.0.2", "root"⟩]⟩
      (by decide) (by decide) (by decide) "cache" "10.0.0.9" "root").2 (by decide)⟩


/-! ## `parseScpArg` -/

/-- A text splits at its first colon: what `takeWhile` and `dropWhile` return on
`a ++ ':' :: p` when `a` has no colon. -/
theorem splitAtColon (a p : List Char) (ha : ':' ∉ a) :
    (a ++ ':' :: p).takeWhile (fun c => c != ':') = a
      ∧ ((a ++ ':' :: p).dropWhile (fun c => c != ':')).drop 1 = p := by
  induction a with
  | nil => simp
  | cons c rest ih =>
    have hc : c ≠ ':' := fun e => ha (by simp [e])
    have hr : ':' ∉ rest := fun e => ha (by simp [e])
    simp [List.takeWhile_cons, List.dropWhile_cons, hc, ih hr]

/-- A text with a colon is the part before the first colon, the colon, and the rest. -/
theorem colon_decompose (cs : List Char) (h : ':' ∈ cs) :
    cs = cs.takeWhile (fun c => c != ':') ++ ':' :: (cs.dropWhile (fun c => c != ':')).drop 1
      ∧ ':' ∉ cs.takeWhile (fun c => c != ':') := by
  induction cs with
  | nil => simp at h
  | cons c rest ih =>
    by_cases hc : c = ':'
    · subst hc
      simp
    · have hr : ':' ∈ rest := by
        rcases List.mem_cons.1 h with e | e
        · exact absurd e.symm hc
        · exact e
      have := ih hr
      simp only [List.takeWhile_cons, List.dropWhile_cons, bne_iff_ne, ne_eq, hc,
        not_false_eq_true, decide_True, ite_true, List.cons_append, List.mem_cons]
      refine ⟨by rw [← this.1], ?_⟩
      rintro (e | e)
      · exact hc e.symm
      · exact this.2 e

/-- What `strings.SplitN(s, ":", 2)` returns. -/
theorem splitColon2_eq (s : String) :
    (':' ∉ s.toList ∧ splitColon2 s = [s])
    ∨ (∃ a p : String, ':' ∉ a.toList ∧ s = a ++ ":" ++ p ∧ splitColon2 s = [a, p]) := by
  by_cases h : ':' ∈ s.toList
  · right
    obtain ⟨hd, hn⟩ := colon_decompose s.toList h
    refine ⟨String.mk (s.toList.takeWhile (fun c => c != ':')),
      String.mk ((s.toList.dropWhile (fun c => c != ':')).drop 1), hn, ?_, ?_⟩
    · apply String.ext
      simpa [String.data_append] using hd
    · have hdata : ':' ∈ s.data := h
      simp [splitColon2, hdata]
  · left
    have hdata : ':' ∉ s.data := h
    exact ⟨h, by simp [splitColon2, hdata]⟩

/-- C13. The function `parseScpArg`: the argument is remote iff it is `a ++ ":" ++ p`
with `a` free of colons (the text before the first colon) and both `a` and `p`
non-empty; when remote, the alias has no colon and alias, colon and path make up
the argument; when not remote, the result is the argument, an empty path and
`false`. -/
theorem parseScpArg_remote_iff (arg : String) :
    ((parseScpArg arg).2.2 = true ↔
        ∃ a p : String, ':' ∉ a.toList ∧ a ≠ "" ∧ p ≠ "" ∧ arg = a ++ ":" ++ p)
    ∧ ((parseScpArg arg).2.2 = true →
        ':' ∉ (parseScpArg arg).1.toList
          ∧ (parseScpArg arg).1 ≠ "" ∧ (parseScpArg arg).2.1 ≠ ""
          ∧ (parseScpArg arg).1 ++ ":" ++ (parseScpArg arg).2.1 = arg)
    ∧ ((parseScpArg arg).2.2 = false → parseScpArg arg = (arg, "", false)) := by
  rcases splitColon2_eq arg with ⟨hno, hs⟩ | ⟨a, p, ha, harg, hs⟩
  · have hp : parseScpArg arg = (arg, "", false) := by simp [parseScpArg, hs]
    refine ⟨⟨fun h => by simp [hp] at h, ?_⟩, fun h => by simp [hp] at h, fun _ => hp⟩
    rintro ⟨a, p, -, -, -, e⟩
    exact absurd (by rw [e]; simp [String.data_append]) hno
  · by_cases hne : a ≠ "" ∧ p ≠ ""
    · have hp : parseScpArg arg = (a, p, true) := by simp [parseScpArg, hs, hne]
      refine ⟨⟨fun _ => ⟨a, p, ha, hne.1, hne.2, harg⟩, fun _ => by simp [hp]⟩,
        fun _ => ?_, fun h => by simp [hp] at h⟩
      rw [hp]
      exact ⟨ha, hne.1, hne.2, harg.symm⟩
    · have hp : parseScpArg arg = (arg, "", false) := by
        simp only [parseScpArg, hs, if_neg hne]
      refine ⟨⟨fun h => by simp [hp] at h, ?_⟩, fun h => by simp [hp] at h, fun _ => hp⟩
      rintro ⟨a2, p2, ha2, hane, hpne, e⟩
      exfalso
      apply hne
      have e2 : a.toList ++ ':' :: p.toList = a2.toList ++ ':' :: p2.toList := by
        have := congrArg String.toList (harg.symm.trans e)
        simpa [String.data_append] using this
      have h1 := splitAtColon a.toList p.toList ha
      have h2 := splitAtColon a2.toList p2.toList ha2
      rw [e2] at h1
      have ea : a = a2 := String.ext (h1.1.symm.trans h2.1)
      have ep : p = p2 := String.ext (h1.2.symm.trans h2.2)
      rw [ea, ep]
      exact ⟨hane, hpne⟩

/-- Examples of `parseScpArg`: a remote argument, a path with a second colon, an
empty alias, an empty path, and a local path. -/
theorem parseScpArg_examples :
    parseScpArg "web:/tmp/x" = ("web", "/tmp/x", true)
      ∧ parseScpArg "web:/tmp:x" = ("web", "/tmp:x", true)
      ∧ parseScpArg ":/tmp" = (":/tmp", "", false)
      ∧ parseScpArg "web:" = ("web:", "", false)
      ∧ parseScpArg "./local/file" = ("./local/file", "", false)
      ∧ parseScpArg "" = ("", "", false) := by
  decide

/-! ## Wrap-around of the increment -/

/-- A block that ends at the top of the IPv4 address space, `255.255.255.248/29`:
the increment wraps from `255.255.255.255` to `0.0.0.0`, which lies outside the
block, so the loop ends and the six inner addresses are returned. -/
theorem ipListFromCIDR_top_block_returns :
    incIP [255, 255, 255, 255] = [0, 0, 0, 0]
      ∧ Contains ⟨[255, 255, 255, 248], [255, 255, 255, 248]⟩ [0, 0, 0, 0] = false
      ∧ ∀ fuel, 8 < fuel →
        ipListFromCIDR fuel "255.255.255.248/29"
          = some (.ok ["255.255.255.249", "255.255.255.250", "255.255.255.251",
              "255.255.255.252", "255.255.255.253", "255.255.255.254"]) := by
  refine ⟨by decide, by decide, fun fuel hfuel => ?_⟩
  have h := ((ipListFromCIDR_large_block "255.255.255.248/29"
      [0, 0, 0, 0, 0, 0, 0, 0, 0, 0, 255, 255, 255, 255, 255, 248]
      ⟨[255, 255, 255, 248], [255, 255, 255, 248]⟩ (by decide) (by decide)
      (Or.inl (by decide))).1 fuel hfuel).2
  rw [h]
  decide

/-- C14, at the range `10.0.0.0/0`: the string is a well-formed CIDR; the increment
wraps from `255.255.255.255` to `0.0.0.0`, and that address is again in the block,
so after any number of rounds the loop of `ipListFromCIDR` is still running: the
function does not terminate. -/
theorem ipListFromCIDR_prefix0_wraps_forever :
    ParseCIDR "10.0.0.0/0"
        = .ok ([0, 0, 0, 0, 0, 0, 0, 0, 0, 0, 255, 255, 10, 0, 0, 0],
          ⟨[0, 0, 0, 0], [0, 0, 0, 0]⟩)
      ∧ incIP [255, 255, 255, 255] = [0, 0, 0, 0]
      ∧ Contains ⟨[0, 0, 0, 0], [0, 0, 0, 0]⟩ (incIP [255, 255, 255, 255]) = true
      ∧ ∀ fuel, ipListFromCIDR fuel "10.0.0.0/0" = none :=
  ⟨by decide, by decide, by decide, fun fuel =>
    (ipListFromCIDR_ipv4_prefix0 "10.0.0.0/0"
      [0, 0, 0, 0, 0, 0, 0, 0, 0, 0, 255, 255, 10, 0, 0, 0]
      ⟨[0, 0, 0, 0], [0, 0, 0, 0]⟩ (by decide) rfl fuel).2⟩

end Kgate
